import Mathlib

/-!
Verification of the fs-sim storage engine: a shallow embedding of the
on-disk structures (`structures.py`), the block device (`disk_emulator.py`)
and the file-system logic (`file_system.py`), together with proofs of the
specification claims.

Modelling conventions:
* bytes are natural numbers (byte strings are `List Nat`; values < 256 in
  all reachable states);
* machine 32-bit fields are `Nat` with explicit `% 2 ^ 32` where the
  layout wraps them (`struct.pack` of in-range values is exact, so the
  theorems carry in-range hypotheses where it matters);
* file names are represented by their UTF-8 byte encodings (the Python
  code stores names as `str` and encodes/decodes at the pack/unpack
  boundary; on valid UTF-8 both views agree byte for byte);
* the diagnostic read/write counters of the disk emulator are omitted
  (no claim mentions them); with that omission `read` is a pure function;
* a Python exception escaping an engine operation (e.g. `struct.error`
  from packing a negative field) is modelled by the operation returning
  `none`;
* the iteration loops of `read`/`write`/directory scans are structural
  recursions on an explicit fuel argument; every caller passes a fuel
  that provably dominates the iteration count (each iteration consumes
  at least one byte / one record), so the fuel-exhausted branch is dead.
-/

namespace FsSim

/-! ### Constants (constants.py) -/

def BLOCK_SIZE : Nat := 4096
def MAGIC_NUMBER : Nat := 0xF0F03410
def POINTERS_PER_INODE : Nat := 5
def POINTERS_PER_BLOCK : Nat := 1024
def INODE_SIZE : Nat := 44
def INODES_PER_BLOCK : Nat := BLOCK_SIZE / INODE_SIZE
def MAX_FILENAME : Nat := 255

/-! ### Byte-level helpers -/

/-- Little-endian 4-byte encoding of a 32-bit value (`struct.pack '<I'`). -/
def u32le (n : Nat) : List Nat :=
  [n % 256, n / 256 % 256, n / 65536 % 256, n / 16777216 % 256]

/-- Little-endian 32-bit decode at a byte offset (`struct.unpack '<I'`).
Out-of-range reads give 0 (callers only read within buffers); each byte
is reduced mod 256, the identity on genuine byte data. -/
def readU32 (bs : List Nat) (off : Nat) : Nat :=
  bs.getD off 0 % 256 + 256 * (bs.getD (off + 1) 0 % 256) +
    65536 * (bs.getD (off + 2) 0 % 256) + 16777216 * (bs.getD (off + 3) 0 % 256)

/-- Right-pad with zero bytes up to length `n` (`bytes.ljust(n, b'\x00')`). -/
def padTo (n : Nat) (xs : List Nat) : List Nat :=
  xs ++ List.replicate (n - xs.length) 0

/-- Strip trailing zero bytes (`bytes.rstrip(b'\x00')`). -/
def rstrip0 (xs : List Nat) : List Nat :=
  (xs.reverse.dropWhile (fun x => x == 0)).reverse

/-- In-place overwrite of a slice: `buf[off : off+len(repl)] = repl` on a
`bytearray`, for `off + len(repl) ≤ len(buf)`. -/
def splice (xs : List Nat) (off : Nat) (repl : List Nat) : List Nat :=
  xs.take off ++ repl ++ xs.drop (off + repl.length)

/-! ### On-disk structures (structures.py) -/

structure SuperBlock where
  magic_number : Nat
  blocks : Nat
  inode_blocks : Nat
  inodes : Nat
  root_inode : Nat
deriving DecidableEq, Repr

/-- `SuperBlock.pack`: five little-endian u32 fields, zero-padded to one
full block. -/
def SuperBlock.pack (sb : SuperBlock) : List Nat :=
  u32le sb.magic_number ++ u32le sb.blocks ++ u32le sb.inode_blocks ++
    u32le sb.inodes ++ u32le sb.root_inode ++ List.replicate (BLOCK_SIZE - 20) 0

/-- `SuperBlock.unpack`: read the five fields from the first 20 bytes. -/
def SuperBlock.unpack (bs : List Nat) : SuperBlock :=
  ⟨readU32 bs 0, readU32 bs 4, readU32 bs 8, readU32 bs 12, readU32 bs 16⟩

structure Inode where
  valid : Nat
  inode_type : Nat
  size : Nat
  created : Nat
  modified : Nat
  direct : List Nat
  indirect : Nat
deriving DecidableEq, Repr

def Inode.TYPE_FILE : Nat := 0
def Inode.TYPE_DIR : Nat := 1

/-- `Inode.pack`: eleven little-endian u32 fields, 44 bytes. -/
def Inode.pack (i : Inode) : List Nat :=
  u32le i.valid ++ u32le i.inode_type ++ u32le i.size ++ u32le i.created ++
    u32le i.modified ++ u32le (i.direct.getD 0 0) ++ u32le (i.direct.getD 1 0) ++
    u32le (i.direct.getD 2 0) ++ u32le (i.direct.getD 3 0) ++
    u32le (i.direct.getD 4 0) ++ u32le i.indirect

/-- `Inode.unpack`: read the eleven fields; short input is zero-padded
(`readU32`'s default-0 reads coincide with the Python padding). -/
def Inode.unpack (bs : List Nat) : Inode :=
  ⟨readU32 bs 0, readU32 bs 4, readU32 bs 8, readU32 bs 12, readU32 bs 16,
    [readU32 bs 20, readU32 bs 24, readU32 bs 28, readU32 bs 32, readU32 bs 36],
    readU32 bs 40⟩

/-- Directory entry; `name` is the UTF-8 byte string of the name. -/
structure DirEntry where
  name : List Nat
  inode_num : Nat
deriving DecidableEq, Repr

def DirEntry.ENTRY_SIZE : Nat := 264

/-- `DirEntry.pack`: name truncated to 255 bytes and zero-padded to 256,
then the inode number and 4 bytes of padding. -/
def DirEntry.pack (e : DirEntry) : List Nat :=
  padTo 256 (e.name.take MAX_FILENAME) ++ u32le e.inode_num ++ [0, 0, 0, 0]

/-- `DirEntry.unpack`: short input gives the empty entry; otherwise strip
trailing zero bytes from the 256-byte name field (the constructor then
re-truncates to 255) and read the inode number. -/
def DirEntry.unpack (bs : List Nat) : DirEntry :=
  if bs.length < DirEntry.ENTRY_SIZE then ⟨[], 0⟩
  else ⟨(rstrip0 (bs.take 256)).take MAX_FILENAME, readU32 bs 256⟩

/-! ### Disk emulator (disk_emulator.py) -/

/-- The backing store: a block count and the byte content of each block.
Reachable states keep every block at exactly `BLOCK_SIZE` bytes. -/
structure Disk where
  blocks : Nat
  data : Nat → List Nat

/-- `DiskEmulator.read`: bounds-checked; at most one block is read from
the backing file and short reads are zero-padded to a full block. -/
def diskRead (d : Disk) (b : Nat) : Option (List Nat) :=
  if b < d.blocks then some (padTo BLOCK_SIZE ((d.data b).take BLOCK_SIZE)) else none

/-- `DiskEmulator.write`: bounds-checked, then the payload must be exactly
one block; on failure the disk is unchanged. -/
def diskWrite (d : Disk) (b : Nat) (bs : List Nat) : Disk × Bool :=
  if b < d.blocks then
    if bs.length = BLOCK_SIZE then
      ({ d with data := fun i => if i = b then bs else d.data i }, true)
    else (d, false)
  else (d, false)

/-! ### File-system state (file_system.py, class FileSystem) -/

/-- The mutable engine state: mount flag, in-memory free-block map, the
cached superblock, the current directory, and the bound disk (`self.disk`;
meaningful only while mounted — `format` takes its disk as a parameter,
exactly as in the source). The GUI callback is omitted (out of scope). -/
structure FS where
  mounted : Bool
  free_blocks : List Bool
  superblock : SuperBlock
  current_dir_inode : Nat
  disk : Disk

/-! ### Inode table access (_load_inode / _save_inode) -/

/-- `FileSystem._load_inode`, parametrised by the superblock and the disk
argument as in the source. -/
def loadInodeD (sb : SuperBlock) (d : Disk) (inum : Nat) : Option Inode :=
  if inum ≥ sb.inodes then none
  else
    match diskRead d (1 + inum / INODES_PER_BLOCK) with
    | none => none
    | some bs =>
      some (Inode.unpack ((bs.drop (inum % INODES_PER_BLOCK * INODE_SIZE)).take INODE_SIZE))

/-- `FileSystem._save_inode`: read-modify-write of the inode's slot in its
inode-table block (a failed read falls back to a zero block). -/
def saveInodeD (sb : SuperBlock) (d : Disk) (inum : Nat) (ino : Inode) : Disk × Bool :=
  if inum ≥ sb.inodes then (d, false)
  else
    let bn := 1 + inum / INODES_PER_BLOCK
    let off := inum % INODES_PER_BLOCK * INODE_SIZE
    let blockData := (diskRead d bn).getD (List.replicate BLOCK_SIZE 0)
    diskWrite d bn (splice blockData off ino.pack)

def loadInode (fs : FS) (inum : Nat) : Option Inode :=
  loadInodeD fs.superblock fs.disk inum

def saveInode (fs : FS) (inum : Nat) (ino : Inode) : FS × Bool :=
  let r := saveInodeD fs.superblock fs.disk inum ino
  ({ fs with disk := r.1 }, r.2)

/-! ### Block allocation (_allocate_block / _free_block / _allocate_inode) -/

/-- `FileSystem._allocate_block`: first-fit scan of the in-memory map over
the data region `[inode_blocks + 1, blocks)`; the found entry is cleared. -/
def allocateBlock (fs : FS) : FS × Option Nat :=
  let lo := fs.superblock.inode_blocks + 1
  match (List.range' lo (fs.superblock.blocks - lo)).find?
      (fun i => decide (i < fs.free_blocks.length) && fs.free_blocks.getD i false) with
  | none => (fs, none)
  | some i => ({ fs with free_blocks := fs.free_blocks.set i false }, some i)

/-- `FileSystem._free_block`: mark the entry free, bounds-checked. -/
def freeBlock (fs : FS) (b : Nat) : FS :=
  if b < fs.free_blocks.length then { fs with free_blocks := fs.free_blocks.set b true }
  else fs

/-- `FileSystem._allocate_inode`: linear scan for the first loadable slot
with a clear valid flag. -/
def allocateInode (fs : FS) : Option Nat :=
  (List.range fs.superblock.inodes).find?
    (fun i =>
      match loadInode fs i with
      | some ino => ino.valid == 0
      | none => false)

/-! ### Address translation (_get_block_pointer / _set_block_pointer) -/

/-- `FileSystem._get_block_pointer`: direct slot below `POINTERS_PER_INODE`;
otherwise 0 without an indirect block, 0 on a failed indirect read, 0 past
`POINTERS_PER_BLOCK`, else the little-endian pointer in the indirect block. -/
def getBlockPointer (d : Disk) (ino : Inode) (bi : Nat) : Nat :=
  if bi < POINTERS_PER_INODE then ino.direct.getD bi 0
  else if ino.indirect = 0 then 0
  else
    match diskRead d ino.indirect with
    | none => 0
    | some bs =>
      let ii := bi - POINTERS_PER_INODE
      if ii ≥ POINTERS_PER_BLOCK then 0 else readU32 bs (ii * 4)

/-- The indirect-block lazy allocation at the head of
`_set_block_pointer`: if the inode has no indirect block, allocate one
and zero-initialize it on disk (the device write's result is ignored, as
in the source). A `none` result models the poisoned state the source
creates when the allocator fails (it stores -1 in `inode.indirect` and
returns False; the caller's subsequent `_save_inode` then raises
`struct.error` packing the negative field, so the write call never
returns). -/
def ensureIndirect (fs : FS) (ino : Inode) : Option (FS × Inode) :=
  if ino.indirect = 0 then
    match allocateBlock fs with
    | (_, none) => none
    | (fs₁, some ib) =>
      some ({ fs₁ with disk := (diskWrite fs₁.disk ib (List.replicate BLOCK_SIZE 0)).1 },
        { ino with indirect := ib })
  else some (fs, ino)

/-- `FileSystem._set_block_pointer`. A `none` result models an uncaught
Python exception: either the poisoned indirect-allocation failure (see
`ensureIndirect`), or an unreadable indirect block (`bytearray(None)`
raises `TypeError`). -/
def setBlockPointer (fs : FS) (ino : Inode) (bi bn : Nat) :
    Option (FS × Inode × Bool) :=
  if bi < POINTERS_PER_INODE then
    some (fs, { ino with direct := ino.direct.set bi bn }, true)
  else
    match ensureIndirect fs ino with
    | none => none
    | some (fs₂, ino₂) =>
      match diskRead fs₂.disk ino₂.indirect with
      | none => none
      | some bs =>
        let ii := bi - POINTERS_PER_INODE
        if ii ≥ POINTERS_PER_BLOCK then some (fs₂, ino₂, false)
        else
          let r := diskWrite fs₂.disk ino₂.indirect (splice bs (ii * 4) (u32le bn))
          some ({ fs₂ with disk := r.1 }, ino₂, r.2)

/-! ### Byte-range read (FileSystem.read) -/

/-- The `while bytes_read < length` loop of `FileSystem.read`, structurally
recursive on a fuel that dominates the iteration count (each iteration
copies at least one byte). `fo` is the absolute file offset, `remaining`
the bytes still wanted; an unallocated pointer or failed block read ends
the loop with the bytes gathered so far. -/
def readLoopF (d : Disk) (ino : Inode) : Nat → Nat → Nat → List Nat
  | _, 0, _ => []
  | 0, _, _ => []
  | fuel + 1, remaining, fo =>
    let bi := fo / BLOCK_SIZE
    let bo := fo % BLOCK_SIZE
    let p := getBlockPointer d ino bi
    if p = 0 then []
    else
      match diskRead d p with
      | none => []
      | some bs =>
        let btc := min (BLOCK_SIZE - bo) remaining
        (bs.drop bo).take btc ++ readLoopF d ino fuel (remaining - btc) (fo + btc)

/-- `FileSystem.read`: `none` is the Python `None` (not mounted / invalid
inode); reading at or past EOF yields the empty byte string. -/
def read (fs : FS) (inum length offset : Nat) : Option (List Nat) :=
  if fs.mounted = false then none
  else
    match loadInode fs inum with
    | none => none
    | some ino =>
      if ino.valid = 0 then none
      else if offset ≥ ino.size then some []
      else
        let len := min length (ino.size - offset)
        some (readLoopF fs.disk ino len len offset)

/-! ### Byte-range write (FileSystem.write) -/

/-- One iteration prologue of the write loop: resolve the block pointer
for logical index `bi`, allocating a data block (and rolling it back if
the pointer cannot be stored) as in the source. `none` propagates a crash
from `setBlockPointer`; `some (fs, ino, none)` is a clean `break`. -/
def writeStep (fs : FS) (ino : Inode) (bi : Nat) :
    Option (FS × Inode × Option Nat) :=
  let p := getBlockPointer fs.disk ino bi
  if p ≠ 0 then some (fs, ino, some p)
  else
    match allocateBlock fs with
    | (fs₁, none) => some (fs₁, ino, none)
    | (fs₁, some bn) =>
      match setBlockPointer fs₁ ino bi bn with
      | none => none
      | some (fs₂, ino₂, true) => some (fs₂, ino₂, some bn)
      | some (fs₂, ino₂, false) => some (freeBlock fs₂ bn, ino₂, none)

/-- The `while bytes_written < data_len` loop of `FileSystem.write`:
read-modify-write for partial blocks, early exit on allocation or device
failure, crash propagation from `writeStep`. Returns the final state, the
(in-memory) inode and the total bytes written. -/
def writeLoopF : FS → Inode → Nat → Nat → List Nat → Nat → Option (FS × Inode × Nat)
  | fs, ino, _, w, [], _ => some (fs, ino, w)
  | fs, ino, _, w, _ :: _, 0 => some (fs, ino, w)
  | fs, ino, offset, w, rest@(_ :: _), fuel + 1 =>
    let fo := offset + w
    let bi := fo / BLOCK_SIZE
    let bo := fo % BLOCK_SIZE
    match writeStep fs ino bi with
    | none => none
    | some (fs₁, ino₁, none) => some (fs₁, ino₁, w)
    | some (fs₁, ino₁, some bn) =>
      let rem := rest.length
      let btw := min (BLOCK_SIZE - bo) rem
      let blockData :=
        if bo ≠ 0 ∨ rem < BLOCK_SIZE then
          (diskRead fs₁.disk bn).getD (List.replicate BLOCK_SIZE 0)
        else List.replicate BLOCK_SIZE 0
      let newBlock := splice blockData bo (rest.take btw)
      match diskWrite fs₁.disk bn newBlock with
      | (d, false) => some ({ fs₁ with disk := d }, ino₁, w)
      | (d, true) =>
        writeLoopF { fs₁ with disk := d } ino₁ offset (w + btw) (rest.drop btw) fuel

/-- `FileSystem.write`: `some (fs, -1)` for not-mounted / invalid inode,
`none` for a crash, otherwise the bytes written; the inode's size
high-watermark and modification time are persisted even after a partial
write. `t` is the ambient `time.time()`. -/
def write (fs : FS) (inum : Nat) (data : List Nat) (offset t : Nat) :
    Option (FS × Int) :=
  if fs.mounted = false then some (fs, -1)
  else
    match loadInode fs inum with
    | none => some (fs, -1)
    | some ino =>
      if ino.valid = 0 then some (fs, -1)
      else
        match writeLoopF fs ino offset 0 data data.length with
        | none => none
        | some (fs', ino', w) =>
          let ino'' := { ino' with size := max ino'.size (offset + w), modified := t }
          some ((saveInode fs' inum ino'').1, (w : Int))

/-! ### Directory primitives (_find_dir_entry / _add_dir_entry) -/

/-- The record scan of `_find_dir_entry`: step through the byte stream in
264-byte records (a trailing partial record ends the scan), returning the
first entry whose stored name equals the query, else -1.  Fuel-structural;
every caller passes the stream length, which dominates the record count. -/
def scanEntriesF (name : List Nat) : Nat → List Nat → Int
  | 0, _ => -1
  | fuel + 1, data =>
    if data.length < DirEntry.ENTRY_SIZE then -1
    else
      let e := DirEntry.unpack (data.take DirEntry.ENTRY_SIZE)
      if e.name = name then (e.inode_num : Int)
      else scanEntriesF name fuel (data.drop DirEntry.ENTRY_SIZE)

/-- `FileSystem._find_dir_entry`: read the directory's whole byte stream
and scan it; -1 for an unloadable/invalid/empty directory or no match. -/
def findDirEntry (fs : FS) (dinum : Nat) (name : List Nat) : Int :=
  match loadInode fs dinum with
  | none => -1
  | some di =>
    if di.valid = 0 then -1
    else if di.size = 0 then -1
    else
      match read fs dinum di.size 0 with
      | none => -1
      | some data => if data = [] then -1 else scanEntriesF name data.length data

/-- `FileSystem._add_dir_entry`: append one packed record at the current
end of the directory (write at offset = size); success iff the write
reports the full record length. `none` propagates a crash from `write`. -/
def addDirEntry (fs : FS) (dinum : Nat) (name : List Nat) (inum t : Nat) :
    Option (FS × Bool) :=
  let entryData := DirEntry.pack ⟨name.take MAX_FILENAME, inum⟩
  match loadInode fs dinum with
  | none => some (fs, false)
  | some di =>
    if di.valid = 0 then some (fs, false)
    else
      match write fs dinum entryData di.size t with
      | none => none
      | some (fs', w) => some (fs', w == (entryData.length : Int))

/-! ### Public operations -/

/-- `FileSystem.create_file`: reject a name the scan already resolves,
allocate and persist a fresh FILE inode, then link it into the current
directory, rolling the inode back if linking fails. -/
def createFile (fs : FS) (name : List Nat) (t : Nat) : Option (FS × Int) :=
  if fs.mounted = false then some (fs, -1)
  else if 0 ≤ findDirEntry fs fs.current_dir_inode name then some (fs, -1)
  else
    match allocateInode fs with
    | none => some (fs, -1)
    | some k =>
      let ino : Inode := ⟨1, Inode.TYPE_FILE, 0, t, t, [0, 0, 0, 0, 0], 0⟩
      let s := saveInode fs k ino
      if s.2 = false then some (s.1, -1)
      else
        match addDirEntry s.1 s.1.current_dir_inode name k t with
        | none => none
        | some (fs₂, true) => some (fs₂, (k : Int))
        | some (fs₂, false) =>
          some ((saveInode fs₂ k { ino with valid := 0 }).1, -1)

/-- `FileSystem.remove_file`: free the direct blocks, the blocks named in
the indirect block and the indirect block itself, then persist the inode
with its valid flag cleared. The parent directory's bytes are untouched. -/
def removeFile (fs : FS) (inum : Nat) : FS × Bool :=
  if fs.mounted = false then (fs, false)
  else
    match loadInode fs inum with
    | none => (fs, false)
    | some ino =>
      if ino.valid = 0 then (fs, false)
      else
        let fs₁ := ino.direct.foldl (fun s b => if b ≠ 0 then freeBlock s b else s) fs
        let fs₂ :=
          if ino.indirect ≠ 0 then
            let fs' :=
              match diskRead fs₁.disk ino.indirect with
              | none => fs₁
              | some bs =>
                (List.range POINTERS_PER_BLOCK).foldl
                  (fun s j =>
                    let p := readU32 bs (j * 4)
                    if p ≠ 0 then freeBlock s p else s) fs₁
            freeBlock fs' ino.indirect
          else fs₁
        saveInode fs₂ inum { ino with valid := 0 }

/-- `FileSystem.stat`: the size of a valid inode, else -1. -/
def stat (fs : FS) (inum : Nat) : Int :=
  if fs.mounted = false then -1
  else
    match loadInode fs inum with
    | none => -1
    | some ino => if ino.valid = 0 then -1 else (ino.size : Int)

/-- `FileSystem.mkdir`: like `create_file` but with type DIR; "." and ".."
entries are appended to the new directory (results ignored, as in the
source) before linking it into the parent, and a failed link removes the
new directory again. -/
def mkdir (fs : FS) (name : List Nat) (t : Nat) : Option (FS × Int) :=
  if fs.mounted = false then some (fs, -1)
  else if 0 ≤ findDirEntry fs fs.current_dir_inode name then some (fs, -1)
  else
    match allocateInode fs with
    | none => some (fs, -1)
    | some k =>
      let ino : Inode := ⟨1, Inode.TYPE_DIR, 0, t, t, [0, 0, 0, 0, 0], 0⟩
      let s := saveInode fs k ino
      if s.2 = false then some (s.1, -1)
      else
        match addDirEntry s.1 k [46] k t with
        | none => none
        | some (fsA, _) =>
          match addDirEntry fsA k [46, 46] fsA.current_dir_inode t with
          | none => none
          | some (fsB, _) =>
            match addDirEntry fsB fsB.current_dir_inode name k t with
            | none => none
            | some (fsC, true) => some (fsC, (k : Int))
            | some (fsC, false) => some ((removeFile fsC k).1, -1)

/-- The record loop of `FileSystem.ls`: decode each full 264-byte record
and keep those with a non-empty name, an in-table inode number and a
currently valid target inode. -/
def lsEntriesF (fs : FS) : Nat → List Nat → List (List Nat × Nat × String × Nat)
  | 0, _ => []
  | fuel + 1, data =>
    if data.length < DirEntry.ENTRY_SIZE then []
    else
      let e := DirEntry.unpack (data.take DirEntry.ENTRY_SIZE)
      let tail := lsEntriesF fs fuel (data.drop DirEntry.ENTRY_SIZE)
      if e.name ≠ [] ∧ e.inode_num < fs.superblock.inodes then
        match loadInode fs e.inode_num with
        | some ino =>
          if ino.valid ≠ 0 then
            (e.name, e.inode_num, (if ino.inode_type = Inode.TYPE_DIR then "DIR" else "FILE"),
              ino.size) :: tail
          else tail
        | none => tail
      else tail

/-- `FileSystem.ls`: list the current directory as
(name, inode number, type string, size) tuples. -/
def ls (fs : FS) : List (List Nat × Nat × String × Nat) :=
  if fs.mounted = false then []
  else
    match loadInode fs fs.current_dir_inode with
    | none => []
    | some di =>
      if di.valid = 0 then []
      else if di.size = 0 then []
      else
        match read fs fs.current_dir_inode di.size 0 with
        | none => []
        | some data => if data = [] then [] else lsEntriesF fs data.length data

/-- `FileSystem.cd`: "/" (byte 47) resets to the root; otherwise the name
must resolve in the current directory to a valid DIR inode. -/
def cd (fs : FS) (path : List Nat) : FS × Bool :=
  if fs.mounted = false then (fs, false)
  else if path = [47] then
    ({ fs with current_dir_inode := fs.superblock.root_inode }, true)
  else
    let ti := findDirEntry fs fs.current_dir_inode path
    if ti < 0 then (fs, false)
    else
      match loadInode fs ti.toNat with
      | none => (fs, false)
      | some ino =>
        if ino.valid = 0 ∨ ino.inode_type ≠ Inode.TYPE_DIR then (fs, false)
        else ({ fs with current_dir_inode := ti.toNat }, true)

/-! ### format / mount / unmount -/

/-- `FileSystem.format`: superblock with 10%-of-device inode table
(minimum one block), zero-filled table blocks (device-write failures
ignored, as in the source), then a root DIR inode at slot 0. The engine's
cached superblock is updated before any write succeeds. `t` is the
ambient `time.time()`. -/
def format (fs : FS) (d : Disk) (t : Nat) : FS × Disk × Bool :=
  if fs.mounted then (fs, d, false)
  else
    let ib := max 1 ((d.blocks + 9) / 10)
    let sb : SuperBlock := ⟨MAGIC_NUMBER, d.blocks, ib, ib * INODES_PER_BLOCK, 0⟩
    let fs₁ := { fs with superblock := sb }
    match diskWrite d 0 sb.pack with
    | (d₁, false) => (fs₁, d₁, false)
    | (d₁, true) =>
      let d₂ := (List.range' 1 ib).foldl
        (fun dd i => (diskWrite dd i (List.replicate BLOCK_SIZE 0)).1) d₁
      let root : Inode := ⟨1, Inode.TYPE_DIR, 0, t, t, [0, 0, 0, 0, 0], 0⟩
      let r := saveInodeD sb d₂ 0 root
      (fs₁, r.1, r.2)

/-- `FileSystem._build_free_block_map`: all blocks free, then the
superblock and inode-table blocks marked used, then every valid inode's
in-range direct pointers, indirect block and indirect-addressed pointers
marked used. -/
def buildFreeBlockMap (fs : FS) : FS :=
  let m0 := List.replicate fs.superblock.blocks true
  let m1 := (List.range (fs.superblock.inode_blocks + 1)).foldl
    (fun m i => if i < m.length then m.set i false else m) m0
  let m2 := (List.range fs.superblock.inodes).foldl
    (fun m i =>
      match loadInode fs i with
      | none => m
      | some ino =>
        if ino.valid = 0 then m
        else
          let mD := ino.direct.foldl
            (fun mm b => if 0 < b ∧ b < fs.superblock.blocks then mm.set b false else mm) m
          if 0 < ino.indirect ∧ ino.indirect < fs.superblock.blocks then
            let mI := mD.set ino.indirect false
            match diskRead fs.disk ino.indirect with
            | none => mI
            | some bs =>
              (List.range POINTERS_PER_BLOCK).foldl
                (fun mm j =>
                  let p := readU32 bs (j * 4)
                  if 0 < p ∧ p < fs.superblock.blocks then mm.set p false else mm) mI
          else mD) m1
  { fs with free_blocks := m2 }

/-- `FileSystem.mount`: decode block 0 (caching it before the check, as
the source does), verify the magic number, bind the disk, reset the
current directory to the root and rebuild the free-block map. -/
def mount (fs : FS) (d : Disk) : FS × Bool :=
  if fs.mounted then (fs, false)
  else
    match diskRead d 0 with
    | none => (fs, false)
    | some bs =>
      let sb := SuperBlock.unpack bs
      let fs₁ := { fs with superblock := sb }
      if sb.magic_number ≠ MAGIC_NUMBER then (fs₁, false)
      else
        let fs₂ := { fs₁ with disk := d, mounted := true, current_dir_inode := sb.root_inode }
        (buildFreeBlockMap fs₂, true)

/-- `FileSystem.unmount`: clear the mount flag and discard the map (the
source also drops its disk handle; the model keeps the field inert). -/
def unmount (fs : FS) : FS :=
  if fs.mounted then { fs with mounted := false, free_blocks := [] } else fs

/-! ### List and byte-level lemmas -/

theorem getD_take {xs : List Nat} {n p d : Nat} (h : p < n) :
    (xs.take n).getD p d = xs.getD p d := by
  simp [List.getD_eq_getElem?_getD, List.getElem?_take, h]

theorem getD_drop (xs : List Nat) (n p d : Nat) :
    (xs.drop n).getD p d = xs.getD (n + p) d := by
  simp [List.getD_eq_getElem?_getD, List.getElem?_drop]

theorem getD_replicate {n a p d : Nat} :
    (List.replicate n a).getD p d = if p < n then a else d := by
  simp only [List.getD_eq_getElem?_getD, List.getElem?_replicate]
  split <;> rfl

theorem getD_append_skip (pre rest : List Nat) (k d : Nat) :
    (pre ++ rest).getD (pre.length + k) d = rest.getD k d := by
  rw [List.getD_append_right pre rest d _ (Nat.le_add_right _ _), Nat.add_sub_cancel_left]

theorem length_u32le (n : Nat) : (u32le n).length = 4 := rfl

theorem length_padTo {n : Nat} {xs : List Nat} (h : xs.length ≤ n) :
    (padTo n xs).length = n := by
  simp only [padTo, List.length_append, List.length_replicate]
  omega

theorem padTo_of_length {n : Nat} {xs : List Nat} (h : xs.length = n) :
    padTo n xs = xs := by
  simp [padTo, h]

theorem length_splice {xs repl : List Nat} {off : Nat}
    (h : off + repl.length ≤ xs.length) : (splice xs off repl).length = xs.length := by
  simp only [splice, List.length_append, List.length_take, List.length_drop]
  omega

theorem getD_splice_left {xs repl : List Nat} {off p d : Nat}
    (hp : p < off) (hoff : off ≤ xs.length) :
    (splice xs off repl).getD p d = xs.getD p d := by
  unfold splice
  rw [List.getD_append _ _ _ _ (by simp [List.length_take]; omega),
    List.getD_append _ _ _ _ (by simp [List.length_take]; omega), getD_take hp]

theorem getD_splice_mid {xs repl : List Nat} {off p d : Nat}
    (h₁ : off ≤ p) (h₂ : p < off + repl.length) (h₃ : off + repl.length ≤ xs.length) :
    (splice xs off repl).getD p d = repl.getD (p - off) d := by
  unfold splice
  rw [List.getD_append _ _ _ _ (by simp [List.length_take]; omega),
    List.getD_append_right _ _ _ _ (by simp [List.length_take]; omega)]
  congr 1
  simp [List.length_take]
  omega

theorem getD_splice_right {xs repl : List Nat} {off p d : Nat}
    (h₁ : off + repl.length ≤ p) (h₃ : off + repl.length ≤ xs.length) :
    (splice xs off repl).getD p d = xs.getD p d := by
  unfold splice
  rw [List.getD_append_right _ _ _ _ (by simp [List.length_take, List.length_append]; omega),
    getD_drop]
  congr 1
  simp [List.length_take, List.length_append]
  omega

theorem getD_append_self (pre rest : List Nat) (d : Nat) :
    (pre ++ rest).getD pre.length d = rest.getD 0 d := by
  simpa using getD_append_skip pre rest 0 d

theorem take_append_of_length {α : Type} {l₁ l₂ : List α} {n : Nat} (h : l₁.length = n) :
    (l₁ ++ l₂).take n = l₁ := by
  subst h
  exact List.take_left l₁ l₂

theorem readU32_u32le_prefix (n : Nat) (rest : List Nat) :
    readU32 (u32le n ++ rest) 0 = n % 4294967296 := by
  simp only [readU32, u32le, List.cons_append, List.getD_cons_zero, List.getD_cons_succ]
  omega

theorem readU32_append_skip (pre rest : List Nat) (k : Nat) :
    readU32 (pre ++ rest) (pre.length + k) = readU32 rest k := by
  simp only [readU32, Nat.add_assoc, getD_append_skip]

theorem readU32_append_right {pre rest : List Nat} {off : Nat} (h : pre.length = off) :
    readU32 (pre ++ rest) off = readU32 rest 0 := by
  subst h
  simp only [readU32, Nat.add_assoc, getD_append_skip, getD_append_self]

theorem readU32_u32le_skip (n : Nat) (rest : List Nat) (k : Nat) :
    readU32 (u32le n ++ rest) (4 + k) = readU32 rest k := by
  have h := readU32_append_skip (u32le n) rest k
  rwa [length_u32le] at h

theorem readU32_u32Fields :
    ∀ (vs : List Nat) (post : List Nat) (j : Nat), j < vs.length →
      readU32 ((vs.map u32le).flatten ++ post) (4 * j) = vs.getD j 0 % 4294967296 := by
  intro vs
  induction vs with
  | nil => intro post j hj; simp at hj
  | cons v vs ih =>
    intro post j hj
    cases j with
    | zero =>
      simpa [List.append_assoc] using readU32_u32le_prefix v ((vs.map u32le).flatten ++ post)
    | succ j =>
      have harith : 4 * (j + 1) = 4 + 4 * j := by ring
      rw [List.map_cons, List.flatten_cons, List.append_assoc, harith, readU32_u32le_skip,
        List.getD_cons_succ]
      exact ih post j (by simpa using hj)

/-! ### Pack/unpack roundtrip lemmas (shared helpers) -/

theorem superBlock_unpack_pack (sb : SuperBlock)
    (h1 : sb.magic_number < 4294967296) (h2 : sb.blocks < 4294967296)
    (h3 : sb.inode_blocks < 4294967296) (h4 : sb.inodes < 4294967296)
    (h5 : sb.root_inode < 4294967296) :
    SuperBlock.unpack (SuperBlock.pack sb) = sb := by
  have hpack : SuperBlock.pack sb =
      ([sb.magic_number, sb.blocks, sb.inode_blocks, sb.inodes,
        sb.root_inode].map u32le).flatten ++ List.replicate (BLOCK_SIZE - 20) 0 := by
    simp [SuperBlock.pack, List.append_assoc]
  have key : ∀ j, j < 5 →
      readU32 (SuperBlock.pack sb) (4 * j) =
        [sb.magic_number, sb.blocks, sb.inode_blocks, sb.inodes,
          sb.root_inode].getD j 0 % 4294967296 := by
    intro j hj
    rw [hpack]
    exact readU32_u32Fields _ _ j (by simpa using hj)
  have e0 := key 0 (by norm_num); have e1 := key 1 (by norm_num)
  have e2 := key 2 (by norm_num); have e3 := key 3 (by norm_num)
  have e4 := key 4 (by norm_num)
  norm_num [List.getD] at e0 e1 e2 e3 e4
  cases sb
  simp_all [SuperBlock.unpack, Nat.mod_eq_of_lt]

theorem inode_unpack_pack (i : Inode) (hd : i.direct.length = 5)
    (h1 : i.valid < 4294967296) (h2 : i.inode_type < 4294967296)
    (h3 : i.size < 4294967296) (h4 : i.created < 4294967296)
    (h5 : i.modified < 4294967296) (h6 : ∀ x ∈ i.direct, x < 4294967296)
    (h7 : i.indirect < 4294967296) :
    Inode.unpack (Inode.pack i) = i := by
  obtain ⟨v, t, s, c, m, dir, ind⟩ := i
  obtain ⟨d0, d1, d2, d3, d4, hnil⟩ : ∃ a b c' d e, dir = [a, b, c', d, e] := by
    match dir, hd with
    | [a, b, c', d, e], _ => exact ⟨a, b, c', d, e, rfl⟩
  subst hnil
  simp only at h6 ⊢
  have hpack : Inode.pack ⟨v, t, s, c, m, [d0, d1, d2, d3, d4], ind⟩ =
      ([v, t, s, c, m, d0, d1, d2, d3, d4, ind].map u32le).flatten ++ [] := by
    simp [Inode.pack, List.append_assoc, List.getD]
  have key : ∀ j, j < 11 →
      readU32 (Inode.pack ⟨v, t, s, c, m, [d0, d1, d2, d3, d4], ind⟩) (4 * j) =
        [v, t, s, c, m, d0, d1, d2, d3, d4, ind].getD j 0 % 4294967296 := by
    intro j hj
    rw [hpack]
    exact readU32_u32Fields _ _ j (by simpa using hj)
  have e0 := key 0 (by norm_num); have e1 := key 1 (by norm_num)
  have e2 := key 2 (by norm_num); have e3 := key 3 (by norm_num)
  have e4 := key 4 (by norm_num); have e5 := key 5 (by norm_num)
  have e6 := key 6 (by norm_num); have e7 := key 7 (by norm_num)
  have e8 := key 8 (by norm_num); have e9 := key 9 (by norm_num)
  have e10 := key 10 (by norm_num)
  norm_num [List.getD] at e0 e1 e2 e3 e4 e5 e6 e7 e8 e9 e10
  have b0 : d0 < 4294967296 := h6 d0 (by simp)
  have b1 : d1 < 4294967296 := h6 d1 (by simp)
  have b2 : d2 < 4294967296 := h6 d2 (by simp)
  have b3 : d3 < 4294967296 := h6 d3 (by simp)
  have b4 : d4 < 4294967296 := h6 d4 (by simp)
  simp_all [Inode.unpack, Nat.mod_eq_of_lt]

theorem dropWhile_zero_replicate_append (k : Nat) (ys : List Nat) :
    List.dropWhile (fun x => x == 0) (List.replicate k 0 ++ ys) =
      List.dropWhile (fun x => x == 0) ys := by
  induction k with
  | zero => simp
  | succ k ih => simpa [List.replicate_succ] using ih

theorem rstrip0_append_replicate (xs : List Nat) (k : Nat) :
    rstrip0 (xs ++ List.replicate k 0) = rstrip0 xs := by
  simp [rstrip0, List.reverse_append, List.reverse_replicate,
    dropWhile_zero_replicate_append]

theorem rstrip0_of_getLast?_ne (xs : List Nat) (h : xs.getLast? ≠ some 0) :
    rstrip0 xs = xs := by
  rcases hx : xs.reverse with _ | ⟨a, t⟩
  · have : xs = [] := by simpa using congrArg List.reverse hx
    simp [this, rstrip0]
  · have ha : xs.getLast? = some a := by
      rw [← List.head?_reverse, hx]; rfl
    have ha0 : (a == 0) = false := by
      by_cases h0 : a = 0
      · exact absurd (ha.trans (by rw [h0])) h
      · simpa using h0
    have hr : rstrip0 xs = (a :: t).reverse := by
      simp [rstrip0, hx, List.dropWhile_cons, ha0]
    rw [hr, ← hx, List.reverse_reverse]

theorem dirEntry_unpack_pack (e : DirEntry) (hlen : e.name.length ≤ 255)
    (hlast : e.name.getLast? ≠ some 0) (hnum : e.inode_num < 4294967296) :
    DirEntry.unpack (DirEntry.pack e) = e := by
  obtain ⟨nm, num⟩ := e
  dsimp only at hlen hlast hnum
  have htake : nm.take MAX_FILENAME = nm :=
    List.take_of_length_le (by simp only [MAX_FILENAME]; omega)
  have hpadlen : (padTo 256 nm).length = 256 := length_padTo (by omega)
  have hpackeq : DirEntry.pack ⟨nm, num⟩ = padTo 256 nm ++ (u32le num ++ [0, 0, 0, 0]) := by
    simp [DirEntry.pack, htake, List.append_assoc]
  have hlenpack : (DirEntry.pack ⟨nm, num⟩).length = 264 := by
    rw [hpackeq]
    simp [hpadlen, length_u32le]
  have htake256 : (DirEntry.pack ⟨nm, num⟩).take 256 = padTo 256 nm := by
    rw [hpackeq]
    exact take_append_of_length hpadlen
  have hname : (rstrip0 ((DirEntry.pack ⟨nm, num⟩).take 256)).take MAX_FILENAME = nm := by
    rw [htake256, padTo, rstrip0_append_replicate, rstrip0_of_getLast?_ne _ hlast, htake]
  have hnum' : readU32 (DirEntry.pack ⟨nm, num⟩) 256 = num := by
    rw [hpackeq, readU32_append_right hpadlen, readU32_u32le_prefix, Nat.mod_eq_of_lt hnum]
  simp [DirEntry.unpack, hlenpack, DirEntry.ENTRY_SIZE, hname, hnum']

/-! ### Claim C2: _get_block_pointer case analysis -/

/-- C2: for every inode and logical block index i, _get_block_pointer
returns the direct pointer for i < 5 (direct count); returns 0 when i ≥ 5
and the inode has no indirect block; returns 0 when i - 5 ≥ 1024 (pointers
per block — the file-size hard limit); and otherwise returns the (i-5)-th
little-endian 32-bit pointer stored in the indirect block. -/
theorem getBlockPointer_cases (d : Disk) (ino : Inode) (i : Nat) :
    (i < 5 → getBlockPointer d ino i = ino.direct.getD i 0) ∧
    (5 ≤ i → ino.indirect = 0 → getBlockPointer d ino i = 0) ∧
    (5 ≤ i → 1024 ≤ i - 5 → getBlockPointer d ino i = 0) ∧
    (5 ≤ i → i - 5 < 1024 → ino.indirect ≠ 0 →
      ∀ bs, diskRead d ino.indirect = some bs →
        getBlockPointer d ino i = readU32 bs ((i - 5) * 4)) := by
  refine ⟨?_, ?_, ?_, ?_⟩
  · intro h
    simp [getBlockPointer, POINTERS_PER_INODE, h]
  · intro h hz
    simp [getBlockPointer, POINTERS_PER_INODE, Nat.not_lt.mpr h, hz]
  · intro h hib
    by_cases hz : ino.indirect = 0
    · simp [getBlockPointer, POINTERS_PER_INODE, Nat.not_lt.mpr h, hz]
    · rcases hrd : diskRead d ino.indirect with _ | bs <;>
        simp [getBlockPointer, POINTERS_PER_INODE, POINTERS_PER_BLOCK,
          Nat.not_lt.mpr h, hz, hrd, hib]
  · intro h hib hz bs hrd
    simp [getBlockPointer, POINTERS_PER_INODE, POINTERS_PER_BLOCK,
      Nat.not_lt.mpr h, hz, hrd, Nat.not_le.mpr hib]

def c2Disk : Disk :=
  ⟨2, fun b => if b = 1 then splice (List.replicate 4096 0) 8 (u32le 42)
    else List.replicate 4096 0⟩

def c2Ino : Inode := ⟨1, 0, 0, 0, 0, [9, 0, 0, 0, 0], 1⟩

theorem getBlockPointer_cases_witness : getBlockPointer c2Disk c2Ino 7 = 42 := by
  have h := (getBlockPointer_cases c2Disk c2Ino 7).2.2.2 (by norm_num) (by norm_num)
    (by decide) (padTo 4096 ((c2Disk.data 1).take 4096)) rfl
  rw [h]
  decide

/-! ### Claim C8: encode/decode roundtrips -/

set_option maxRecDepth 100000 in
/-- C8 counterexample: the claim fails as stated. The DirEntry name
consisting of the single NUL byte is in range (a UTF-8 string of one
encoded byte), yet unpack of pack strips it (rstrip of the zero-padded
name field removes the name's own trailing NUL as well), yielding the
empty name. -/
theorem dirEntry_roundtrip_counterexample :
    (([0] : List Nat).length ≤ 255 ∧ (∀ x ∈ ([0] : List Nat), x < 256) ∧
      (5 : Nat) < 4294967296) ∧
    DirEntry.unpack (DirEntry.pack ⟨[0], 5⟩) ≠ (⟨[0], 5⟩ : DirEntry) := by
  exact ⟨⟨by norm_num, by decide, by norm_num⟩, by decide⟩

/-- C8 (amended): for every SuperBlock, Inode and DirEntry value with
in-range fields (each numeric field < 2^32; the Inode carrying its five
direct pointers; the DirEntry name a byte string of at most 255 bytes
whose encoding does not end in a NUL byte), unpack of pack reproduces the
value field for field. -/
theorem structures_unpack_pack (sb : SuperBlock) (i : Inode) (e : DirEntry)
    (hm : sb.magic_number < 4294967296) (hb : sb.blocks < 4294967296)
    (hib : sb.inode_blocks < 4294967296) (hi : sb.inodes < 4294967296)
    (hr : sb.root_inode < 4294967296)
    (hv : i.valid < 4294967296) (hty : i.inode_type < 4294967296)
    (hs : i.size < 4294967296) (hc : i.created < 4294967296)
    (hmo : i.modified < 4294967296) (hdl : i.direct.length = 5)
    (hdb : ∀ x ∈ i.direct, x < 4294967296) (hind : i.indirect < 4294967296)
    (hnl : e.name.length ≤ 255) (hnb : ∀ x ∈ e.name, x < 256)
    (hlast : e.name.getLast? ≠ some 0) (hen : e.inode_num < 4294967296) :
    SuperBlock.unpack (SuperBlock.pack sb) = sb ∧
      Inode.unpack (Inode.pack i) = i ∧
      DirEntry.unpack (DirEntry.pack e) = e :=
  ⟨superBlock_unpack_pack sb hm hb hib hi hr,
    inode_unpack_pack i hdl hv hty hs hc hmo hdb hind,
    dirEntry_unpack_pack e hnl hlast hen⟩

theorem structures_unpack_pack_witness :
    SuperBlock.unpack (SuperBlock.pack ⟨0xF0F03410, 100, 10, 930, 0⟩) =
        ⟨0xF0F03410, 100, 10, 930, 0⟩ ∧
      Inode.unpack (Inode.pack ⟨1, 1, 5000, 7, 8, [3, 4, 0, 0, 0], 9⟩) =
        ⟨1, 1, 5000, 7, 8, [3, 4, 0, 0, 0], 9⟩ ∧
      DirEntry.unpack (DirEntry.pack ⟨[97, 46, 116, 120, 116], 2⟩) =
        ⟨[97, 46, 116, 120, 116], 2⟩ :=
  structures_unpack_pack ⟨0xF0F03410, 100, 10, 930, 0⟩ ⟨1, 1, 5000, 7, 8, [3, 4, 0, 0, 0], 9⟩
    ⟨[97, 46, 116, 120, 116], 2⟩ (by norm_num) (by norm_num) (by norm_num) (by norm_num)
    (by norm_num) (by norm_num) (by norm_num) (by norm_num) (by norm_num) (by norm_num)
    (by decide) (by decide) (by norm_num) (by decide) (by decide) (by decide) (by norm_num)

/-! ### A small concrete mounted file system, used by the witnesses.

Layout on an 8-block device with one inode-table block (93 inodes):
block 0 superblock, block 1 inode table, block 2 the root directory's
data (two records: name "a" to the valid FILE inode 1, and the stale name
"b" to the invalid inode 7), block 3 the data of inode 1 ("hello"),
blocks 4-7 free. -/

def wRootIno : Inode := ⟨1, 1, 528, 11, 12, [2, 0, 0, 0, 0], 0⟩

def wFileIno : Inode := ⟨1, 0, 5, 11, 12, [3, 0, 0, 0, 0], 0⟩

def wTableBlock : List Nat :=
  splice (splice (List.replicate 4096 0) 0 wRootIno.pack) 44 wFileIno.pack

def wDirData : List Nat := DirEntry.pack ⟨[97], 1⟩ ++ DirEntry.pack ⟨[98], 7⟩

def wSB : SuperBlock := ⟨MAGIC_NUMBER, 8, 1, 93, 0⟩

def wDisk : Disk :=
  ⟨8, fun b =>
    if b = 0 then wSB.pack
    else if b = 1 then wTableBlock
    else if b = 2 then padTo 4096 wDirData
    else if b = 3 then padTo 4096 [104, 101, 108, 108, 111]
    else List.replicate 4096 0⟩

def wFS : FS :=
  ⟨true, [false, false, false, false, true, true, true, true], wSB, 0, wDisk⟩

/-! ### Declarative view of directory scanning -/

/-- Spec-side companion of the scan loops: the list of complete 264-byte
records decoded from a directory byte stream (a trailing partial record
is ignored, as in the code). -/
def entryRecordsF : Nat → List Nat → List DirEntry
  | 0, _ => []
  | fuel + 1, data =>
    if data.length < DirEntry.ENTRY_SIZE then []
    else DirEntry.unpack (data.take DirEntry.ENTRY_SIZE) ::
      entryRecordsF fuel (data.drop DirEntry.ENTRY_SIZE)

def entryRecords (data : List Nat) : List DirEntry := entryRecordsF data.length data

/-- The first record (in byte order) whose stored name equals the query,
or -1; target-inode validity is never consulted. -/
def findEntrySpec (data name : List Nat) : Int :=
  match (entryRecords data).find? (fun e => e.name == name) with
  | some e => (e.inode_num : Int)
  | none => -1

theorem scanEntriesF_eq (name : List Nat) :
    ∀ fuel data, scanEntriesF name fuel data =
      (match (entryRecordsF fuel data).find? (fun e => e.name == name) with
       | some e => (e.inode_num : Int)
       | none => -1) := by
  intro fuel
  induction fuel with
  | zero => intro data; rfl
  | succ fuel ih =>
    intro data
    by_cases h : data.length < DirEntry.ENTRY_SIZE
    · simp [scanEntriesF, entryRecordsF, h]
    · by_cases he : (DirEntry.unpack (data.take DirEntry.ENTRY_SIZE)).name = name
      · simp [scanEntriesF, entryRecordsF, h, he]
      · have hbe : ((DirEntry.unpack (data.take DirEntry.ENTRY_SIZE)).name == name) = false := by
          simpa using he
        simp only [scanEntriesF, entryRecordsF, if_neg h, if_neg he, List.find?_cons, hbe]
        exact ih _

/-! ### Claim C5: _find_dir_entry semantics -/

/-- C5: for a readable directory, _find_dir_entry scans the fixed-size
records in byte order and returns the inode number of the first record
whose stored name equals the query — findEntrySpec, which never consults
any inode, so stale entries of removed files still match — and it returns
-1 exactly when no complete record's stored name equals the query. -/
theorem findDirEntry_spec (fs : FS) (dinum : Nat) (name : List Nat) (di : Inode)
    (data : List Nat) (hload : loadInode fs dinum = some di) (hvalid : di.valid ≠ 0)
    (hsize : di.size ≠ 0) (hdata : read fs dinum di.size 0 = some data) :
    findDirEntry fs dinum name = findEntrySpec data name ∧
      (findDirEntry fs dinum name = -1 ↔ ∀ e ∈ entryRecords data, e.name ≠ name) := by
  have heq : findDirEntry fs dinum name = findEntrySpec data name := by
    simp only [findDirEntry, hload, hdata]
    rw [if_neg hvalid, if_neg hsize]
    by_cases hd : data = []
    · subst hd
      simp [findEntrySpec, entryRecords, entryRecordsF]
    · rw [if_neg hd, scanEntriesF_eq]
      rfl
  refine ⟨heq, ?_⟩
  rw [heq]
  rcases hf : (entryRecords data).find? (fun e => e.name == name) with _ | e
  · have hval : findEntrySpec data name = -1 := by
      unfold findEntrySpec
      rw [hf]
    rw [hval]
    have hnone := List.find?_eq_none.mp hf
    exact ⟨fun _ e he => by simpa using hnone e he, fun _ => rfl⟩
  · have hval : findEntrySpec data name = (e.inode_num : Int) := by
      unfold findEntrySpec
      rw [hf]
    rw [hval]
    have hpe := List.find?_some hf
    have hmem := List.mem_of_find?_eq_some hf
    rw [beq_iff_eq] at hpe
    constructor
    · intro habs
      omega
    · intro hall
      exact absurd hpe (hall e hmem)

set_option maxRecDepth 1000000 in
theorem findDirEntry_spec_witness :
    findDirEntry wFS 0 [98] = findEntrySpec wDirData [98] ∧
      findEntrySpec wDirData [98] = 7 :=
  ⟨(findDirEntry_spec wFS 0 [98] wRootIno wDirData (by decide) (by decide) (by decide)
      (by decide)).1,
    by decide⟩

/-! ### Claims C6 and C10: what ls can yield -/

theorem lsEntriesF_sound (fs : FS) :
    ∀ fuel data x, x ∈ lsEntriesF fs fuel data →
      x.1 ≠ [] ∧ ∃ ino, loadInode fs x.2.1 = some ino ∧ ino.valid ≠ 0 := by
  intro fuel
  induction fuel with
  | zero => intro data x hx; simp [lsEntriesF] at hx
  | succ fuel ih =>
    intro data x hx
    by_cases h : data.length < DirEntry.ENTRY_SIZE
    · simp [lsEntriesF, h] at hx
    · simp only [lsEntriesF, if_neg h] at hx
      by_cases hc : (DirEntry.unpack (data.take DirEntry.ENTRY_SIZE)).name ≠ [] ∧
          (DirEntry.unpack (data.take DirEntry.ENTRY_SIZE)).inode_num < fs.superblock.inodes
      · rw [if_pos hc] at hx
        rcases hl : loadInode fs (DirEntry.unpack (data.take DirEntry.ENTRY_SIZE)).inode_num
          with _ | ino
        · simp only [hl] at hx
          exact ih _ x hx
        · simp only [hl] at hx
          by_cases hv : ino.valid ≠ 0
          · rw [if_pos hv] at hx
            rcases List.mem_cons.mp hx with hx | hx
            · subst hx
              exact ⟨hc.1, ino, hl, hv⟩
            · exact ih _ x hx
          · rw [if_neg hv] at hx
            exact ih _ x hx
      · rw [if_neg hc] at hx
        exact ih _ x hx

theorem ls_sound (fs : FS) (x : List Nat × Nat × String × Nat) (hx : x ∈ ls fs) :
    x.1 ≠ [] ∧ ∃ ino, loadInode fs x.2.1 = some ino ∧ ino.valid ≠ 0 := by
  unfold ls at hx
  repeat' split at hx
  all_goals first
    | simp at hx
    | exact lsEntriesF_sound fs _ _ x hx

/-- C6: ls never yields an entry whose target inode is invalid — every
tuple it returns has a target that loads with a non-zero valid flag —
even though the raw 264-byte records of removed files stay physically
present in the directory's byte content (ls filters the listing only;
nothing rewrites the stream). -/
theorem ls_never_lists_invalid (fs : FS) (name : List Nat) (inum : Nat) (ty : String)
    (sz : Nat) (hmem : (name, inum, ty, sz) ∈ ls fs) :
    ∃ ino, loadInode fs inum = some ino ∧ ino.valid ≠ 0 :=
  (ls_sound fs _ hmem).2

set_option maxRecDepth 1000000 in
theorem ls_never_lists_invalid_witness :
    (([97], 1, "FILE", 5) ∈ ls wFS) ∧
      ∃ ino, loadInode wFS 1 = some ino ∧ ino.valid ≠ 0 :=
  ⟨by decide, ls_never_lists_invalid wFS [97] 1 "FILE" 5 (by decide)⟩

/-- C10: on a mounted file system whose current directory holds no record
with an empty stored name, create_file with the empty name is not
rejected by the existence check: given a free inode slot k and sub-steps
that succeed (persisting the fresh inode and appending its 264-byte
record to the directory — the same conditions any name needs), it returns
the fresh, previously invalid inode number k; yet ls never yields an
entry with an empty name, on any state, so the file never appears in a
listing while consuming an inode and directory space. -/
theorem createFile_empty_name (fs : FS) (t k : Nat) (di : Inode) (fs₁ fs₂ : FS)
    (hm : fs.mounted = true)
    (hload : loadInode fs fs.current_dir_inode = some di)
    (hvalid : di.valid ≠ 0)
    (hrecords : ∀ data, read fs fs.current_dir_inode di.size 0 = some data →
      ∀ e ∈ entryRecords data, e.name ≠ [])
    (halloc : allocateInode fs = some k)
    (hsave : saveInode fs k ⟨1, Inode.TYPE_FILE, 0, t, t, [0, 0, 0, 0, 0], 0⟩ = (fs₁, true))
    (hadd : addDirEntry fs₁ fs₁.current_dir_inode [] k t = some (fs₂, true)) :
    createFile fs [] t = some (fs₂, (k : Int)) ∧ k < fs.superblock.inodes ∧
      (∃ kino, loadInode fs k = some kino ∧ kino.valid = 0) ∧
      ∀ g x, x ∈ ls g → x.1 ≠ [] := by
  have hfind : findDirEntry fs fs.current_dir_inode [] = -1 := by
    simp only [findDirEntry, hload]
    rw [if_neg hvalid]
    by_cases hs : di.size = 0
    · rw [if_pos hs]
    · rw [if_neg hs]
      rcases hr : read fs fs.current_dir_inode di.size 0 with _ | data
      · simp only [hr]
      · simp only [hr]
        by_cases hd : data = []
        · rw [if_pos hd]
        · rw [if_neg hd, scanEntriesF_eq]
          have hnone : (entryRecordsF data.length data).find?
              (fun e => e.name == ([] : List Nat)) = none := by
            apply List.find?_eq_none.mpr
            intro e he
            simpa using hrecords data hr e he
          rw [hnone]
  refine ⟨?_, ?_, ?_, fun g x hx => (ls_sound g x hx).1⟩
  · simp only [createFile, hm]
    rw [if_neg (by simp)]
    rw [if_neg (by rw [hfind]; norm_num)]
    simp only [halloc, hsave]
    rw [if_neg (by simp)]
    simp only [hadd]
  · have hk := List.mem_of_find?_eq_some halloc
    exact List.mem_range.mp hk
  · have hp := List.find?_some halloc
    rcases hl : loadInode fs k with _ | kino
    · rw [hl] at hp
      simp at hp
    · rw [hl] at hp
      rw [beq_iff_eq] at hp
      exact ⟨kino, rfl, hp⟩

def wFS1 : FS := (saveInode wFS 2 ⟨1, Inode.TYPE_FILE, 0, 99, 99, [0, 0, 0, 0, 0], 0⟩).1

def wFS2 : FS := ((addDirEntry wFS1 wFS1.current_dir_inode [] 2 99).getD (wFS1, false)).1

/-! ### State-frame lemmas: what the engine's steps never change -/

/-- What every in-session mutating step preserves: the superblock, the
mount flag, the current directory, the device size, and the length of the
free-block map (allocation and freeing only toggle entries in place). -/
def stateFrame (fs fs' : FS) : Prop :=
  fs'.superblock = fs.superblock ∧ fs'.mounted = fs.mounted ∧
    fs'.current_dir_inode = fs.current_dir_inode ∧ fs'.disk.blocks = fs.disk.blocks ∧
    fs'.free_blocks.length = fs.free_blocks.length

theorem stateFrame_refl (fs : FS) : stateFrame fs fs := ⟨rfl, rfl, rfl, rfl, rfl⟩

theorem stateFrame_trans {a b c : FS} (h1 : stateFrame a b) (h2 : stateFrame b c) :
    stateFrame a c :=
  ⟨h2.1.trans h1.1, h2.2.1.trans h1.2.1, h2.2.2.1.trans h1.2.2.1,
    h2.2.2.2.1.trans h1.2.2.2.1, h2.2.2.2.2.trans h1.2.2.2.2⟩

theorem diskWrite_blocks (d : Disk) (b : Nat) (bs : List Nat) :
    (diskWrite d b bs).1.blocks = d.blocks := by
  unfold diskWrite
  split <;> [skip; rfl]
  split <;> rfl

theorem stateFrame_freeBlock (fs : FS) (b : Nat) : stateFrame fs (freeBlock fs b) := by
  unfold freeBlock
  split <;> simp [stateFrame]

theorem stateFrame_allocateBlock (fs : FS) : stateFrame fs (allocateBlock fs).1 := by
  unfold allocateBlock
  dsimp only
  split <;> simp [stateFrame]

theorem stateFrame_saveInode (fs : FS) (inum : Nat) (ino : Inode) :
    stateFrame fs (saveInode fs inum ino).1 := by
  unfold saveInode saveInodeD
  split
  · exact stateFrame_refl fs
  · exact ⟨rfl, rfl, rfl, diskWrite_blocks _ _ _, rfl⟩

theorem stateFrame_ensureIndirect {fs : FS} {ino : Inode} {fsE : FS} {inoE : Inode}
    (h : ensureIndirect fs ino = some (fsE, inoE)) : stateFrame fs fsE := by
  unfold ensureIndirect at h
  split at h
  · split at h
    · simp at h
    · rename_i fs₁ ib heq
      injection h with h
      injection h with h1 h2
      subst h1
      have hA : stateFrame fs fs₁ := by
        have h' := stateFrame_allocateBlock fs
        rw [heq] at h'
        exact h'
      exact stateFrame_trans hA ⟨rfl, rfl, rfl, diskWrite_blocks _ _ _, rfl⟩
  · injection h with h
    injection h with h1 h2
    subst h1
    exact stateFrame_refl fs

theorem stateFrame_setBlockPointer {fs : FS} {ino : Inode} {bi bn : Nat} {fs₂ : FS}
    {ino₂ : Inode} {ok : Bool} (h : setBlockPointer fs ino bi bn = some (fs₂, ino₂, ok)) :
    stateFrame fs fs₂ := by
  unfold setBlockPointer at h
  split at h
  · injection h with h
    injection h with h1 h2
    subst h1
    exact stateFrame_refl fs
  · split at h
    · simp at h
    · rename_i fsE inoE heq
      split at h
      · simp at h
      · rename_i bs hbs
        dsimp only at h
        split at h
        · injection h with h
          injection h with h1 h2
          subst h1
          exact stateFrame_ensureIndirect heq
        · injection h with h
          injection h with h1 h2
          subst h1
          exact stateFrame_trans (stateFrame_ensureIndirect heq)
            ⟨rfl, rfl, rfl, diskWrite_blocks _ _ _, rfl⟩

theorem stateFrame_writeStep {fs : FS} {ino : Inode} {bi : Nat} {fs₁ : FS} {ino₁ : Inode}
    {r : Option Nat} (h : writeStep fs ino bi = some (fs₁, ino₁, r)) :
    stateFrame fs fs₁ := by
  unfold writeStep at h
  dsimp only at h
  split at h
  · injection h with h
    injection h with h1 h2
    subst h1
    exact stateFrame_refl fs
  · split at h
    · rename_i fsA heq
      injection h with h
      injection h with h1 h2
      subst h1
      have h' := stateFrame_allocateBlock fs
      rw [heq] at h'
      exact h'
    · rename_i fsA bn heq
      have hA : stateFrame fs fsA := by
        have h' := stateFrame_allocateBlock fs
        rw [heq] at h'
        exact h'
      split at h
      · simp at h
      · rename_i fsB inoB hset
        injection h with h
        injection h with h1 h2
        subst h1
        exact stateFrame_trans hA (stateFrame_setBlockPointer hset)
      · rename_i fsB inoB hset
        injection h with h
        injection h with h1 h2
        subst h1
        exact stateFrame_trans hA
          (stateFrame_trans (stateFrame_setBlockPointer hset) (stateFrame_freeBlock _ _))

theorem stateFrame_writeLoopF :
    ∀ (fuel : Nat) (fs : FS) (ino : Inode) (offset w : Nat) (rest : List Nat)
      (fs' : FS) (ino' : Inode) (w' : Nat),
      writeLoopF fs ino offset w rest fuel = some (fs', ino', w') → stateFrame fs fs' := by
  intro fuel
  induction fuel with
  | zero =>
    intro fs ino offset w rest fs' ino' w' h
    cases rest with
    | nil =>
      injection h with h
      injection h with h1 h2
      subst h1
      exact stateFrame_refl fs
    | cons a l =>
      injection h with h
      injection h with h1 h2
      subst h1
      exact stateFrame_refl fs
  | succ fuel ih =>
    intro fs ino offset w rest fs' ino' w' h
    cases rest with
    | nil =>
      injection h with h
      injection h with h1 h2
      subst h1
      exact stateFrame_refl fs
    | cons a l =>
      simp only [writeLoopF] at h
      split at h
      · simp at h
      · rename_i fsA inoA heq
        injection h with h
        injection h with h1 h2
        subst h1
        exact stateFrame_writeStep heq
      · rename_i fsA inoA bn heq
        have hA : stateFrame fs fsA := stateFrame_writeStep heq
        split at h
        · rename_i d hw
          injection h with h
          injection h with h1 h2
          subst h1
          have hblocks : d.blocks = fsA.disk.blocks :=
            (congrArg (fun p : Disk × Bool => p.1.blocks) hw).symm.trans
              (diskWrite_blocks _ _ _)
          exact stateFrame_trans hA ⟨rfl, rfl, rfl, hblocks, rfl⟩
        · rename_i d hw
          have hblocks : d.blocks = fsA.disk.blocks :=
            (congrArg (fun p : Disk × Bool => p.1.blocks) hw).symm.trans
              (diskWrite_blocks _ _ _)
          exact stateFrame_trans hA
            (stateFrame_trans (⟨rfl, rfl, rfl, hblocks, rfl⟩ : stateFrame fsA
              { fsA with disk := d }) (ih _ _ _ _ _ _ _ _ h))

theorem stateFrame_write {fs : FS} {inum : Nat} {data : List Nat} {offset t : Nat}
    {fs' : FS} {r : Int} (h : write fs inum data offset t = some (fs', r)) :
    stateFrame fs fs' := by
  unfold write at h
  split at h
  · injection h with h
    injection h with h1 h2
    subst h1
    exact stateFrame_refl fs
  · split at h
    · injection h with h
      injection h with h1 h2
      subst h1
      exact stateFrame_refl fs
    · rename_i ino hload
      split at h
      · injection h with h
        injection h with h1 h2
        subst h1
        exact stateFrame_refl fs
      · split at h
        · simp at h
        · rename_i fsA inoA w hloop
          dsimp only at h
          injection h with h
          injection h with h1 h2
          subst h1
          exact stateFrame_trans (stateFrame_writeLoopF _ _ _ _ _ _ _ _ _ hloop)
            (stateFrame_saveInode _ _ _)

theorem stateFrame_addDirEntry {fs : FS} {dinum : Nat} {name : List Nat} {inum t : Nat}
    {fs' : FS} {ok : Bool} (h : addDirEntry fs dinum name inum t = some (fs', ok)) :
    stateFrame fs fs' := by
  unfold addDirEntry at h
  dsimp only at h
  split at h
  · injection h with h
    injection h with h1 h2
    subst h1
    exact stateFrame_refl fs
  · rename_i di hload
    split at h
    · injection h with h
      injection h with h1 h2
      subst h1
      exact stateFrame_refl fs
    · split at h
      · simp at h
      · rename_i fsW w hw
        injection h with h
        injection h with h1 h2
        subst h1
        exact stateFrame_write hw

theorem stateFrame_foldl {α : Type} (g : FS → α → FS) (hg : ∀ s a, stateFrame s (g s a)) :
    ∀ (l : List α) (fs : FS), stateFrame fs (l.foldl g fs) := by
  intro l
  induction l with
  | nil => intro fs; exact stateFrame_refl fs
  | cons a l ih =>
    intro fs
    rw [List.foldl_cons]
    exact stateFrame_trans (hg fs a) (ih (g fs a))

theorem stateFrame_removeFile (fs : FS) (inum : Nat) :
    stateFrame fs (removeFile fs inum).1 := by
  unfold removeFile
  split
  · exact stateFrame_refl fs
  · split
    · exact stateFrame_refl fs
    · rename_i ino hload
      split
      · exact stateFrame_refl fs
      · dsimp only
        have h1 : stateFrame fs
            (ino.direct.foldl (fun s b => if b ≠ 0 then freeBlock s b else s) fs) := by
          apply stateFrame_foldl
          intro s b
          dsimp only
          split
          · exact stateFrame_freeBlock s b
          · exact stateFrame_refl s
        set fsD := ino.direct.foldl (fun s b => if b ≠ 0 then freeBlock s b else s) fs
        have h2 : ∀ fsX : FS, stateFrame fsX
            (if ino.indirect ≠ 0 then
              freeBlock
                (match diskRead fsX.disk ino.indirect with
                 | none => fsX
                 | some bs =>
                   (List.range POINTERS_PER_BLOCK).foldl
                     (fun s j =>
                       let p := readU32 bs (j * 4)
                       if p ≠ 0 then freeBlock s p else s) fsX)
                ino.indirect
             else fsX) := by
          intro fsX
          split
          · refine stateFrame_trans ?_ (stateFrame_freeBlock _ _)
            split
            · exact stateFrame_refl fsX
            · apply stateFrame_foldl
              intro s j
              dsimp only
              split
              · exact stateFrame_freeBlock s _
              · exact stateFrame_refl s
          · exact stateFrame_refl fsX
        exact stateFrame_trans (stateFrame_trans h1 (h2 fsD)) (stateFrame_saveInode _ _ _)

theorem stateFrame_createFile {fs : FS} {name : List Nat} {t : Nat} {fs' : FS} {r : Int}
    (h : createFile fs name t = some (fs', r)) : stateFrame fs fs' := by
  unfold createFile at h
  split at h
  · injection h with h
    injection h with h1 h2
    subst h1
    exact stateFrame_refl fs
  · split at h
    · injection h with h
      injection h with h1 h2
      subst h1
      exact stateFrame_refl fs
    · split at h
      · injection h with h
        injection h with h1 h2
        subst h1
        exact stateFrame_refl fs
      · rename_i k halloc
        dsimp only at h
        split at h
        · injection h with h
          injection h with h1 h2
          subst h1
          exact stateFrame_saveInode _ _ _
        · have hsv := stateFrame_saveInode fs k
            ⟨1, Inode.TYPE_FILE, 0, t, t, [0, 0, 0, 0, 0], 0⟩
          split at h
          · simp at h
          · rename_i fsB hadd
            injection h with h
            injection h with h1 h2
            subst h1
            exact stateFrame_trans hsv (stateFrame_addDirEntry hadd)
          · rename_i fsB hadd
            injection h with h
            injection h with h1 h2
            subst h1
            exact stateFrame_trans hsv
              (stateFrame_trans (stateFrame_addDirEntry hadd) (stateFrame_saveInode _ _ _))

theorem stateFrame_mkdir {fs : FS} {name : List Nat} {t : Nat} {fs' : FS} {r : Int}
    (h : mkdir fs name t = some (fs', r)) : stateFrame fs fs' := by
  unfold mkdir at h
  split at h
  · injection h with h
    injection h with h1 h2
    subst h1
    exact stateFrame_refl fs
  · split at h
    · injection h with h
      injection h with h1 h2
      subst h1
      exact stateFrame_refl fs
    · split at h
      · injection h with h
        injection h with h1 h2
        subst h1
        exact stateFrame_refl fs
      · rename_i k halloc
        dsimp only at h
        split at h
        · injection h with h
          injection h with h1 h2
          subst h1
          exact stateFrame_saveInode _ _ _
        · have hsv := stateFrame_saveInode fs k
            ⟨1, Inode.TYPE_DIR, 0, t, t, [0, 0, 0, 0, 0], 0⟩
          split at h
          · simp at h
          · rename_i fsA okA haddA
            have hA := stateFrame_addDirEntry haddA
            split at h
            · simp at h
            · rename_i fsB okB haddB
              have hB := stateFrame_addDirEntry haddB
              split at h
              · simp at h
              · rename_i fsC haddC
                injection h with h
                injection h with h1 h2
                subst h1
                exact stateFrame_trans hsv (stateFrame_trans hA
                  (stateFrame_trans hB (stateFrame_addDirEntry haddC)))
              · rename_i fsC haddC
                injection h with h
                injection h with h1 h2
                subst h1
                exact stateFrame_trans hsv (stateFrame_trans hA
                  (stateFrame_trans hB (stateFrame_trans (stateFrame_addDirEntry haddC)
                    (stateFrame_removeFile _ _))))

/-! ### Free-block-map length lemmas -/

theorem foldl_length_set {α : Type} (g : List Bool → α → List Bool)
    (hg : ∀ m a, (g m a).length = m.length) :
    ∀ (l : List α) (m : List Bool), (l.foldl g m).length = m.length := by
  intro l
  induction l with
  | nil => intro m; rfl
  | cons a l ih =>
    intro m
    rw [List.foldl_cons, ih, hg]

theorem buildFreeBlockMap_length (fs : FS) :
    (buildFreeBlockMap fs).free_blocks.length = fs.superblock.blocks := by
  unfold buildFreeBlockMap
  dsimp only
  rw [foldl_length_set, foldl_length_set, List.length_replicate]
  · intro m i
    dsimp only
    split <;> simp
  · intro m i
    dsimp only
    split
    · rfl
    · split
      · rfl
      · rename_i ino _ _
        have hD : ∀ (mm : List Bool),
            (ino.direct.foldl
              (fun mm b => if 0 < b ∧ b < fs.superblock.blocks then mm.set b false else mm)
              mm).length = mm.length := by
          intro mm
          apply foldl_length_set
          intro m' b
          dsimp only
          split <;> simp
        split
        · split
          · simp [hD]
          · rename_i bs _
            rw [foldl_length_set]
            · simp [hD]
            · intro m' j
              dsimp only
              split <;> simp
        · exact hD m

theorem buildFreeBlockMap_superblock (fs : FS) :
    (buildFreeBlockMap fs).superblock = fs.superblock := rfl

/-! ### Claim C9: the free-block map keeps exactly superblock.blocks entries -/

/-- C9: whenever the engine is mounted the in-memory free-block map has
exactly superblock.blocks entries. mount (re)builds it at that length;
every mutating public operation (create_file, mkdir, write, remove_file,
cd) preserves the length, because allocation and freeing only set
existing entries in place; and unmount empties it. read, ls and stat are
modelled as pure functions of the state — they touch neither the map nor
anything else (the source mutates only the diagnostic I/O counters there,
which the model omits). -/
theorem free_map_length_invariant (fs fs' : FS) (d : Disk) (nm data path : List Nat)
    (t inum offset : Nat) (r : Int) :
    (mount fs d = (fs', true) → fs'.free_blocks.length = fs'.superblock.blocks) ∧
    (fs.mounted = true → (unmount fs).free_blocks = []) ∧
    (fs.free_blocks.length = fs.superblock.blocks → createFile fs nm t = some (fs', r) →
      fs'.free_blocks.length = fs'.superblock.blocks) ∧
    (fs.free_blocks.length = fs.superblock.blocks → mkdir fs nm t = some (fs', r) →
      fs'.free_blocks.length = fs'.superblock.blocks) ∧
    (fs.free_blocks.length = fs.superblock.blocks →
      write fs inum data offset t = some (fs', r) →
      fs'.free_blocks.length = fs'.superblock.blocks) ∧
    (fs.free_blocks.length = fs.superblock.blocks →
      (removeFile fs inum).1.free_blocks.length = (removeFile fs inum).1.superblock.blocks) ∧
    (fs.free_blocks.length = fs.superblock.blocks →
      (cd fs path).1.free_blocks.length = (cd fs path).1.superblock.blocks) := by
  have frame_len : ∀ {a b : FS}, stateFrame a b →
      a.free_blocks.length = a.superblock.blocks →
      b.free_blocks.length = b.superblock.blocks := by
    intro a b hf hl
    rw [hf.2.2.2.2, hf.1, hl]
  refine ⟨?_, ?_, ?_, ?_, ?_, ?_, ?_⟩
  · intro h
    unfold mount at h
    split at h
    · simp at h
    · split at h
      · simp at h
      · rename_i bs hbs
        dsimp only at h
        split at h
        · simp at h
        · injection h with h1 h2
          subst h1
          exact buildFreeBlockMap_length _
  · intro h
    unfold unmount
    rw [if_pos h]
  · intro hl h
    exact frame_len (stateFrame_createFile h) hl
  · intro hl h
    exact frame_len (stateFrame_mkdir h) hl
  · intro hl h
    exact frame_len (stateFrame_write h) hl
  · intro hl
    exact frame_len (stateFrame_removeFile fs inum) hl
  · intro hl
    unfold cd
    split
    · exact hl
    · split
      · exact hl
      · dsimp only
        split
        · exact hl
        · split
          · exact hl
          · split
            · exact hl
            · exact hl

theorem opt_eta_fs_int {o : Option (FS × Int)} {x : FS} {r : Int}
    (h : o = some (x, r)) (dflt : FS × Int) : o = some ((o.getD dflt).1, r) := by
  rw [h]
  rfl

theorem opt_eta_fs_bool {o : Option (FS × Bool)} {x : FS} {b : Bool}
    (h : o = some (x, b)) (dflt : FS × Bool) : o = some ((o.getD dflt).1, b) := by
  rw [h]
  rfl

/-- Symbolic evaluation of a write that stays inside one already-allocated
block: one loop iteration in read-modify-write mode, then the final
inode save. -/
theorem write_resolve_small (fs : FS) (inum : Nat) (ino : Inode) (data : List Nat)
    (offset t p : Nat)
    (hm : fs.mounted = true)
    (hload : loadInode fs inum = some ino)
    (hvalid : ¬ ino.valid = 0)
    (hne : data ≠ [])
    (hp : getBlockPointer fs.disk ino (offset / BLOCK_SIZE) = p)
    (hp0 : p ≠ 0)
    (hplt : p < fs.disk.blocks)
    (hfits : offset % BLOCK_SIZE + data.length ≤ BLOCK_SIZE)
    (hsmall : data.length < BLOCK_SIZE) :
    ∃ d : Disk, write fs inum data offset t =
      some ((saveInode { fs with disk := d } inum
        { ino with size := max ino.size (offset + data.length), modified := t }).1,
        (data.length : Int)) := by
  rcases data with _ | ⟨a, l⟩
  · exact absurd rfl hne
  · have hstep : writeStep fs ino (offset / BLOCK_SIZE) = some (fs, ino, some p) := by
      unfold writeStep
      dsimp only
      rw [hp, if_pos hp0]
    have hfits' : offset % 4096 + (a :: l).length ≤ 4096 := hfits
    have hbtwm : min (BLOCK_SIZE - offset % BLOCK_SIZE) (a :: l).length = (a :: l).length :=
      Nat.min_eq_right (show (a :: l).length ≤ 4096 - offset % 4096 by omega)
    have hpad : (padTo BLOCK_SIZE ((fs.disk.data p).take BLOCK_SIZE)).length = BLOCK_SIZE :=
      length_padTo (by rw [List.length_take]; exact Nat.min_le_left _ _)
    have hrdp : diskRead fs.disk p =
        some (padTo BLOCK_SIZE ((fs.disk.data p).take BLOCK_SIZE)) := by
      unfold diskRead
      rw [if_pos hplt]
    have hnewlen : (splice (padTo BLOCK_SIZE ((fs.disk.data p).take BLOCK_SIZE))
        (offset % BLOCK_SIZE) (a :: l)).length = BLOCK_SIZE := by
      rw [length_splice (by rw [hpad]; exact hfits')]
      exact hpad
    have hdwb : (diskWrite fs.disk p (splice (padTo BLOCK_SIZE ((fs.disk.data p).take
        BLOCK_SIZE)) (offset % BLOCK_SIZE) (a :: l))).2 = true := by
      unfold diskWrite
      rw [if_pos hplt, if_pos hnewlen]
    have hdw : diskWrite fs.disk p (splice (padTo BLOCK_SIZE ((fs.disk.data p).take
        BLOCK_SIZE)) (offset % BLOCK_SIZE) (a :: l)) =
        ((diskWrite fs.disk p (splice (padTo BLOCK_SIZE ((fs.disk.data p).take
          BLOCK_SIZE)) (offset % BLOCK_SIZE) (a :: l))).1, true) :=
      Prod.ext rfl hdwb
    have hloop : writeLoopF fs ino offset 0 (a :: l) ((a :: l).length) =
        some ({ fs with disk := (diskWrite fs.disk p (splice (padTo BLOCK_SIZE
          ((fs.disk.data p).take BLOCK_SIZE)) (offset % BLOCK_SIZE) (a :: l))).1 }, ino,
          (a :: l).length) := by
      rw [List.length_cons]
      simp only [writeLoopF]
      rw [Nat.add_zero, hstep]
      dsimp only
      rw [hbtwm, if_pos (Or.inr hsmall), List.take_length, List.drop_length, hrdp,
        Option.getD_some, Nat.zero_add, hdw]
      dsimp only
      simp only [writeLoopF]
      rw [List.length_cons]
    unfold write
    rw [if_neg (by rw [hm]; simp), hload]
    dsimp only
    rw [if_neg hvalid, hloop]
    dsimp only
    exact ⟨_, rfl⟩

def wFS3 : FS := ((write wFS 1 [65, 66] 0 99).getD (wFS, 0)).1

set_option maxRecDepth 1000000 in
theorem free_map_length_invariant_witness :
    wFS3.free_blocks.length = wFS3.superblock.blocks := by
  obtain ⟨d, hw⟩ := write_resolve_small wFS 1 wFileIno [65, 66] 0 99 3 rfl (by decide)
    (by decide) (by decide) (by decide) (by decide) (by decide) (by decide) (by decide)
  exact (free_map_length_invariant wFS wFS3 wDisk [] [65, 66] [] 99 1 0
    (([65, 66].length : Nat) : Int)).2.2.2.2.1 (by decide) (opt_eta_fs_int hw (wFS, 0))

/-! ### Claim C3: writing beyond the maximum file size -/

def c3TableBlock : List Nat :=
  splice (List.replicate 4096 0) 44 (Inode.pack ⟨1, 0, 0, 11, 12, [0, 0, 0, 0, 0], 0⟩)

def c3Disk : Disk := ⟨8, fun b => if b = 1 then c3TableBlock else List.replicate 4096 0⟩

/-- A mounted state with a valid, empty FILE inode 1 (no indirect block)
and exactly one free data block (block 7). -/
def c3FS : FS :=
  ⟨true, [false, false, false, false, false, false, false, true], wSB, 0, c3Disk⟩

set_option maxRecDepth 1000000 in
/-- C3 (code bug), evaluated at the failing input: on `c3FS`, a 1-byte
write at offset 1029·4096 — a byte range that requires logical block
index 1029 = direct_count + pointers_per_block — does not return a short
byte count. The data block allocation takes the last free block, the
indirect block's allocation then fails, the source stores -1 in
`inode.indirect` and returns False from `_set_block_pointer`, and the
unconditional `_save_inode` after the loop raises `struct.error` packing
the negative field, so `write` raises instead of returning. The model
renders the uncaught exception as `none`. -/
theorem write_beyond_limit_crash :
    write c3FS 1 [65] (1029 * 4096) 99 = none := rfl

/-! ### Claim C7: format -/

theorem superBlock_pack_length (sb : SuperBlock) : (SuperBlock.pack sb).length = BLOCK_SIZE := by
  simp only [SuperBlock.pack, List.length_append, List.length_replicate, length_u32le]
  rfl

theorem inode_pack_length (i : Inode) : (Inode.pack i).length = INODE_SIZE := by
  simp only [Inode.pack, List.length_append, length_u32le]
  rfl

theorem inodesPerBlock_eq : INODES_PER_BLOCK = 93 := rfl

/-- An engine that has never been mounted. -/
def c7FS0 : FS := ⟨false, [], ⟨0, 0, 0, 0, 0⟩, 0, ⟨0, fun _ => []⟩⟩

def c7Disk1 : Disk := ⟨1, fun _ => List.replicate 4096 0⟩

/-- The superblock format computes for the 1-block device. -/
def c7SB1 : SuperBlock := ⟨MAGIC_NUMBER, c7Disk1.blocks, 1, 1 * INODES_PER_BLOCK, 0⟩

/-- The 1-block device after format's only successful write (block 0). -/
def c7D1 : Disk :=
  { c7Disk1 with data := fun i => if i = 0 then c7SB1.pack else c7Disk1.data i }

/-- C7 counterexample: the claim fails at N = 1. On a 1-block device the
single inode-table block (block 1) lies outside the device, so format's
zero-fill and root-inode write both fail at the block store: format
returns failure and inode 0 is never written (it cannot even be loaded),
contradicting the claim's assertion for every N ≥ 1. -/
theorem format_one_block_counterexample :
    (format c7FS0 c7Disk1 7).2.2 = false ∧
      loadInodeD (format c7FS0 c7Disk1 7).1.superblock (format c7FS0 c7Disk1 7).2.1 0 =
        none := by
  have hw0 : diskWrite c7Disk1 0
      (SuperBlock.pack ⟨MAGIC_NUMBER, c7Disk1.blocks, 1, 1 * INODES_PER_BLOCK, 0⟩) =
      (c7D1, true) := by
    unfold diskWrite
    rw [if_pos (by decide), if_pos (superBlock_pack_length _)]
    rfl
  have hwz : diskWrite c7D1 1 (List.replicate BLOCK_SIZE 0) = (c7D1, false) := by
    unfold diskWrite
    rw [if_neg (by decide)]
  have hsv : saveInodeD ⟨MAGIC_NUMBER, c7Disk1.blocks, 1, 1 * INODES_PER_BLOCK, 0⟩ c7D1 0
      ⟨1, Inode.TYPE_DIR, 0, 7, 7, [0, 0, 0, 0, 0], 0⟩ = (c7D1, false) := by
    unfold saveInodeD
    rw [if_neg (by decide)]
    dsimp only
    unfold diskWrite
    rw [if_neg (by decide)]
  have hfmt : format c7FS0 c7Disk1 7 =
      ({ c7FS0 with superblock := ⟨MAGIC_NUMBER, c7Disk1.blocks, 1,
          1 * INODES_PER_BLOCK, 0⟩ }, c7D1, false) := by
    unfold format
    rw [if_neg (by decide)]
    dsimp only
    rw [show max 1 ((c7Disk1.blocks + 9) / 10) = 1 from by decide, hw0]
    dsimp only
    rw [show List.range' 1 1 = [1] from rfl, List.foldl_cons, List.foldl_nil, hwz]
    dsimp only
    rw [hsv]
  refine ⟨by rw [hfmt], ?_⟩
  rw [hfmt]
  dsimp only
  unfold loadInodeD
  rw [if_neg (by decide)]
  unfold diskRead
  rw [if_neg (by decide)]

theorem diskWrite_data (d : Disk) (i : Nat) (bs : List Nat)
    (hlen : bs.length = BLOCK_SIZE) (b : Nat) :
    (diskWrite d i bs).1.data b = if i < d.blocks ∧ b = i then bs else d.data b := by
  unfold diskWrite
  by_cases hi : i < d.blocks
  · rw [if_pos hi, if_pos hlen]
    dsimp only
    by_cases hb : b = i
    · rw [if_pos hb, if_pos ⟨hi, hb⟩]
    · rw [if_neg hb, if_neg (fun hc => hb hc.2)]
  · rw [if_neg hi]
    dsimp only
    rw [if_neg (fun hc => hi hc.1)]

theorem zeroFillFold (n : Nat) :
    ∀ d : Disk,
      ((List.range' 1 n).foldl
        (fun dd i => (diskWrite dd i (List.replicate BLOCK_SIZE 0)).1) d).blocks =
          d.blocks ∧
      ∀ b, ((List.range' 1 n).foldl
        (fun dd i => (diskWrite dd i (List.replicate BLOCK_SIZE 0)).1) d).data b =
          if 1 ≤ b ∧ b ≤ n ∧ b < d.blocks then List.replicate BLOCK_SIZE 0
          else d.data b := by
  induction n with
  | zero =>
    intro d
    refine ⟨rfl, fun b => ?_⟩
    rw [if_neg (by omega)]
    rfl
  | succ n ih =>
    intro d
    rw [List.range'_concat, List.foldl_append, List.foldl_cons, List.foldl_nil]
    obtain ⟨ihb, ihd⟩ := ih d
    constructor
    · rw [diskWrite_blocks, ihb]
    · intro b
      rw [diskWrite_data _ _ _ (by rw [List.length_replicate]) b, ihb, ihd b]
      simp only [one_mul]
      by_cases hlast : 1 + n < d.blocks ∧ b = 1 + n
      · rw [if_pos hlast, if_pos (by omega)]
      · rw [if_neg hlast]
        by_cases hin : 1 ≤ b ∧ b ≤ n ∧ b < d.blocks
        · rw [if_pos hin, if_pos (by omega)]
        · rw [if_neg hin, if_neg (by omega)]

/-- C7 (amended): for every unmounted engine and device of N ≥ 2 blocks,
format succeeds; it sets the inode-table block count to
max(1, ceil(N/10)), the total inode count to that count times
inodesPerBlock (blockSize / inodeRecordSize = 93 for 4096/44), zero-fills
every inode-table block, and writes inode 0 as a valid DIR inode of size
0 with created = modified; it adds no "." or ".." entries (the root's
size stays 0 and no block beyond the inode table is touched). At N = 1
the table block lies outside the device and format fails instead. -/
theorem format_spec (fs : FS) (d : Disk) (t : Nat) (hm : fs.mounted = false)
    (hN : 2 ≤ d.blocks) (ht : t < 4294967296) :
    (format fs d t).2.2 = true ∧
    (format fs d t).1.superblock =
      ⟨MAGIC_NUMBER, d.blocks, max 1 ((d.blocks + 9) / 10),
        max 1 ((d.blocks + 9) / 10) * INODES_PER_BLOCK, 0⟩ ∧
    INODES_PER_BLOCK = 93 ∧
    (∀ b, 2 ≤ b → b ≤ max 1 ((d.blocks + 9) / 10) →
      (format fs d t).2.1.data b = List.replicate BLOCK_SIZE 0) ∧
    (format fs d t).2.1.data 1 =
      splice (List.replicate BLOCK_SIZE 0) 0
        (Inode.pack ⟨1, Inode.TYPE_DIR, 0, t, t, [0, 0, 0, 0, 0], 0⟩) ∧
    loadInodeD (format fs d t).1.superblock (format fs d t).2.1 0 =
      some ⟨1, Inode.TYPE_DIR, 0, t, t, [0, 0, 0, 0, 0], 0⟩ ∧
    (∀ b, max 1 ((d.blocks + 9) / 10) < b → (format fs d t).2.1.data b = d.data b) := by
  have hib1 : 1 ≤ max 1 ((d.blocks + 9) / 10) := le_max_left _ _
  have hibN : max 1 ((d.blocks + 9) / 10) < d.blocks := by
    have h10 : (d.blocks + 9) / 10 ≤ d.blocks - 1 := by omega
    omega
  set ib := max 1 ((d.blocks + 9) / 10) with hib
  set sb : SuperBlock := ⟨MAGIC_NUMBER, d.blocks, ib, ib * INODES_PER_BLOCK, 0⟩ with hsb
  set root : Inode := ⟨1, Inode.TYPE_DIR, 0, t, t, [0, 0, 0, 0, 0], 0⟩ with hroot
  have hinodes : sb.inodes = ib * 93 := by
    rw [hsb]
    dsimp only
    rw [inodesPerBlock_eq]
  have hw0 : diskWrite d 0 sb.pack =
      ({ d with data := fun i => if i = 0 then sb.pack else d.data i }, true) := by
    unfold diskWrite
    rw [if_pos (by omega), if_pos (superBlock_pack_length sb)]
  set d₁ : Disk := { d with data := fun i => if i = 0 then sb.pack else d.data i } with hd₁
  have hd₁b : d₁.blocks = d.blocks := rfl
  obtain ⟨hzb, hzd⟩ := zeroFillFold ib d₁
  set d₂ : Disk := (List.range' 1 ib).foldl
    (fun dd i => (diskWrite dd i (List.replicate BLOCK_SIZE 0)).1) d₁ with hd₂
  have hd₂blocks : d₂.blocks = d.blocks := by rw [hzb, hd₁b]
  have hd₂1 : d₂.data 1 = List.replicate BLOCK_SIZE 0 := by
    rw [hzd 1, if_pos (by omega)]
  have hrd₂ : diskRead d₂ 1 = some (List.replicate BLOCK_SIZE 0) := by
    unfold diskRead
    rw [if_pos (by omega), hd₂1,
      List.take_of_length_le (le_of_eq (List.length_replicate _ _)),
      padTo_of_length (List.length_replicate _ _)]
  have hsplen : (splice (List.replicate BLOCK_SIZE 0) 0 root.pack).length = BLOCK_SIZE := by
    rw [length_splice (by rw [List.length_replicate, inode_pack_length]; norm_num [BLOCK_SIZE, INODE_SIZE])]
    exact List.length_replicate _ _
  set d₃ : Disk := { d₂ with data :=
    fun i => if i = 1 then splice (List.replicate BLOCK_SIZE 0) 0 root.pack else d₂.data i }
    with hd₃
  have hsave : saveInodeD sb d₂ 0 root = (d₃, true) := by
    unfold saveInodeD
    rw [if_neg (by intro hcon; rw [hinodes] at hcon; omega)]
    dsimp only
    rw [show (1 + 0 / INODES_PER_BLOCK : Nat) = 1 by norm_num]
    rw [show (0 % INODES_PER_BLOCK * INODE_SIZE : Nat) = 0 by norm_num]
    rw [hrd₂]
    show diskWrite d₂ 1 (splice (List.replicate BLOCK_SIZE 0) 0 root.pack) = _
    unfold diskWrite
    rw [if_pos (by omega), if_pos hsplen]
  have hfmt : format fs d t = ({ fs with superblock := sb }, d₃, true) := by
    unfold format
    rw [if_neg (by rw [hm]; exact Bool.false_ne_true)]
    dsimp only
    rw [← hib, ← hsb, hw0]
    dsimp only
    rw [← hd₂, ← hroot, hsave]
  rw [hfmt]
  dsimp only
  refine ⟨rfl, rfl, rfl, ?_, ?_, ?_, ?_⟩
  · intro b hb2 hbib
    rw [if_neg (by omega), hzd b, if_pos (by omega)]
  · rw [if_pos rfl]
  · unfold loadInodeD
    rw [if_neg (by
      intro hcon
      have hcon' : sb.inodes ≤ 0 := hcon
      rw [hinodes] at hcon'
      omega)]
    rw [show (0 / INODES_PER_BLOCK : Nat) = 0 by norm_num]
    unfold diskRead
    rw [if_pos (by show 1 + 0 < _; dsimp only; omega)]
    dsimp only
    rw [if_pos rfl]
    rw [List.take_of_length_le (le_of_eq hsplen), padTo_of_length hsplen]
    rw [show (0 % INODES_PER_BLOCK * INODE_SIZE : Nat) = 0 by norm_num]
    rw [List.drop_zero]
    have hsp : (splice (List.replicate BLOCK_SIZE 0) 0 root.pack).take INODE_SIZE =
        root.pack := by
      unfold splice
      rw [List.take_zero, List.nil_append]
      exact take_append_of_length (inode_pack_length root)
    rw [hsp]
    rw [inode_unpack_pack root rfl (by norm_num) (by rw [hroot]; norm_num [Inode.TYPE_DIR])
      (by norm_num) (by rw [hroot]; exact ht) (by rw [hroot]; exact ht)
      (by intro x hx; rw [hroot] at hx; simp at hx; omega) (by norm_num)]
  · intro b hb
    rw [if_neg (by omega), hzd b, if_neg (by omega)]
    show (if b = 0 then sb.pack else d.data b) = d.data b
    rw [if_neg (by omega)]

set_option maxRecDepth 1000000 in
theorem format_spec_witness :
    (format c7FS0 ⟨5, fun _ => List.replicate 4096 0⟩ 7).2.2 = true ∧
    (format c7FS0 ⟨5, fun _ => List.replicate 4096 0⟩ 7).1.superblock =
      ⟨MAGIC_NUMBER, 5, max 1 ((5 + 9) / 10), max 1 ((5 + 9) / 10) * INODES_PER_BLOCK, 0⟩ ∧
    INODES_PER_BLOCK = 93 ∧
    (∀ b, 2 ≤ b → b ≤ max 1 ((5 + 9) / 10) →
      (format c7FS0 ⟨5, fun _ => List.replicate 4096 0⟩ 7).2.1.data b =
        List.replicate BLOCK_SIZE 0) ∧
    (format c7FS0 ⟨5, fun _ => List.replicate 4096 0⟩ 7).2.1.data 1 =
      splice (List.replicate BLOCK_SIZE 0) 0
        (Inode.pack ⟨1, Inode.TYPE_DIR, 0, 7, 7, [0, 0, 0, 0, 0], 0⟩) ∧
    loadInodeD (format c7FS0 ⟨5, fun _ => List.replicate 4096 0⟩ 7).1.superblock
        (format c7FS0 ⟨5, fun _ => List.replicate 4096 0⟩ 7).2.1 0 =
      some ⟨1, Inode.TYPE_DIR, 0, 7, 7, [0, 0, 0, 0, 0], 0⟩ ∧
    (∀ b, max 1 ((5 + 9) / 10) < b →
      (format c7FS0 ⟨5, fun _ => List.replicate 4096 0⟩ 7).2.1.data b =
        List.replicate 4096 0) :=
  format_spec c7FS0 ⟨5, fun _ => List.replicate 4096 0⟩ 7 rfl (by norm_num) (by norm_num)

/-! ### Inode-table frame lemmas (shared by the remove_file and write claims) -/

theorem ext_getD {l₁ l₂ : List Nat} (hl : l₁.length = l₂.length)
    (h : ∀ k, k < l₁.length → l₁.getD k 0 = l₂.getD k 0) : l₁ = l₂ := by
  refine List.ext_getElem hl (fun n h₁ h₂ => ?_)
  have hk := h n h₁
  rwa [List.getD_eq_getElem?_getD, List.getD_eq_getElem?_getD, List.getElem?_eq_getElem h₁,
    List.getElem?_eq_getElem h₂] at hk

theorem readU32_lt (bs : List Nat) (off : Nat) : readU32 bs off < 4294967296 := by
  unfold readU32
  have h0 := Nat.mod_lt (bs.getD off 0) (show 0 < 256 by norm_num)
  have h1 := Nat.mod_lt (bs.getD (off + 1) 0) (show 0 < 256 by norm_num)
  have h2 := Nat.mod_lt (bs.getD (off + 2) 0) (show 0 < 256 by norm_num)
  have h3 := Nat.mod_lt (bs.getD (off + 3) 0) (show 0 < 256 by norm_num)
  omega

theorem diskRead_length {d : Disk} {b : Nat} {bs : List Nat}
    (h : diskRead d b = some bs) : bs.length = BLOCK_SIZE := by
  unfold diskRead at h
  split at h
  · injection h with h
    subst h
    rw [length_padTo]
    rw [List.length_take]
    omega
  · exact absurd h (by simp)

theorem diskRead_congr {d d' : Disk} {c : Nat} (hb : d'.blocks = d.blocks)
    (hdata : ∀ b, b ≠ c → d'.data b = d.data b) (b : Nat) (hbc : b ≠ c) :
    diskRead d' b = diskRead d b := by
  unfold diskRead
  rw [hb, hdata b hbc]

theorem loadInodeD_fields {sb : SuperBlock} {d : Disk} {inum : Nat} {ino : Inode}
    (h : loadInodeD sb d inum = some ino) :
    ino.direct.length = 5 ∧ ino.valid < 4294967296 ∧ ino.inode_type < 4294967296 ∧
      ino.size < 4294967296 ∧ ino.created < 4294967296 ∧ ino.modified < 4294967296 ∧
      (∀ x ∈ ino.direct, x < 4294967296) ∧ ino.indirect < 4294967296 := by
  unfold loadInodeD at h
  split at h
  · exact absurd h (by simp)
  · split at h
    · exact absurd h (by simp)
    · injection h with h
      subst h
      refine ⟨rfl, readU32_lt _ _, readU32_lt _ _, readU32_lt _ _, readU32_lt _ _,
        readU32_lt _ _, ?_, readU32_lt _ _⟩
      intro x hx
      simp only [Inode.unpack, List.mem_cons, List.not_mem_nil, or_false] at hx
      rcases hx with h | h | h | h | h <;> (subst h; exact readU32_lt _ _)

theorem loadInodeD_congr {sb : SuperBlock} {d d' : Disk} {c : Nat}
    (hb : d'.blocks = d.blocks) (hdata : ∀ b, b ≠ c → d'.data b = d.data b)
    (j : Nat) (hj : 1 + j / INODES_PER_BLOCK ≠ c) :
    loadInodeD sb d' j = loadInodeD sb d j := by
  unfold loadInodeD
  rw [diskRead_congr hb hdata _ hj]

theorem slice_of_splice_self (B repl : List Nat) (off : Nat)
    (hoff : off + repl.length ≤ B.length) :
    ((splice B off repl).drop off).take repl.length = repl := by
  unfold splice
  rw [List.append_assoc, List.drop_left' (by rw [List.length_take]; omega)]
  exact List.take_left' rfl

theorem slice_of_splice_other (B repl : List Nat) (off o1 w : Nat)
    (hw : o1 + w ≤ B.length) (hrep : off + repl.length ≤ B.length)
    (hdisj : o1 + w ≤ off ∨ off + repl.length ≤ o1) :
    ((splice B off repl).drop o1).take w = (B.drop o1).take w := by
  have hlen : (splice B off repl).length = B.length := length_splice hrep
  apply ext_getD
  · rw [List.length_take, List.length_take, List.length_drop, List.length_drop, hlen]
  · intro k hk
    rw [List.length_take, List.length_drop, hlen] at hk
    have hkw : k < w := lt_of_lt_of_le hk (min_le_left _ _)
    rw [getD_take hkw, getD_take hkw, getD_drop, getD_drop]
    rcases hdisj with hd | hd
    · exact getD_splice_left (by omega) (by omega)
    · exact getD_splice_right (by omega) (by omega)

theorem inodeTableBlock_le {sb : SuperBlock} {inum : Nat} (hin : inum < sb.inodes)
    (htab : sb.inodes ≤ sb.inode_blocks * 93) :
    1 + inum / INODES_PER_BLOCK ≤ sb.inode_blocks := by
  rw [inodesPerBlock_eq]
  have hdiv : inum / 93 < sb.inode_blocks := by
    rw [Nat.div_lt_iff_lt_mul (show 0 < 93 by norm_num)]
    omega
  omega

theorem inodeOffset_le (inum : Nat) :
    inum % INODES_PER_BLOCK * INODE_SIZE + INODE_SIZE ≤ BLOCK_SIZE := by
  rw [inodesPerBlock_eq, show INODE_SIZE = 44 from rfl, show BLOCK_SIZE = 4096 from rfl]
  have := Nat.mod_lt inum (show 0 < 93 by norm_num)
  omega

theorem saveInodeD_spec (sb : SuperBlock) (d : Disk) (inum : Nat) (ino : Inode)
    (hin : inum < sb.inodes) (htab : sb.inodes ≤ sb.inode_blocks * 93)
    (hibb : sb.inode_blocks + 1 ≤ sb.blocks) (hsd : sb.blocks ≤ d.blocks) :
    (saveInodeD sb d inum ino).2 = true ∧
    (saveInodeD sb d inum ino).1.blocks = d.blocks ∧
    (∀ b, b ≠ 1 + inum / INODES_PER_BLOCK → (saveInodeD sb d inum ino).1.data b = d.data b) ∧
    (saveInodeD sb d inum ino).1.data (1 + inum / INODES_PER_BLOCK) =
      splice ((diskRead d (1 + inum / INODES_PER_BLOCK)).getD (List.replicate BLOCK_SIZE 0))
        (inum % INODES_PER_BLOCK * INODE_SIZE) ino.pack := by
  have hbn : 1 + inum / INODES_PER_BLOCK < d.blocks := by
    have := inodeTableBlock_le hin htab
    omega
  have hBlen : ((diskRead d (1 + inum / INODES_PER_BLOCK)).getD
      (List.replicate BLOCK_SIZE 0)).length = BLOCK_SIZE := by
    rcases hr : diskRead d (1 + inum / INODES_PER_BLOCK) with _ | bs
    · rw [Option.getD_none, List.length_replicate]
    · rw [Option.getD_some]
      exact diskRead_length hr
  have hsplen : (splice ((diskRead d (1 + inum / INODES_PER_BLOCK)).getD
      (List.replicate BLOCK_SIZE 0)) (inum % INODES_PER_BLOCK * INODE_SIZE) ino.pack).length =
      BLOCK_SIZE := by
    rw [length_splice, hBlen]
    rw [hBlen, inode_pack_length]
    exact inodeOffset_le inum
  unfold saveInodeD
  rw [if_neg (by omega)]
  dsimp only
  unfold diskWrite
  rw [if_pos hbn, if_pos hsplen]
  refine ⟨rfl, rfl, fun b hb => ?_, ?_⟩
  · dsimp only
    rw [if_neg hb]
  · dsimp only
    rw [if_pos rfl]

theorem loadInodeD_after_save_self (sb : SuperBlock) (d : Disk) (inum : Nat) (ino : Inode)
    (hin : inum < sb.inodes) (htab : sb.inodes ≤ sb.inode_blocks * 93)
    (hibb : sb.inode_blocks + 1 ≤ sb.blocks) (hsd : sb.blocks ≤ d.blocks)
    (hd5 : ino.direct.length = 5)
    (hb1 : ino.valid < 4294967296) (hb2 : ino.inode_type < 4294967296)
    (hb3 : ino.size < 4294967296) (hb4 : ino.created < 4294967296)
    (hb5 : ino.modified < 4294967296) (hb6 : ∀ x ∈ ino.direct, x < 4294967296)
    (hb7 : ino.indirect < 4294967296) :
    loadInodeD sb (saveInodeD sb d inum ino).1 inum = some ino := by
  obtain ⟨-, hblocks, -, hdata⟩ := saveInodeD_spec sb d inum ino hin htab hibb hsd
  have hbn : 1 + inum / INODES_PER_BLOCK < d.blocks := by
    have := inodeTableBlock_le hin htab
    omega
  have hBlen : ((diskRead d (1 + inum / INODES_PER_BLOCK)).getD
      (List.replicate BLOCK_SIZE 0)).length = BLOCK_SIZE := by
    rcases hr : diskRead d (1 + inum / INODES_PER_BLOCK) with _ | bs
    · rw [Option.getD_none, List.length_replicate]
    · rw [Option.getD_some]
      exact diskRead_length hr
  have hsplen : (splice ((diskRead d (1 + inum / INODES_PER_BLOCK)).getD
      (List.replicate BLOCK_SIZE 0)) (inum % INODES_PER_BLOCK * INODE_SIZE) ino.pack).length =
      BLOCK_SIZE := by
    rw [length_splice, hBlen]
    rw [hBlen, inode_pack_length]
    exact inodeOffset_le inum
  unfold loadInodeD
  rw [if_neg (by omega)]
  unfold diskRead
  rw [if_pos (by rw [hblocks]; exact hbn), hdata,
    List.take_of_length_le (le_of_eq hsplen), padTo_of_length hsplen]
  have hslice : ((splice ((diskRead d (1 + inum / INODES_PER_BLOCK)).getD
      (List.replicate BLOCK_SIZE 0)) (inum % INODES_PER_BLOCK * INODE_SIZE)
        ino.pack).drop (inum % INODES_PER_BLOCK * INODE_SIZE)).take INODE_SIZE = ino.pack := by
    rw [show INODE_SIZE = (Inode.pack ino).length from (inode_pack_length ino).symm]
    apply slice_of_splice_self
    rw [hBlen, inode_pack_length]
    exact inodeOffset_le inum
  dsimp only
  rw [hslice, inode_unpack_pack ino hd5 hb1 hb2 hb3 hb4 hb5 hb6 hb7]

theorem loadInodeD_after_save_other (sb : SuperBlock) (d : Disk) (inum : Nat) (ino : Inode)
    (j : Nat) (hj : j ≠ inum)
    (hin : inum < sb.inodes) (htab : sb.inodes ≤ sb.inode_blocks * 93)
    (hibb : sb.inode_blocks + 1 ≤ sb.blocks) (hsd : sb.blocks ≤ d.blocks) :
    loadInodeD sb (saveInodeD sb d inum ino).1 j = loadInodeD sb d j := by
  obtain ⟨-, hblocks, hother, hdata⟩ := saveInodeD_spec sb d inum ino hin htab hibb hsd
  by_cases hbn : 1 + j / INODES_PER_BLOCK = 1 + inum / INODES_PER_BLOCK
  · -- same table block, different slot: the 44-byte windows are disjoint
    have hbndlt : 1 + inum / INODES_PER_BLOCK < d.blocks := by
      have := inodeTableBlock_le hin htab
      omega
    have hmodne : j % INODES_PER_BLOCK ≠ inum % INODES_PER_BLOCK := by
      rw [inodesPerBlock_eq] at hbn ⊢
      intro hmod
      apply hj
      omega
    have hB : diskRead d (1 + inum / INODES_PER_BLOCK) =
        some (padTo BLOCK_SIZE ((d.data (1 + inum / INODES_PER_BLOCK)).take BLOCK_SIZE)) := by
      unfold diskRead
      rw [if_pos hbndlt]
    set B : List Nat := padTo BLOCK_SIZE ((d.data (1 + inum / INODES_PER_BLOCK)).take
      BLOCK_SIZE) with hBdef
    have hBlen : B.length = BLOCK_SIZE := by
      rw [hBdef, length_padTo (by rw [List.length_take]; omega)]
    have hsplen : (splice B (inum % INODES_PER_BLOCK * INODE_SIZE) ino.pack).length =
        BLOCK_SIZE := by
      rw [length_splice]
      · exact hBlen
      · rw [hBlen, inode_pack_length]
        exact inodeOffset_le inum
    have hL : diskRead (saveInodeD sb d inum ino).1 (1 + inum / INODES_PER_BLOCK) =
        some (splice B (inum % INODES_PER_BLOCK * INODE_SIZE) ino.pack) := by
      unfold diskRead
      rw [if_pos (by rw [hblocks]; exact hbndlt), hdata, hB, Option.getD_some,
        List.take_of_length_le (le_of_eq hsplen), padTo_of_length hsplen]
    have hdisj : j % INODES_PER_BLOCK * INODE_SIZE + INODE_SIZE ≤
          inum % INODES_PER_BLOCK * INODE_SIZE ∨
        inum % INODES_PER_BLOCK * INODE_SIZE + (Inode.pack ino).length ≤
          j % INODES_PER_BLOCK * INODE_SIZE := by
      rw [inode_pack_length]
      rw [inodesPerBlock_eq] at hmodne
      rw [inodesPerBlock_eq, show INODE_SIZE = 44 from rfl]
      rcases Nat.lt_or_ge (j % 93) (inum % 93) with hlt | hge
      · left; omega
      · right
        have : inum % 93 < j % 93 := by omega
        omega
    have hslice := slice_of_splice_other B ino.pack
      (inum % INODES_PER_BLOCK * INODE_SIZE) (j % INODES_PER_BLOCK * INODE_SIZE) INODE_SIZE
      (by rw [hBlen]; exact inodeOffset_le j)
      (by rw [hBlen, inode_pack_length]; exact inodeOffset_le inum)
      hdisj
    unfold loadInodeD
    by_cases hjin : j ≥ sb.inodes
    · rw [if_pos hjin, if_pos hjin]
    · rw [if_neg hjin, if_neg hjin, hbn, hL, hB]
      dsimp only
      rw [hslice]
  · unfold loadInodeD
    rw [diskRead_congr hblocks hother _ hbn]

theorem getBlockPointer_congr {d d' : Disk} {c : Nat} (hb : d'.blocks = d.blocks)
    (hdata : ∀ b, b ≠ c → d'.data b = d.data b) (ino : Inode) (hind : ino.indirect ≠ c)
    (i : Nat) : getBlockPointer d' ino i = getBlockPointer d ino i := by
  unfold getBlockPointer
  by_cases h5 : i < POINTERS_PER_INODE
  · rw [if_pos h5, if_pos h5]
  · rw [if_neg h5, if_neg h5]
    by_cases hz : ino.indirect = 0
    · rw [if_pos hz, if_pos hz]
    · rw [if_neg hz, if_neg hz, diskRead_congr hb hdata _ hind]

theorem getBlockPointer_zero_of_ge (d : Disk) (ino : Inode) (i : Nat) (h : 1029 ≤ i) :
    getBlockPointer d ino i = 0 := by
  unfold getBlockPointer
  rw [if_neg (by rw [show POINTERS_PER_INODE = 5 from rfl]; omega)]
  by_cases hz : ino.indirect = 0
  · rw [if_pos hz]
  · rw [if_neg hz]
    rcases hrd : diskRead d ino.indirect with _ | bs
    · rfl
    · dsimp only
      rw [if_pos (by rw [show POINTERS_PER_BLOCK = 1024 from rfl,
        show POINTERS_PER_INODE = 5 from rfl]; omega)]

theorem readLoopF_congr {d d' : Disk} {c : Nat} (hb : d'.blocks = d.blocks)
    (hdata : ∀ b, b ≠ c → d'.data b = d.data b) (ino : Inode) (hind : ino.indirect ≠ c)
    (hptr : ∀ i, getBlockPointer d ino i ≠ c) :
    ∀ fuel remaining fo,
      readLoopF d' ino fuel remaining fo = readLoopF d ino fuel remaining fo := by
  intro fuel
  induction fuel with
  | zero => intro remaining fo; cases remaining <;> rfl
  | succ fuel ih =>
    intro remaining fo
    cases remaining with
    | zero => rfl
    | succ r =>
      simp only [readLoopF]
      rw [getBlockPointer_congr hb hdata ino hind]
      by_cases hp : getBlockPointer d ino (fo / BLOCK_SIZE) = 0
      · rw [if_pos hp, if_pos hp]
      · rw [if_neg hp, if_neg hp, diskRead_congr hb hdata _ (hptr _)]
        rcases hrd : diskRead d (getBlockPointer d ino (fo / BLOCK_SIZE)) with _ | bs
        · rfl
        · dsimp only
          rw [ih]

theorem read_frame {fs fs' : FS} {c : Nat}
    (hm : fs'.mounted = fs.mounted) (hsb : fs'.superblock = fs.superblock)
    (hb : fs'.disk.blocks = fs.disk.blocks)
    (hdata : ∀ b, b ≠ c → fs'.disk.data b = fs.disk.data b)
    (j : Nat)
    (hload : loadInodeD fs.superblock fs'.disk j = loadInodeD fs.superblock fs.disk j)
    (hcond : ∀ dj, loadInodeD fs.superblock fs.disk j = some dj →
      dj.indirect ≠ c ∧ ∀ i, getBlockPointer fs.disk dj i ≠ c)
    (L off : Nat) :
    read fs' j L off = read fs j L off := by
  unfold read loadInode
  rw [hm, hsb, hload]
  by_cases hmt : fs.mounted = false
  · rw [if_pos hmt, if_pos hmt]
  · rw [if_neg hmt, if_neg hmt]
    rcases hL : loadInodeD fs.superblock fs.disk j with _ | dj
    · rfl
    · dsimp only
      obtain ⟨hind, hptr⟩ := hcond dj hL
      by_cases hv : dj.valid = 0
      · rw [if_pos hv, if_pos hv]
      · rw [if_neg hv, if_neg hv]
        by_cases hoff : off ≥ dj.size
        · rw [if_pos hoff, if_pos hoff]
        · rw [if_neg hoff, if_neg hoff, readLoopF_congr hb hdata dj hind hptr]

/-! ### Free-list fold lemmas -/

theorem freeBlock_getD (fs : FS) (b x : Nat) :
    (freeBlock fs b).free_blocks.getD x true =
      if b < fs.free_blocks.length ∧ x = b then true else fs.free_blocks.getD x true := by
  unfold freeBlock
  by_cases hb : b < fs.free_blocks.length
  · rw [if_pos hb]
    dsimp only
    rw [List.getD_eq_getElem?_getD, List.getElem?_set]
    by_cases hx : b = x
    · rw [if_pos hx, if_pos hb, if_pos ⟨hb, hx.symm⟩]
      rfl
    · rw [if_neg hx, if_neg (fun hc => hx hc.2.symm), List.getD_eq_getElem?_getD]
  · rw [if_neg hb, if_neg (fun hc => hb hc.1)]

theorem freeBlock_disk (fs : FS) (b : Nat) : (freeBlock fs b).disk = fs.disk := by
  unfold freeBlock
  split <;> rfl

theorem freeFold_state {α : Type} (c : α → Prop) [DecidablePred c] (f : α → Nat) :
    ∀ (L : List α) (fs : FS),
      (L.foldl (fun s a => if c a then freeBlock s (f a) else s) fs).disk = fs.disk ∧
      (L.foldl (fun s a => if c a then freeBlock s (f a) else s) fs).superblock =
        fs.superblock ∧
      (L.foldl (fun s a => if c a then freeBlock s (f a) else s) fs).mounted = fs.mounted ∧
      (L.foldl (fun s a => if c a then freeBlock s (f a) else s) fs).free_blocks.length =
        fs.free_blocks.length := by
  intro L
  induction L with
  | nil => intro fs; exact ⟨rfl, rfl, rfl, rfl⟩
  | cons a L ih =>
    intro fs
    rw [List.foldl_cons]
    obtain ⟨h1, h2, h3, h4⟩ := ih (if c a then freeBlock fs (f a) else fs)
    by_cases hc : c a
    · rw [if_pos hc] at h1 h2 h3 h4 ⊢
      refine ⟨h1.trans (freeBlock_disk fs (f a)), h2.trans ?_, h3.trans ?_, h4.trans ?_⟩ <;>
        (unfold freeBlock; split <;> simp)
    · rw [if_neg hc] at h1 h2 h3 h4 ⊢
      exact ⟨h1, h2, h3, h4⟩

theorem freeFold_mono {α : Type} (c : α → Prop) [DecidablePred c] (f : α → Nat) :
    ∀ (L : List α) (fs : FS) (x : Nat),
      fs.free_blocks.getD x true = true →
      (L.foldl (fun s a => if c a then freeBlock s (f a) else s) fs).free_blocks.getD x true =
        true := by
  intro L
  induction L with
  | nil => intro fs x h; exact h
  | cons a L ih =>
    intro fs x h
    rw [List.foldl_cons]
    apply ih
    by_cases hc : c a
    · rw [if_pos hc, freeBlock_getD]
      split
      · rfl
      · exact h
    · rw [if_neg hc]
      exact h

theorem freeFold_frees {α : Type} (c : α → Prop) [DecidablePred c] (f : α → Nat) :
    ∀ (L : List α) (fs : FS) (a : α), a ∈ L → c a → f a < fs.free_blocks.length →
      (L.foldl (fun s a => if c a then freeBlock s (f a) else s) fs).free_blocks.getD
        (f a) true = true := by
  intro L
  induction L with
  | nil => intro fs a ha; simp at ha
  | cons b L ih =>
    intro fs a ha hc hlt
    rw [List.foldl_cons]
    rcases List.mem_cons.mp ha with hab | ha'
    · subst hab
      apply freeFold_mono
      rw [if_pos hc, freeBlock_getD, if_pos ⟨hlt, rfl⟩]
    · apply ih _ _ ha' hc
      by_cases hcb : c b
      · rw [if_pos hcb]
        unfold freeBlock
        split <;> simpa using hlt
      · rw [if_neg hcb]
        exact hlt

/-! ### Claim C4: remove_file -/

/-- Well-formedness of an inode's block references in a mounted state:
every resolvable nonzero pointer and the indirect block lie in the data
region (past the inode table, within the device). -/
def ptrsInDataRegion (fs : FS) (ino : Inode) : Prop :=
  (∀ i, i < 1029 → getBlockPointer fs.disk ino i ≠ 0 →
    fs.superblock.inode_blocks + 1 ≤ getBlockPointer fs.disk ino i ∧
      getBlockPointer fs.disk ino i < fs.superblock.blocks) ∧
  (ino.indirect ≠ 0 → fs.superblock.inode_blocks + 1 ≤ ino.indirect ∧
    ino.indirect < fs.superblock.blocks)

theorem freeBlock_mono {fs : FS} {b x : Nat} (h : fs.free_blocks.getD x true = true) :
    (freeBlock fs b).free_blocks.getD x true = true := by
  rw [freeBlock_getD]
  split
  · rfl
  · exact h

theorem freeBlock_self {fs : FS} {b : Nat} (h : b < fs.free_blocks.length) :
    (freeBlock fs b).free_blocks.getD b true = true := by
  rw [freeBlock_getD, if_pos ⟨h, rfl⟩]

theorem freeBlock_superblock (fs : FS) (b : Nat) :
    (freeBlock fs b).superblock = fs.superblock := by
  unfold freeBlock
  split <;> rfl

theorem freeBlock_mounted (fs : FS) (b : Nat) : (freeBlock fs b).mounted = fs.mounted := by
  unfold freeBlock
  split <;> rfl

theorem freeBlock_length (fs : FS) (b : Nat) :
    (freeBlock fs b).free_blocks.length = fs.free_blocks.length := by
  unfold freeBlock
  split <;> simp

theorem loadInodeD_lt {sb : SuperBlock} {d : Disk} {inum : Nat} {ino : Inode}
    (h : loadInodeD sb d inum = some ino) : inum < sb.inodes := by
  unfold loadInodeD at h
  split at h
  · exact absurd h (by simp)
  · omega

/-- C4: remove_file marks free in the free-block map every nonzero direct
block of the inode, every nonzero pointer held in its indirect block and
the indirect block itself; it clears the inode's valid flag on disk
(leaving the other fields intact); and it leaves every other inode and
the byte content of every other (well-formed) file or directory — in
particular the parent directory, whose entry record for the removed file
stays physically present — unchanged. -/
theorem removeFile_spec (fs : FS) (inum : Nat) (ino : Inode)
    (hm : fs.mounted = true) (hload : loadInode fs inum = some ino) (hvalid : ino.valid ≠ 0)
    (hlen : fs.free_blocks.length = fs.superblock.blocks)
    (htab : fs.superblock.inodes ≤ fs.superblock.inode_blocks * 93)
    (hibb : fs.superblock.inode_blocks + 1 ≤ fs.superblock.blocks)
    (hsd : fs.superblock.blocks ≤ fs.disk.blocks)
    (hreg : ptrsInDataRegion fs ino) :
    (removeFile fs inum).2 = true ∧
    (∀ b ∈ ino.direct, b ≠ 0 → (removeFile fs inum).1.free_blocks.getD b true = true) ∧
    (∀ bs j, ino.indirect ≠ 0 → diskRead fs.disk ino.indirect = some bs → j < 1024 →
      readU32 bs (j * 4) ≠ 0 →
      (removeFile fs inum).1.free_blocks.getD (readU32 bs (j * 4)) true = true) ∧
    (ino.indirect ≠ 0 → (removeFile fs inum).1.free_blocks.getD ino.indirect true = true) ∧
    loadInode (removeFile fs inum).1 inum = some { ino with valid := 0 } ∧
    (∀ j, j ≠ inum → loadInode (removeFile fs inum).1 j = loadInode fs j) ∧
    (∀ j dj L off, j ≠ inum → loadInode fs j = some dj → ptrsInDataRegion fs dj →
      read (removeFile fs inum).1 j L off = read fs j L off) := by
  have hin : inum < fs.superblock.inodes := loadInodeD_lt hload
  have hdlen : ino.direct.length = 5 := (loadInodeD_fields hload).1
  -- the state after the direct-pointer fold
  have hfold1 := freeFold_state (fun b => b ≠ 0) (fun b => b) ino.direct fs
  set fs₁ := ino.direct.foldl (fun s b => if b ≠ 0 then freeBlock s b else s) fs with hfs₁
  obtain ⟨hfs₁disk, hfs₁sb, hfs₁m, hfs₁len⟩ := hfold1
  -- the state after the indirect handling
  set fs₂ : FS :=
    (if ino.indirect ≠ 0 then
      freeBlock
        (match diskRead fs₁.disk ino.indirect with
         | none => fs₁
         | some bs =>
           (List.range POINTERS_PER_BLOCK).foldl
             (fun s j =>
               let p := readU32 bs (j * 4)
               if p ≠ 0 then freeBlock s p else s) fs₁)
        ino.indirect
     else fs₁) with hfs₂
  have hrm : removeFile fs inum = saveInode fs₂ inum { ino with valid := 0 } := by
    unfold removeFile
    rw [if_neg (by simp [hm]), hload]
    dsimp only
    rw [if_neg hvalid]
  -- state facts about fs₂
  have hfs₂facts : fs₂.disk = fs.disk ∧ fs₂.superblock = fs.superblock ∧
      fs₂.mounted = fs.mounted ∧ fs₂.free_blocks.length = fs.free_blocks.length := by
    rw [hfs₂]
    by_cases hz : ino.indirect = 0
    · rw [if_neg (by simp [hz])]
      exact ⟨hfs₁disk, hfs₁sb, hfs₁m, hfs₁len⟩
    · rw [if_pos hz]
      rcases hrd : diskRead fs₁.disk ino.indirect with _ | bs
      · exact ⟨(freeBlock_disk _ _).trans hfs₁disk,
          (freeBlock_superblock _ _).trans hfs₁sb,
          (freeBlock_mounted _ _).trans hfs₁m,
          (freeBlock_length _ _).trans hfs₁len⟩
      · obtain ⟨ha, hb', hc', hd'⟩ := freeFold_state
          (fun j => readU32 bs (j * 4) ≠ 0) (fun j => readU32 bs (j * 4))
          (List.range POINTERS_PER_BLOCK) fs₁
        exact ⟨(freeBlock_disk _ _).trans (ha.trans hfs₁disk),
          (freeBlock_superblock _ _).trans (hb'.trans hfs₁sb),
          (freeBlock_mounted _ _).trans (hc'.trans hfs₁m),
          (freeBlock_length _ _).trans (hd'.trans hfs₁len)⟩
  obtain ⟨hfs₂disk, hfs₂sb, hfs₂m, hfs₂len⟩ := hfs₂facts
  obtain ⟨hf1, hf2, hf3, hf4, hf5, hf6, hf7, hf8⟩ := loadInodeD_fields hload
  -- the final save succeeds and only rewrites the removed inode's table block
  have hsv := saveInodeD_spec fs₂.superblock fs₂.disk inum { ino with valid := 0 }
    (by rw [hfs₂sb]; exact hin) (by rw [hfs₂sb]; exact htab) (by rw [hfs₂sb]; exact hibb)
    (by rw [hfs₂sb, hfs₂disk]; exact hsd)
  have hres1map : (removeFile fs inum).1.free_blocks = fs₂.free_blocks := by
    rw [hrm]
    rfl
  have hc : 1 + inum / INODES_PER_BLOCK ≤ fs.superblock.inode_blocks :=
    inodeTableBlock_le hin htab
  refine ⟨?_, ?_, ?_, ?_, ?_, ?_, ?_⟩
  · rw [hrm]
    exact hsv.1
  · -- direct blocks are freed
    intro b hbmem hb0
    rw [hres1map]
    obtain ⟨i, hi, hieq⟩ := List.mem_iff_getElem.mp hbmem
    have hi5 : i < 5 := by rw [hdlen] at hi; exact hi
    have hptr : getBlockPointer fs.disk ino i = b := by
      unfold getBlockPointer
      rw [if_pos (by rw [show POINTERS_PER_INODE = 5 from rfl]; exact hi5)]
      rw [List.getD_eq_getElem?_getD, List.getElem?_eq_getElem hi, hieq]
      rfl
    have hblt : b < fs.free_blocks.length := by
      rw [hlen, ← hptr]
      exact (hreg.1 i (by omega) (by rw [hptr]; exact hb0)).2
    have h1 : fs₁.free_blocks.getD b true = true :=
      freeFold_frees (fun b => b ≠ 0) (fun b => b) ino.direct fs b hbmem hb0 hblt
    rw [hfs₂]
    by_cases hz : ino.indirect = 0
    · rw [if_neg (by simp [hz])]
      exact h1
    · rw [if_pos hz]
      apply freeBlock_mono
      rcases hrd : diskRead fs₁.disk ino.indirect with _ | bs
      · exact h1
      · exact freeFold_mono (fun a => readU32 bs (a * 4) ≠ 0) (fun a => readU32 bs (a * 4))
          (List.range POINTERS_PER_BLOCK) fs₁ b h1
  · -- the pointers held in the indirect block are freed
    intro bs j hz hrd hj hp0
    rw [hres1map]
    have hrd1 : diskRead fs₁.disk ino.indirect = some bs := by
      rw [hfs₁disk]
      exact hrd
    have hgbp : getBlockPointer fs.disk ino (5 + j) = readU32 bs (j * 4) := by
      unfold getBlockPointer
      rw [if_neg (by rw [show POINTERS_PER_INODE = 5 from rfl]; omega), if_neg hz, hrd]
      dsimp only
      rw [show 5 + j - POINTERS_PER_INODE = j from by
        rw [show POINTERS_PER_INODE = 5 from rfl]; omega]
      rw [if_neg (by rw [show POINTERS_PER_BLOCK = 1024 from rfl]; omega)]
    have hbnds := hreg.1 (5 + j) (by omega) (by rw [hgbp]; exact hp0)
    have hplt : readU32 bs (j * 4) < fs₁.free_blocks.length := by
      rw [hfs₁len, hlen, ← hgbp]
      exact hbnds.2
    rw [hfs₂, if_pos hz, hrd1]
    apply freeBlock_mono
    exact freeFold_frees (fun a => readU32 bs (a * 4) ≠ 0) (fun a => readU32 bs (a * 4))
      (List.range POINTERS_PER_BLOCK) fs₁ j
      (List.mem_range.mpr (by rw [show POINTERS_PER_BLOCK = 1024 from rfl]; exact hj))
      hp0 hplt
  · -- the indirect block itself is freed
    intro hz
    rw [hres1map, hfs₂, if_pos hz]
    rcases hrd : diskRead fs₁.disk ino.indirect with _ | bs
    · apply freeBlock_self
      rw [hfs₁len, hlen]
      exact (hreg.2 hz).2
    · apply freeBlock_self
      have hbnd : ino.indirect <
          ((List.range POINTERS_PER_BLOCK).foldl
            (fun s a => if readU32 bs (a * 4) ≠ 0 then freeBlock s (readU32 bs (a * 4)) else s)
            fs₁).free_blocks.length := by
        rw [(freeFold_state (fun a => readU32 bs (a * 4) ≠ 0) (fun a => readU32 bs (a * 4))
          (List.range POINTERS_PER_BLOCK) fs₁).2.2.2, hfs₁len, hlen]
        exact (hreg.2 hz).2
      exact hbnd
  · -- the inode is persisted with its valid flag cleared, other fields intact
    rw [hrm]
    exact loadInodeD_after_save_self fs₂.superblock fs₂.disk inum { ino with valid := 0 }
      (by rw [hfs₂sb]; exact hin) (by rw [hfs₂sb]; exact htab) (by rw [hfs₂sb]; exact hibb)
      (by rw [hfs₂sb, hfs₂disk]; exact hsd)
      hdlen (show (0:Nat) < 4294967296 by norm_num) hf3 hf4 hf5 hf6 hf7 hf8
  · -- every other inode is unchanged
    intro j hj
    rw [hrm]
    have h6 := loadInodeD_after_save_other fs₂.superblock fs₂.disk inum
      { ino with valid := 0 } j hj
      (by rw [hfs₂sb]; exact hin) (by rw [hfs₂sb]; exact htab) (by rw [hfs₂sb]; exact hibb)
      (by rw [hfs₂sb, hfs₂disk]; exact hsd)
    exact h6.trans (by rw [hfs₂sb, hfs₂disk]; rfl)
  · -- the byte content of every other well-formed file or directory is unchanged
    intro j dj L off hj hloadj hregj
    have h71 : (removeFile fs inum).1.mounted = fs.mounted := by
      rw [hrm]
      exact hfs₂m
    have h72 : (removeFile fs inum).1.superblock = fs.superblock := by
      rw [hrm]
      exact hfs₂sb
    have h73 : (removeFile fs inum).1.disk.blocks = fs.disk.blocks := by
      rw [hrm, ← hfs₂disk]
      exact hsv.2.1
    have h74 : ∀ b, b ≠ 1 + inum / INODES_PER_BLOCK →
        (removeFile fs inum).1.disk.data b = fs.disk.data b := by
      intro b hb
      rw [hrm, ← hfs₂disk]
      exact hsv.2.2.1 b hb
    have h7load : loadInodeD fs.superblock (removeFile fs inum).1.disk j =
        loadInodeD fs.superblock fs.disk j := by
      rw [hrm, ← hfs₂sb, ← hfs₂disk]
      exact loadInodeD_after_save_other fs₂.superblock fs₂.disk inum
        { ino with valid := 0 } j hj
        (by rw [hfs₂sb]; exact hin) (by rw [hfs₂sb]; exact htab) (by rw [hfs₂sb]; exact hibb)
        (by rw [hfs₂sb, hfs₂disk]; exact hsd)
    have h7cond : ∀ dj', loadInodeD fs.superblock fs.disk j = some dj' →
        dj'.indirect ≠ 1 + inum / INODES_PER_BLOCK ∧
        ∀ i, getBlockPointer fs.disk dj' i ≠ 1 + inum / INODES_PER_BLOCK := by
      intro dj' hdj'
      have h9 : some dj' = some dj :=
        hdj'.symm.trans (hloadj : loadInodeD fs.superblock fs.disk j = some dj)
      rw [Option.some.inj h9]
      have hc93 : 1 + inum / 93 ≤ fs.superblock.inode_blocks := by
        rw [← inodesPerBlock_eq]
        exact hc
      constructor
      · rw [inodesPerBlock_eq]
        by_cases hz : dj.indirect = 0
        · rw [hz]
          omega
        · have := (hregj.2 hz).1
          omega
      · intro i
        rw [inodesPerBlock_eq]
        by_cases hi : i < 1029
        · by_cases hp : getBlockPointer fs.disk dj i = 0
          · rw [hp]
            omega
          · have := (hregj.1 i hi hp).1
            omega
        · rw [getBlockPointer_zero_of_ge fs.disk dj i (by omega)]
          omega
    exact read_frame h71 h72 h73 h74 j h7load h7cond L off

set_option maxRecDepth 1000000 in
theorem removeFile_spec_witness :
    (removeFile wFS 1).2 = true ∧
    (∀ b ∈ wFileIno.direct, b ≠ 0 → (removeFile wFS 1).1.free_blocks.getD b true = true) ∧
    (∀ bs j, wFileIno.indirect ≠ 0 → diskRead wFS.disk wFileIno.indirect = some bs →
      j < 1024 → readU32 bs (j * 4) ≠ 0 →
      (removeFile wFS 1).1.free_blocks.getD (readU32 bs (j * 4)) true = true) ∧
    (wFileIno.indirect ≠ 0 →
      (removeFile wFS 1).1.free_blocks.getD wFileIno.indirect true = true) ∧
    loadInode (removeFile wFS 1).1 1 = some { wFileIno with valid := 0 } ∧
    (∀ j, j ≠ 1 → loadInode (removeFile wFS 1).1 j = loadInode wFS j) ∧
    (∀ j dj L off, j ≠ 1 → loadInode wFS j = some dj → ptrsInDataRegion wFS dj →
      read (removeFile wFS 1).1 j L off = read wFS j L off) :=
  removeFile_spec wFS 1 wFileIno rfl (by decide) (by decide) (by decide) (by decide)
    (by decide) (by decide) (by unfold ptrsInDataRegion; decide)

/-! ### Claim C1: write followed by read returns the written bytes -/

/-- The byte a block-pointer walk resolves at absolute file position
`pos`: the block named by the pointer for `pos / BLOCK_SIZE`, read from
the device, indexed at `pos % BLOCK_SIZE`; `none` when the logical block
is unallocated or unreadable. -/
def fileAt (d : Disk) (ino : Inode) (pos : Nat) : Option Nat :=
  if getBlockPointer d ino (pos / BLOCK_SIZE) = 0 then none
  else
    match diskRead d (getBlockPointer d ino (pos / BLOCK_SIZE)) with
    | none => none
    | some bs => some (bs.getD (pos % BLOCK_SIZE) 0)

/-- The well-formedness a mounted engine maintains for an inode it
serves: the in-memory free map mirrors the superblock size, the device is
at least that large, the pointer fields are in range, every resolvable
nonzero block pointer lies in the data region and is marked used in the
free map, distinct logical blocks resolve to distinct physical blocks,
and no data pointer aliases the indirect block. -/
structure WInv (fs : FS) (ino : Inode) : Prop where
  maplen : fs.free_blocks.length = fs.superblock.blocks
  sbdisk : fs.superblock.blocks ≤ fs.disk.blocks
  sb32 : fs.superblock.blocks < 4294967296
  dlen : ino.direct.length = 5
  d32 : ∀ x ∈ ino.direct, x < 4294967296
  reg : ∀ i, i < 1029 → getBlockPointer fs.disk ino i ≠ 0 →
    fs.superblock.inode_blocks + 1 ≤ getBlockPointer fs.disk ino i ∧
    getBlockPointer fs.disk ino i < fs.superblock.blocks ∧
    fs.free_blocks.getD (getBlockPointer fs.disk ino i) true = false
  ind : ino.indirect ≠ 0 → fs.superblock.inode_blocks + 1 ≤ ino.indirect ∧
    ino.indirect < fs.superblock.blocks ∧ fs.free_blocks.getD ino.indirect true = false
  inj : ∀ i, i < 1029 → ∀ j, j < 1029 → i ≠ j → getBlockPointer fs.disk ino i ≠ 0 →
    getBlockPointer fs.disk ino i ≠ getBlockPointer fs.disk ino j
  nind : ∀ i, i < 1029 → getBlockPointer fs.disk ino i ≠ 0 →
    getBlockPointer fs.disk ino i ≠ ino.indirect

theorem getD_set_self {l : List Nat} {i : Nat} (a d : Nat) (h : i < l.length) :
    (l.set i a).getD i d = a := by
  rw [List.getD_eq_getElem?_getD, List.getElem?_set_self h]
  rfl

theorem getD_set_ne {l : List Nat} {i j : Nat} (a d : Nat) (h : i ≠ j) :
    (l.set i a).getD j d = l.getD j d := by
  rw [List.getD_eq_getElem?_getD, List.getElem?_set_ne h, ← List.getD_eq_getElem?_getD]

theorem getD_bool_default_irrel {l : List Bool} {i : Nat} (h : i < l.length) (d₁ d₂ : Bool) :
    l.getD i d₁ = l.getD i d₂ := by
  rw [List.getD_eq_getElem?_getD, List.getD_eq_getElem?_getD, List.getElem?_eq_getElem h]
  rfl

theorem setB_false_keeps_used {l : List Bool} {x y : Nat}
    (h : l.getD y true = false) : (l.set x false).getD y true = false := by
  rw [List.getD_eq_getElem?_getD, List.getElem?_set]
  by_cases hxy : x = y
  · rw [if_pos hxy]
    by_cases hx : x < l.length
    · rw [if_pos hx]
      rfl
    · rw [if_neg hx]
      subst hxy
      rw [List.getD_eq_getElem?_getD, List.getElem?_eq_none (by omega)] at h
      exact h
  · rw [if_neg hxy, ← List.getD_eq_getElem?_getD]
    exact h

theorem setB_getD_self {l : List Bool} {x : Nat} (b : Bool) (hx : x < l.length) :
    (l.set x b).getD x true = b := by
  rw [List.getD_eq_getElem?_getD, List.getElem?_set_self hx]
  rfl

theorem setB_getD_ne {l : List Bool} {x y : Nat} (b d : Bool) (h : x ≠ y) :
    (l.set x b).getD y d = l.getD y d := by
  rw [List.getD_eq_getElem?_getD, List.getElem?_set_ne h, ← List.getD_eq_getElem?_getD]

theorem readU32_splice_self {bs : List Nat} {off : Nat} (n : Nat) (h : off + 4 ≤ bs.length) :
    readU32 (splice bs off (u32le n)) off = n % 4294967296 := by
  have hl : off + (u32le n).length ≤ bs.length := by rw [length_u32le]; omega
  unfold readU32
  rw [getD_splice_mid (by omega) (by rw [length_u32le]; omega) hl,
    getD_splice_mid (by omega) (by rw [length_u32le]; omega) hl,
    getD_splice_mid (by omega) (by rw [length_u32le]; omega) hl,
    getD_splice_mid (by omega) (by rw [length_u32le]; omega) hl]
  rw [Nat.sub_self, show off + 1 - off = 1 from by omega, show off + 2 - off = 2 from by omega,
    show off + 3 - off = 3 from by omega]
  simp only [u32le, List.getD_cons_zero, List.getD_cons_succ]
  omega

theorem readU32_splice_other {bs : List Nat} {off off' : Nat} (n : Nat)
    (hdisj : off' + 4 ≤ off ∨ off + 4 ≤ off') (hlen : off + 4 ≤ bs.length) :
    readU32 (splice bs off (u32le n)) off' = readU32 bs off' := by
  unfold readU32
  rcases hdisj with hd | hd
  · rw [getD_splice_left (by omega) (by omega), getD_splice_left (by omega) (by omega),
      getD_splice_left (by omega) (by omega), getD_splice_left (by omega) (by omega)]
  · rw [getD_splice_right (by rw [length_u32le]; omega) (by rw [length_u32le]; omega),
      getD_splice_right (by rw [length_u32le]; omega) (by rw [length_u32le]; omega),
      getD_splice_right (by rw [length_u32le]; omega) (by rw [length_u32le]; omega),
      getD_splice_right (by rw [length_u32le]; omega) (by rw [length_u32le]; omega)]

theorem readU32_replicate_zero (k n : Nat) : readU32 (List.replicate n 0) k = 0 := by
  unfold readU32
  rw [getD_replicate, getD_replicate, getD_replicate, getD_replicate]
  split <;> split <;> split <;> split <;> rfl

theorem allocateBlock_spec {fs fs₁ : FS} {bn : Nat}
    (h : allocateBlock fs = (fs₁, some bn)) :
    fs₁ = { fs with free_blocks := fs.free_blocks.set bn false } ∧
    fs.superblock.inode_blocks + 1 ≤ bn ∧ bn < fs.superblock.blocks ∧
    bn < fs.free_blocks.length ∧ fs.free_blocks.getD bn true = true := by
  unfold allocateBlock at h
  dsimp only at h
  rcases hf : (List.range' (fs.superblock.inode_blocks + 1)
      (fs.superblock.blocks - (fs.superblock.inode_blocks + 1))).find?
      (fun i => decide (i < fs.free_blocks.length) && fs.free_blocks.getD i false)
    with _ | i
  · rw [hf] at h
    exact absurd (congrArg Prod.snd h) (by simp)
  · rw [hf] at h
    dsimp only at h
    injection h with h1 h2
    injection h2 with h2
    subst h2
    have hmem := List.mem_of_find?_eq_some hf
    have hpred := List.find?_some hf
    rw [List.mem_range'] at hmem
    obtain ⟨k, hk, hbk⟩ := hmem
    simp only [Bool.and_eq_true, decide_eq_true_eq] at hpred
    obtain ⟨hlt, hget⟩ := hpred
    refine ⟨h1.symm, by omega, by omega, hlt, ?_⟩
    rw [getD_bool_default_irrel hlt true false]
    exact hget

theorem setBlockPointer_direct (fs : FS) (ino : Inode) (bi bn : Nat)
    (hbi : bi < POINTERS_PER_INODE) :
    setBlockPointer fs ino bi bn =
      some (fs, { ino with direct := ino.direct.set bi bn }, true) := by
  unfold setBlockPointer
  rw [if_pos hbi]

theorem ensureIndirect_spec {fs : FS} {ino : Inode} {fsE : FS} {inoE : Inode}
    (hsd : fs.superblock.blocks ≤ fs.disk.blocks)
    (h : ensureIndirect fs ino = some (fsE, inoE)) :
    inoE.valid = ino.valid ∧ inoE.inode_type = ino.inode_type ∧ inoE.size = ino.size ∧
    inoE.created = ino.created ∧ inoE.modified = ino.modified ∧ inoE.direct = ino.direct ∧
    ((ino.indirect ≠ 0 ∧ fsE = fs ∧ inoE = ino) ∨
     (ino.indirect = 0 ∧
        fs.superblock.inode_blocks + 1 ≤ inoE.indirect ∧
        inoE.indirect < fs.superblock.blocks ∧
        inoE.indirect < fs.free_blocks.length ∧
        fs.free_blocks.getD inoE.indirect true = true ∧
        fsE.free_blocks = fs.free_blocks.set inoE.indirect false ∧
        fsE.superblock = fs.superblock ∧ fsE.mounted = fs.mounted ∧
        fsE.current_dir_inode = fs.current_dir_inode ∧
        fsE.disk.blocks = fs.disk.blocks ∧
        (∀ b, b ≠ inoE.indirect → fsE.disk.data b = fs.disk.data b) ∧
        fsE.disk.data inoE.indirect = List.replicate BLOCK_SIZE 0)) := by
  unfold ensureIndirect at h
  split at h
  · rename_i hz
    split at h
    · simp at h
    · rename_i fs₁ ib heq
      injection h with h
      injection h with h1 h2
      subst h1
      subst h2
      obtain ⟨hfseq, hlo, hhi, hlt, hfree⟩ := allocateBlock_spec heq
      subst hfseq
      refine ⟨rfl, rfl, rfl, rfl, rfl, rfl, Or.inr ⟨hz, hlo, hhi, hlt, hfree, rfl, rfl, rfl,
        rfl, diskWrite_blocks _ _ _, ?_, ?_⟩⟩
      · intro b hb
        rw [diskWrite_data _ _ _ (List.length_replicate _ _) b, if_neg (fun hc => hb hc.2)]
      · rw [diskWrite_data _ _ _ (List.length_replicate _ _) _,
          if_pos ⟨show ib < fs.disk.blocks by omega, rfl⟩]
  · rename_i hz
    injection h with h
    injection h with h1 h2
    subst h1
    subst h2
    exact ⟨rfl, rfl, rfl, rfl, rfl, rfl, Or.inl ⟨hz, rfl, rfl⟩⟩

theorem getBlockPointer_after_indirect_write {dE d' : Disk} {inoE : Inode} {B : List Nat}
    {bi bn : Nat}
    (hiE0 : inoE.indirect ≠ 0)
    (hlt : inoE.indirect < dE.blocks)
    (hB : diskRead dE inoE.indirect = some B)
    (hbi5 : ¬ bi < POINTERS_PER_INODE)
    (hii : ¬ bi - POINTERS_PER_INODE ≥ POINTERS_PER_BLOCK)
    (hbn32 : bn < 4294967296)
    (hd' : d' = (diskWrite dE inoE.indirect
      (splice B ((bi - POINTERS_PER_INODE) * 4) (u32le bn))).1) :
    getBlockPointer d' inoE bi = bn ∧
    (∀ i, i ≠ bi → getBlockPointer d' inoE i = getBlockPointer dE inoE i) ∧
    (∀ b, b ≠ inoE.indirect → d'.data b = dE.data b) ∧
    d'.blocks = dE.blocks := by
  have hBlen : B.length = BLOCK_SIZE := diskRead_length hB
  have hii5 : ¬ bi - 5 ≥ 1024 := hii
  have hsplen : (splice B ((bi - POINTERS_PER_INODE) * 4) (u32le bn)).length = BLOCK_SIZE := by
    rw [length_splice]
    · exact hBlen
    · rw [hBlen, length_u32le]
      exact show (bi - 5) * 4 + 4 ≤ 4096 by omega
  subst hd'
  have hwdata := diskWrite_data dE inoE.indirect _ hsplen
  have hwblocks := diskWrite_blocks dE inoE.indirect
    (splice B ((bi - POINTERS_PER_INODE) * 4) (u32le bn))
  have hself : (diskWrite dE inoE.indirect
      (splice B ((bi - POINTERS_PER_INODE) * 4) (u32le bn))).1.data inoE.indirect =
      splice B ((bi - POINTERS_PER_INODE) * 4) (u32le bn) := by
    rw [hwdata, if_pos ⟨hlt, rfl⟩]
  have hrd2 : diskRead (diskWrite dE inoE.indirect
      (splice B ((bi - POINTERS_PER_INODE) * 4) (u32le bn))).1 inoE.indirect =
      some (splice B ((bi - POINTERS_PER_INODE) * 4) (u32le bn)) := by
    unfold diskRead
    rw [if_pos (by rw [hwblocks]; exact hlt), hself,
      List.take_of_length_le (le_of_eq hsplen), padTo_of_length hsplen]
  refine ⟨?_, ?_, ?_, hwblocks⟩
  · unfold getBlockPointer
    rw [if_neg hbi5, if_neg hiE0, hrd2]
    dsimp only
    rw [if_neg hii, readU32_splice_self bn
      (by rw [hBlen]; exact show (bi - 5) * 4 + 4 ≤ 4096 by omega)]
    exact Nat.mod_eq_of_lt hbn32
  · intro i hne
    by_cases h5 : i < POINTERS_PER_INODE
    · unfold getBlockPointer
      rw [if_pos h5, if_pos h5]
    · unfold getBlockPointer
      rw [if_neg h5, if_neg h5, if_neg hiE0, if_neg hiE0, hrd2, hB]
      dsimp only
      by_cases hA : i - POINTERS_PER_INODE ≥ POINTERS_PER_BLOCK
      · rw [if_pos hA, if_pos hA]
      · rw [if_neg hA, if_neg hA]
        apply readU32_splice_other
        · have h5i : ¬ i < 5 := h5
          have h5b : ¬ bi < 5 := hbi5
          have hAn : ¬ i - 5 ≥ 1024 := hA
          rcases Nat.lt_or_ge (i - 5) (bi - 5) with hlt' | hge'
          · left
            exact show (i - 5) * 4 + 4 ≤ (bi - 5) * 4 by omega
          · right
            have hne' : i ≠ bi := hne
            exact show (bi - 5) * 4 + 4 ≤ (i - 5) * 4 by omega
        · rw [hBlen]
          exact show (bi - 5) * 4 + 4 ≤ 4096 by omega
  · intro b hb
    rw [hwdata, if_neg (fun hc => hb hc.2)]

theorem setBlockPointer_indirect_spec {fs : FS} {ino : Inode} {bi bn : Nat} {fs₂ : FS}
    {ino₂ : Inode}
    (hbi5 : ¬ bi < POINTERS_PER_INODE)
    (hsd : fs.superblock.blocks ≤ fs.disk.blocks)
    (hbn32 : bn < 4294967296)
    (hind : ino.indirect ≠ 0 → ino.indirect < fs.superblock.blocks)
    (h : setBlockPointer fs ino bi bn = some (fs₂, ino₂, true)) :
    bi < 1029 ∧
    ino₂.valid = ino.valid ∧ ino₂.inode_type = ino.inode_type ∧ ino₂.size = ino.size ∧
    ino₂.created = ino.created ∧ ino₂.modified = ino.modified ∧ ino₂.direct = ino.direct ∧
    ino₂.indirect ≠ 0 ∧
    ((ino.indirect ≠ 0 ∧ ino₂.indirect = ino.indirect ∧ fs₂.free_blocks = fs.free_blocks) ∨
     (ino.indirect = 0 ∧ fs.superblock.inode_blocks + 1 ≤ ino₂.indirect ∧
       ino₂.indirect < fs.superblock.blocks ∧
       fs.free_blocks.getD ino₂.indirect true = true ∧
       fs₂.free_blocks = fs.free_blocks.set ino₂.indirect false)) ∧
    getBlockPointer fs₂.disk ino₂ bi = bn ∧
    (∀ i, i ≠ bi → getBlockPointer fs₂.disk ino₂ i = getBlockPointer fs.disk ino i) ∧
    (∀ b, b ≠ ino₂.indirect → fs₂.disk.data b = fs.disk.data b) := by
  unfold setBlockPointer at h
  rw [if_neg hbi5] at h
  rcases hE : ensureIndirect fs ino with _ | ⟨fsE, inoE⟩
  · rw [hE] at h
    exact absurd h (by simp)
  · rw [hE] at h
    dsimp only at h
    obtain ⟨hv, hty, hszE, hcrE, hmoE, hdirE, hD⟩ := ensureIndirect_spec hsd hE
    have hiE0 : inoE.indirect ≠ 0 := by
      rcases hD with ⟨hz, -, hEq⟩ | ⟨hz, hlo, -⟩
      · rw [hEq]
        exact hz
      · omega
    have hiElt : inoE.indirect < fs.superblock.blocks := by
      rcases hD with ⟨hz, -, hEq⟩ | ⟨-, -, hlt', -⟩
      · rw [hEq]
        exact hind hz
      · exact hlt'
    have hEdiskb : fsE.disk.blocks = fs.disk.blocks := by
      rcases hD with ⟨-, hfsEq, -⟩ | ⟨-, -, -, -, -, -, -, -, -, hbl, -⟩
      · rw [hfsEq]
      · exact hbl
    have hrd : diskRead fsE.disk inoE.indirect =
        some (padTo BLOCK_SIZE ((fsE.disk.data inoE.indirect).take BLOCK_SIZE)) := by
      unfold diskRead
      rw [if_pos (by rw [hEdiskb]; omega)]
    rw [hrd] at h
    dsimp only at h
    by_cases hii : bi - POINTERS_PER_INODE ≥ POINTERS_PER_BLOCK
    · rw [if_pos hii] at h
      injection h with h
      injection h with h1 h
      injection h with h2 h3
      exact absurd h3 (by simp)
    · rw [if_neg hii] at h
      injection h with h
      injection h with h1 h
      injection h with h2 h3
      subst h2
      subst h1
      have hii5 : ¬ bi - 5 ≥ 1024 := hii
      obtain ⟨hgb, hgf, hgd, hgbl⟩ := getBlockPointer_after_indirect_write hiE0
        (show inoE.indirect < fsE.disk.blocks by rw [hEdiskb]; omega) hrd hbi5 hii hbn32 rfl
      have hEptr : ∀ i, getBlockPointer fsE.disk inoE i = getBlockPointer fs.disk ino i := by
        intro i
        rcases hD with ⟨hz, hfsEq, hinoEq⟩ |
          ⟨hz, hlo, hhiE, hltE, hfreeE, hmapE, hsbE, hmE, hcdE, hblE, hdataE, hzfill⟩
        · rw [hfsEq, hinoEq]
        · by_cases h5 : i < POINTERS_PER_INODE
          · unfold getBlockPointer
            rw [if_pos h5, if_pos h5, hdirE]
          · unfold getBlockPointer
            rw [if_neg h5, if_neg h5, if_pos hz, if_neg hiE0]
            have hrdz : diskRead fsE.disk inoE.indirect =
                some (List.replicate BLOCK_SIZE 0) := by
              unfold diskRead
              rw [if_pos (by rw [hblE]; omega), hzfill, List.take_replicate, Nat.min_self,
                padTo_of_length (List.length_replicate _ _)]
            rw [hrdz]
            dsimp only
            by_cases hA : i - POINTERS_PER_INODE ≥ POINTERS_PER_BLOCK
            · rw [if_pos hA]
            · rw [if_neg hA, readU32_replicate_zero]
      refine ⟨by omega, hv, hty, hszE, hcrE, hmoE, hdirE, hiE0, ?_, hgb, ?_, ?_⟩
      · rcases hD with ⟨hz, hfsEq, hinoEq⟩ |
          ⟨hz, hlo, hhiE, hltE, hfreeE, hmapE, hsbE, hmE, hcdE, hblE, hdataE, hzfill⟩
        · refine Or.inl ⟨hz, by rw [hinoEq], ?_⟩
          show fsE.free_blocks = fs.free_blocks
          rw [hfsEq]
        · exact Or.inr ⟨hz, hlo, hhiE, hfreeE, hmapE⟩
      · intro i hne
        exact (hgf i hne).trans (hEptr i)
      · intro b hb
        refine (hgd b hb).trans ?_
        rcases hD with ⟨-, hfsEq, -⟩ | ⟨-, -, -, -, -, -, -, -, -, -, hdataE, -⟩
        · rw [hfsEq]
        · exact hdataE b hb

theorem used_ne_free {l : List Bool} {x y : Nat} (hx : l.getD x true = false)
    (hy : l.getD y true = true) : x ≠ y := by
  intro hc
  rw [hc, hy] at hx
  exact absurd hx (by simp)

theorem getBlockPointer_direct_set {d : Disk} {ino : Inode} {bi bn : Nat}
    (hbi : bi < POINTERS_PER_INODE) (hlen : ino.direct.length = 5) :
    getBlockPointer d { ino with direct := ino.direct.set bi bn } bi = bn ∧
    ∀ i, i ≠ bi → getBlockPointer d { ino with direct := ino.direct.set bi bn } i =
      getBlockPointer d ino i := by
  constructor
  · unfold getBlockPointer
    rw [if_pos hbi]
    exact getD_set_self bn 0 (by rw [hlen]; exact hbi)
  · intro i hne
    unfold getBlockPointer
    by_cases h5 : i < POINTERS_PER_INODE
    · rw [if_pos h5, if_pos h5]
      exact getD_set_ne bn 0 (Ne.symm hne)
    · rw [if_neg h5, if_neg h5]

/-- What one successful pointer-producing `writeStep` guarantees: the
invariant survives, the inode's logical block `bi` now resolves to the
fresh-or-resolved physical block `bn`, every other pointer and every
used data block (other than the indirect block) is untouched, and the
free map only loses entries. -/
structure WStepSpec (fs : FS) (ino : Inode) (bi : Nat) (fs₁ : FS) (ino₁ : Inode)
    (bn : Nat) : Prop where
  bilt : bi < 1029
  inv : WInv fs₁ ino₁
  valid : ino₁.valid = ino.valid
  ty : ino₁.inode_type = ino.inode_type
  size : ino₁.size = ino.size
  created : ino₁.created = ino.created
  modified : ino₁.modified = ino.modified
  ptrbi : getBlockPointer fs₁.disk ino₁ bi = bn
  bn0 : bn ≠ 0
  ptrfr : ∀ i, i < 1029 → i ≠ bi →
    getBlockPointer fs₁.disk ino₁ i = getBlockPointer fs.disk ino i
  resv : getBlockPointer fs.disk ino bi ≠ 0 → bn = getBlockPointer fs.disk ino bi
  mark : fs₁.free_blocks.getD bn true = false
  bnind : bn ≠ ino₁.indirect
  resfree : getBlockPointer fs.disk ino bi = bn ∨ fs.free_blocks.getD bn true = true
  datafr : ∀ b, fs.free_blocks.getD b true = false → b ≠ ino.indirect →
    fs₁.disk.data b = fs.disk.data b
  indfr : ∀ b, fs.free_blocks.getD b true = false → b ≠ ino.indirect → b ≠ ino₁.indirect
  mono : ∀ x, fs.free_blocks.getD x true = false → fs₁.free_blocks.getD x true = false

theorem fileAt_congr {d d' : Disk} {c : Nat} (hb : d'.blocks = d.blocks)
    (hdata : ∀ b, b ≠ c → d'.data b = d.data b) (ino : Inode) (hind : ino.indirect ≠ c)
    (hp : ∀ i, getBlockPointer d ino i ≠ 0 → getBlockPointer d ino i ≠ c) (pos : Nat) :
    fileAt d' ino pos = fileAt d ino pos := by
  unfold fileAt
  rw [getBlockPointer_congr hb hdata ino hind]
  by_cases h0 : getBlockPointer d ino (pos / BLOCK_SIZE) = 0
  · rw [if_pos h0, if_pos h0]
  · rw [if_neg h0, if_neg h0, diskRead_congr hb hdata _ (hp _ h0)]

theorem writeStep_spec {fs : FS} {ino : Inode} {bi : Nat} {fs₁ : FS} {ino₁ : Inode}
    {bn : Nat} (hinv : WInv fs ino)
    (h : writeStep fs ino bi = some (fs₁, ino₁, some bn)) :
    WStepSpec fs ino bi fs₁ ino₁ bn := by
  unfold writeStep at h
  dsimp only at h
  by_cases hp : getBlockPointer fs.disk ino bi ≠ 0
  · rw [if_pos hp] at h
    injection h with h
    injection h with h1 h
    injection h with h2 h3
    injection h3 with h3
    subst h1
    subst h2
    subst h3
    have hbi : bi < 1029 := by
      by_contra hcon
      exact hp (getBlockPointer_zero_of_ge fs.disk ino bi (by omega))
    obtain ⟨hb1, hb2, hb3⟩ := hinv.reg bi hbi hp
    exact {
      bilt := hbi
      inv := hinv
      valid := rfl
      ty := rfl
      size := rfl
      created := rfl
      modified := rfl
      ptrbi := rfl
      bn0 := hp
      ptrfr := fun _ _ _ => rfl
      resv := fun _ => rfl
      mark := hb3
      bnind := hinv.nind bi hbi hp
      resfree := Or.inl rfl
      datafr := fun _ _ _ => rfl
      indfr := fun _ _ hb => hb
      mono := fun _ hx => hx }
  · rw [if_neg hp] at h
    rw [not_not] at hp
    rcases hA : allocateBlock fs with ⟨fsA, oA⟩
    rcases oA with _ | bnA
    · rw [hA] at h
      dsimp only at h
      injection h with h
      injection h with h1 h
      injection h with h2 h3
      exact absurd h3 (by simp)
    · rw [hA] at h
      dsimp only at h
      obtain ⟨hfsAeq, hloA, hhiA, hltA, hfreeA⟩ := allocateBlock_spec hA
      have hAdisk : fsA.disk = fs.disk := by rw [hfsAeq]
      have hAsb : fsA.superblock = fs.superblock := by rw [hfsAeq]
      have hAmap : fsA.free_blocks = fs.free_blocks.set bnA false := by rw [hfsAeq]
      rcases hS : setBlockPointer fsA ino bi bnA with _ | ⟨fsB, inoB, ok⟩
      · rw [hS] at h
        exact absurd h (by simp)
      · rcases ok with _ | _
        · rw [hS] at h
          dsimp only at h
          injection h with h
          injection h with h1 h
          injection h with h2 h3
          exact absurd h3 (by simp)
        · rw [hS] at h
          dsimp only at h
          injection h with h
          injection h with h1 h
          injection h with h2 h3
          injection h3 with h3
          subst h1
          subst h2
          subst h3
          have hbn0 : bnA ≠ 0 := by omega
          by_cases hbi5 : bi < POINTERS_PER_INODE
          · -- the pointer lands in a direct slot
            rw [setBlockPointer_direct fsA ino bi bnA hbi5] at hS
            injection hS with hS
            injection hS with hS1 hS'
            injection hS' with hS2 hS3
            subst hS1
            subst hS2
            obtain ⟨hg1, hg2⟩ := getBlockPointer_direct_set (d := fs.disk) hbi5 hinv.dlen
            have hptrB : ∀ i, getBlockPointer fsA.disk
                { ino with direct := ino.direct.set bi bnA } i =
                getBlockPointer fs.disk { ino with direct := ino.direct.set bi bnA } i := by
              intro i
              rw [hAdisk]
            have hbi9 : bi < 1029 := by
              have : bi < 5 := hbi5
              omega
            have hbnind : bnA ≠ ino.indirect := by
              by_cases hz : ino.indirect = 0
              · rw [hz]
                omega
              · exact (used_ne_free (hinv.ind hz).2.2 hfreeA).symm
            refine {
              bilt := hbi9
              inv := ?_
              valid := rfl
              ty := rfl
              size := rfl
              created := rfl
              modified := rfl
              ptrbi := (hptrB bi).trans hg1
              bn0 := hbn0
              ptrfr := fun i _ hne => (hptrB i).trans (hg2 i hne)
              resv := fun hc => absurd hp hc
              mark := by rw [hAmap]; exact setB_getD_self false hltA
              bnind := hbnind
              resfree := Or.inr hfreeA
              datafr := fun b _ _ => by rw [hAdisk]
              indfr := fun b _ hb => hb
              mono := fun x hx => by rw [hAmap]; exact setB_false_keeps_used hx }
            refine {
              maplen := by rw [hAmap, List.length_set, hAsb]; exact hinv.maplen
              sbdisk := by rw [hAsb, hAdisk]; exact hinv.sbdisk
              sb32 := by rw [hAsb]; exact hinv.sb32
              dlen := by
                show (ino.direct.set bi bnA).length = 5
                rw [List.length_set]
                exact hinv.dlen
              d32 := ?_
              reg := ?_
              ind := ?_
              inj := ?_
              nind := ?_ }
            · intro x hx
              rcases List.mem_or_eq_of_mem_set (show x ∈ ino.direct.set bi bnA from hx)
                with hm | hm
              · exact hinv.d32 x hm
              · subst hm
                have := hinv.sb32
                omega
            · intro i hi hpn
              by_cases hieq : i = bi
              · subst hieq
                rw [(hptrB i).trans hg1, hAsb, hAmap]
                exact ⟨hloA, hhiA, setB_getD_self false hltA⟩
              · rw [(hptrB i).trans (hg2 i hieq)] at hpn ⊢
                rw [hAsb, hAmap]
                obtain ⟨u1, u2, u3⟩ := hinv.reg i hi hpn
                exact ⟨u1, u2, setB_false_keeps_used u3⟩
            · intro hz
              obtain ⟨u1, u2, u3⟩ := hinv.ind hz
              rw [hAsb, hAmap]
              exact ⟨u1, u2, setB_false_keeps_used u3⟩
            · intro i hi j hj hne hpn
              by_cases hieq : i = bi
              · subst hieq
                rw [(hptrB i).trans hg1] at hpn ⊢
                rw [(hptrB j).trans (hg2 j (Ne.symm hne))]
                by_cases hpj : getBlockPointer fs.disk ino j = 0
                · rw [hpj]
                  exact hbn0
                · exact (used_ne_free (hinv.reg j hj hpj).2.2 hfreeA).symm
              · rw [(hptrB i).trans (hg2 i hieq)] at hpn ⊢
                by_cases hjeq : j = bi
                · subst hjeq
                  rw [(hptrB j).trans hg1]
                  exact used_ne_free (hinv.reg i hi hpn).2.2 hfreeA
                · rw [(hptrB j).trans (hg2 j hjeq)]
                  exact hinv.inj i hi j hj hne hpn
            · intro i hi hpn
              by_cases hieq : i = bi
              · subst hieq
                rw [(hptrB i).trans hg1]
                exact hbnind
              · rw [(hptrB i).trans (hg2 i hieq)] at hpn ⊢
                exact hinv.nind i hi hpn
          · -- the pointer lands in the indirect block
            obtain ⟨hbilt, sv, sty, ssz, scr, smo, sdir, siB0, sD, sgb, sgf, sgd⟩ :=
              setBlockPointer_indirect_spec hbi5 (by rw [hAsb, hAdisk]; exact hinv.sbdisk)
                (by have := hinv.sb32; omega)
                (by rw [hAsb]; intro hz; exact (hinv.ind hz).2.1) hS
            have hptrA : ∀ i, getBlockPointer fsA.disk ino i =
                getBlockPointer fs.disk ino i := by
              intro i
              rw [hAdisk]
            have hfr : ∀ i, i ≠ bi →
                getBlockPointer fsB.disk inoB i = getBlockPointer fs.disk ino i :=
              fun i hne => (sgf i hne).trans (hptrA i)
            have hindB : inoB.indirect ≠ 0 ∧
                fs.superblock.inode_blocks + 1 ≤ inoB.indirect ∧
                inoB.indirect < fs.superblock.blocks ∧
                fsB.free_blocks.getD inoB.indirect true = false ∧
                fsB.free_blocks.length = fs.free_blocks.length ∧
                (∀ x, fs.free_blocks.getD x true = false →
                  fsB.free_blocks.getD x true = false) ∧
                bnA ≠ inoB.indirect ∧
                (∀ b, fs.free_blocks.getD b true = false → b ≠ ino.indirect →
                  b ≠ inoB.indirect) := by
              rcases sD with ⟨hz, hieq, hmapB⟩ | ⟨hz, hlo', hhi', hfree', hmapB⟩
              · obtain ⟨u1, u2, u3⟩ := hinv.ind hz
                rw [hieq, hmapB, hAmap]
                refine ⟨hz, u1, u2, setB_false_keeps_used u3, by rw [List.length_set],
                  fun x hx => setB_false_keeps_used hx,
                  (used_ne_free u3 hfreeA).symm, fun b _ hb => hb⟩
              · rw [hAsb] at hhi'
                rw [hAmap] at hfree'
                have hbne : bnA ≠ inoB.indirect := by
                  intro hc
                  rw [← hc, setB_getD_self false hltA] at hfree'
                  exact absurd hfree' (by simp)
                rw [hmapB, hAmap]
                have hiblt : inoB.indirect < (fs.free_blocks.set bnA false).length := by
                  rw [List.length_set, hinv.maplen]
                  exact hhi'
                refine ⟨siB0, by rw [hAsb] at hlo'; exact hlo', hhi',
                  setB_getD_self false hiblt,
                  by rw [List.length_set, List.length_set],
                  fun x hx => setB_false_keeps_used (setB_false_keeps_used hx),
                  hbne, ?_⟩
                intro b hb _
                intro hc
                rw [hc] at hb
                rw [setB_getD_ne false true hbne, hb] at hfree'
                exact absurd hfree' (by simp)
            obtain ⟨hB0, hBlo, hBhi, hBmark, hBlen, hBmono, hBbne, hBother⟩ := hindB
            have hmarkA : fsB.free_blocks.getD bnA true = false := by
              rcases sD with ⟨-, -, hmapB⟩ | ⟨-, -, -, -, hmapB⟩
              · rw [hmapB, hAmap]
                exact setB_getD_self false hltA
              · rw [hmapB, hAmap]
                rw [setB_getD_ne false true (Ne.symm hBbne)]
                exact setB_getD_self false hltA
            refine {
              bilt := hbilt
              inv := ?_
              valid := sv
              ty := sty
              size := ssz
              created := scr
              modified := smo
              ptrbi := sgb
              bn0 := hbn0
              ptrfr := fun i _ hne => hfr i hne
              resv := fun hc => absurd hp hc
              mark := hmarkA
              bnind := hBbne
              resfree := Or.inr hfreeA
              datafr := fun b hb hbind => (sgd b (hBother b hb hbind)).trans
                (by rw [hAdisk])
              indfr := hBother
              mono := hBmono }
            have hBblocks : fsB.disk.blocks = fs.disk.blocks := by
              rw [(stateFrame_setBlockPointer hS).2.2.2.1, hAdisk]
            have hBsb : fsB.superblock = fs.superblock := by
              rw [(stateFrame_setBlockPointer hS).1, hAsb]
            refine {
              maplen := by rw [hBlen, hBsb]; exact hinv.maplen
              sbdisk := by rw [hBsb, hBblocks]; exact hinv.sbdisk
              sb32 := by rw [hBsb]; exact hinv.sb32
              dlen := by rw [sdir]; exact hinv.dlen
              d32 := by rw [sdir]; exact hinv.d32
              reg := ?_
              ind := ?_
              inj := ?_
              nind := ?_ }
            · intro i hi hpn
              rw [hBsb]
              by_cases hieq : i = bi
              · subst hieq
                rw [sgb]
                exact ⟨hloA, hhiA, hmarkA⟩
              · rw [hfr i hieq] at hpn ⊢
                obtain ⟨u1, u2, u3⟩ := hinv.reg i hi hpn
                exact ⟨u1, u2, hBmono _ u3⟩
            · intro _
              rw [hBsb]
              exact ⟨hBlo, hBhi, hBmark⟩
            · intro i hi j hj hne hpn
              by_cases hieq : i = bi
              · subst hieq
                rw [sgb] at hpn ⊢
                rw [hfr j (Ne.symm hne)]
                by_cases hpj : getBlockPointer fs.disk ino j = 0
                · rw [hpj]
                  exact hbn0
                · exact (used_ne_free (hinv.reg j hj hpj).2.2 hfreeA).symm
              · rw [hfr i hieq] at hpn ⊢
                by_cases hjeq : j = bi
                · subst hjeq
                  rw [sgb]
                  exact used_ne_free (hinv.reg i hi hpn).2.2 hfreeA
                · rw [hfr j hjeq]
                  exact hinv.inj i hi j hj hne hpn
            · intro i hi hpn
              by_cases hieq : i = bi
              · subst hieq
                rw [sgb]
                exact hBbne
              · rw [hfr i hieq] at hpn ⊢
                obtain ⟨-, -, u3⟩ := hinv.reg i hi hpn
                exact hBother _ u3 (hinv.nind i hi hpn)

/-- The write loop, when it reports writing everything it was given,
preserves the invariant, the frame and the inode's scalar fields, never
disturbs a nonzero pointer, leaves untouched every used data block it
was not asked to write, and leaves every written byte readable through
the block-pointer walk. -/
theorem writeLoopF_spec :
    ∀ (fuel : Nat) (fs : FS) (ino : Inode) (offset w : Nat) (rest : List Nat)
      (fs' : FS) (ino' : Inode) (wfin : Nat),
      WInv fs ino →
      writeLoopF fs ino offset w rest fuel = some (fs', ino', wfin) →
      wfin = w + rest.length →
      WInv fs' ino' ∧
      stateFrame fs fs' ∧
      ino'.valid = ino.valid ∧ ino'.inode_type = ino.inode_type ∧ ino'.size = ino.size ∧
      ino'.created = ino.created ∧ ino'.modified = ino.modified ∧
      (∀ i, i < 1029 → getBlockPointer fs.disk ino i ≠ 0 →
        getBlockPointer fs'.disk ino' i = getBlockPointer fs.disk ino i) ∧
      (∀ b, fs.free_blocks.getD b true = false → b ≠ ino.indirect →
        (∀ i, i < 1029 → (offset + w) / BLOCK_SIZE ≤ i →
          getBlockPointer fs.disk ino i ≠ b) →
        fs'.disk.data b = fs.disk.data b) ∧
      (∀ k, k < rest.length → fileAt fs'.disk ino' (offset + w + k) = some (rest.getD k 0)) := by
  intro fuel
  induction fuel with
  | zero =>
    intro fs ino offset w rest fs' ino' wfin hinv h hfin
    cases rest with
    | nil =>
      injection h with h
      injection h with h1 h
      injection h with h2 h3
      subst h1
      subst h2
      subst h3
      refine ⟨hinv, stateFrame_refl fs, rfl, rfl, rfl, rfl, rfl, fun _ _ _ => rfl,
        fun _ _ _ _ => rfl, ?_⟩
      intro k hk
      simp at hk
    | cons a l =>
      injection h with h
      injection h with h1 h
      injection h with h2 h3
      exfalso
      rw [List.length_cons] at hfin
      omega
  | succ fuel ih =>
    intro fs ino offset w rest fs' ino' wfin hinv h hfin
    cases rest with
    | nil =>
      injection h with h
      injection h with h1 h
      injection h with h2 h3
      subst h1
      subst h2
      subst h3
      refine ⟨hinv, stateFrame_refl fs, rfl, rfl, rfl, rfl, rfl, fun _ _ _ => rfl,
        fun _ _ _ _ => rfl, ?_⟩
      intro k hk
      simp at hk
    | cons a l =>
      simp only [writeLoopF] at h
      split at h
      · simp at h
      · rename_i fsA inoA heq
        injection h with h
        injection h with h1 h
        injection h with h2 h3
        exfalso
        rw [List.length_cons] at hfin
        omega
      · rename_i fsA inoA bn heq
        have S := writeStep_spec hinv heq
        split at h
        · rename_i d hw
          injection h with h
          injection h with h1 h
          injection h with h2 h3
          exfalso
          rw [List.length_cons] at hfin
          omega
        · rename_i d hw
          set btw := min (BLOCK_SIZE - (offset + w) % BLOCK_SIZE) ((a :: l).length)
            with hbtwdef
          set B0 := (if (offset + w) % BLOCK_SIZE ≠ 0 ∨ (a :: l).length < BLOCK_SIZE then
            (diskRead fsA.disk bn).getD (List.replicate BLOCK_SIZE 0)
            else List.replicate BLOCK_SIZE 0) with hB0
          have hd1 : (diskWrite fsA.disk bn
              (splice B0 ((offset + w) % BLOCK_SIZE) ((a :: l).take btw))).1 = d := by
            rw [hw]
          have hdblocks : d.blocks = fsA.disk.blocks := by
            rw [← hd1]
            exact diskWrite_blocks _ _ _
          have hbnne : getBlockPointer fsA.disk inoA ((offset + w) / BLOCK_SIZE) ≠ 0 := by
            rw [S.ptrbi]
            exact S.bn0
          have hbnb := S.inv.reg _ S.bilt hbnne
          rw [S.ptrbi] at hbnb
          have hbnlt : bn < fsA.disk.blocks := lt_of_lt_of_le hbnb.2.1 S.inv.sbdisk
          have hB0len : B0.length = BLOCK_SIZE := by
            rw [hB0]
            split
            · rcases hr : diskRead fsA.disk bn with _ | bs
              · unfold diskRead at hr
                rw [if_pos hbnlt] at hr
                exact absurd hr (by simp)
              · rw [Option.getD_some]
                exact diskRead_length hr
            · exact List.length_replicate _ _
          have hboL : (offset + w) % 4096 < 4096 := Nat.mod_lt _ (by norm_num)
          have hbtw_le_blk : btw ≤ 4096 - (offset + w) % 4096 := by
            rw [hbtwdef]
            exact Nat.min_le_left _ _
          have hbtwle : btw ≤ (a :: l).length := by
            rw [hbtwdef]
            exact Nat.min_le_right _ _
          have htl : ((a :: l).take btw).length = btw := by
            rw [List.length_take]
            exact Nat.min_eq_left hbtwle
          have hNEWlen : (splice B0 ((offset + w) % BLOCK_SIZE)
              ((a :: l).take btw)).length = BLOCK_SIZE := by
            rw [length_splice]
            · exact hB0len
            · rw [hB0len, htl]
              exact show (offset + w) % 4096 + btw ≤ 4096 by omega
          have hdata : ∀ b, b ≠ bn → d.data b = fsA.disk.data b := by
            intro b hb
            rw [← hd1, diskWrite_data _ _ _ hNEWlen b, if_neg (fun hc => hb hc.2)]
          have hdbn : d.data bn =
              splice B0 ((offset + w) % BLOCK_SIZE) ((a :: l).take btw) := by
            rw [← hd1, diskWrite_data _ _ _ hNEWlen bn, if_pos ⟨hbnlt, rfl⟩]
          have hptrBeq : ∀ i, getBlockPointer d inoA i =
              getBlockPointer fsA.disk inoA i :=
            fun i => getBlockPointer_congr hdblocks hdata inoA (Ne.symm S.bnind) i
          have ebn : getBlockPointer d inoA ((offset + w) / BLOCK_SIZE) = bn :=
            (hptrBeq _).trans S.ptrbi
          have hinvB : WInv { fsA with disk := d } inoA := by
            refine ⟨S.inv.maplen, ?_, S.inv.sb32, S.inv.dlen, S.inv.d32, ?_, ?_, ?_, ?_⟩
            · show fsA.superblock.blocks ≤ d.blocks
              rw [hdblocks]
              exact S.inv.sbdisk
            · intro i hi hpn
              dsimp only at hpn ⊢
              rw [hptrBeq i] at hpn ⊢
              exact S.inv.reg i hi hpn
            · intro hz
              dsimp only
              exact S.inv.ind hz
            · intro i hi j hj hne hpn
              dsimp only at hpn ⊢
              rw [hptrBeq i] at hpn ⊢
              rw [hptrBeq j]
              exact S.inv.inj i hi j hj hne hpn
            · intro i hi hpn
              dsimp only at hpn ⊢
              rw [hptrBeq i] at hpn ⊢
              exact S.inv.nind i hi hpn
          have hfileAt : ∀ (dsk : Disk) (ino2 : Inode), dsk.blocks = fsA.disk.blocks →
              dsk.data bn = splice B0 ((offset + w) % BLOCK_SIZE) ((a :: l).take btw) →
              getBlockPointer dsk ino2 ((offset + w) / BLOCK_SIZE) = bn →
              ∀ k, k < btw →
                fileAt dsk ino2 (offset + w + k) = some ((a :: l).getD k 0) := by
            intro dsk ino2 hbk hdat hptr2 k hk
            have hdiv : (offset + w + k) / 4096 = (offset + w) / 4096 := by omega
            have hmod : (offset + w + k) % 4096 = (offset + w) % 4096 + k := by omega
            unfold fileAt
            rw [show (offset + w + k) / BLOCK_SIZE = (offset + w) / BLOCK_SIZE from hdiv,
              hptr2, if_neg S.bn0]
            rw [show diskRead dsk bn = some (splice B0 ((offset + w) % BLOCK_SIZE)
                ((a :: l).take btw)) from by
              unfold diskRead
              rw [if_pos (by rw [hbk]; exact hbnlt), hdat,
                List.take_of_length_le (le_of_eq hNEWlen), padTo_of_length hNEWlen]]
            show some ((splice B0 ((offset + w) % BLOCK_SIZE) ((a :: l).take btw)).getD
              ((offset + w + k) % BLOCK_SIZE) 0) = some ((a :: l).getD k 0)
            rw [show (offset + w + k) % BLOCK_SIZE = (offset + w) % BLOCK_SIZE + k from hmod]
            rw [getD_splice_mid (Nat.le_add_right _ _)
              (by rw [htl]; exact show (offset + w) % 4096 + k <
                (offset + w) % 4096 + btw by omega)
              (by rw [htl, hB0len]; exact show (offset + w) % 4096 + btw ≤ 4096 by omega)]
            rw [show (offset + w) % BLOCK_SIZE + k - (offset + w) % BLOCK_SIZE = k from
              by omega]
            rw [getD_take hk]
          have hbne_of : ∀ b, fs.free_blocks.getD b true = false →
              (∀ i, i < 1029 → (offset + w) / BLOCK_SIZE ≤ i →
                getBlockPointer fs.disk ino i ≠ b) → b ≠ bn := by
            intro b hb havoid
            rcases S.resfree with hres | hfree
            · intro hc
              exact havoid _ S.bilt (le_refl _) (hres.trans hc.symm)
            · exact used_ne_free hb hfree
          by_cases hfull : btw = (a :: l).length
          · rw [hfull, List.drop_length] at h
            simp only [writeLoopF] at h
            injection h with h
            injection h with h1 h
            injection h with h2 h3
            subst h1
            subst h2
            subst h3
            refine ⟨hinvB, stateFrame_trans (stateFrame_writeStep heq)
              ⟨rfl, rfl, rfl, hdblocks, rfl⟩, S.valid, S.ty, S.size, S.created, S.modified,
              ?_, ?_, ?_⟩
            · intro i hi hpn
              by_cases hieq : i = (offset + w) / BLOCK_SIZE
              · rw [hieq] at hpn ⊢
                exact (hptrBeq _).trans (S.ptrbi.trans (S.resv hpn))
              · exact (hptrBeq i).trans (S.ptrfr i hi hieq)
            · intro b hb hbind havoid
              have hbbn : b ≠ bn := hbne_of b hb havoid
              exact (hdata b hbbn).trans (S.datafr b hb hbind)
            · intro k hk
              exact hfileAt d inoA hdblocks hdbn ebn k (by rw [hfull]; exact hk)
          · have hlt : btw < (a :: l).length := lt_of_le_of_ne hbtwle hfull
            have hbtweq : btw = 4096 - (offset + w) % 4096 := by
              rw [hbtwdef]
              rcases Nat.le_total (BLOCK_SIZE - (offset + w) % BLOCK_SIZE)
                ((a :: l).length) with hle | hle
              · exact Nat.min_eq_left hle
              · exact absurd (Nat.min_eq_right hle)
                  (by rw [hbtwdef] at hfull; exact hfull)
            have hfin' : wfin = (w + btw) + ((a :: l).drop btw).length := by
              rw [List.length_drop]
              omega
            obtain ⟨ihinv, ihframe, ihv, ihty, ihsz, ihcr, ihmo, ihptr, ihF, ihcontent⟩ :=
              ih { fsA with disk := d } inoA offset (w + btw) ((a :: l).drop btw)
                fs' ino' wfin hinvB h hfin'
            have hbiplus : (offset + (w + btw)) / 4096 = (offset + w) / 4096 + 1 := by
              rw [hbtweq]
              omega
            have havoidB : ∀ b, b ≠ bn →
                (∀ i, i < 1029 → (offset + w) / BLOCK_SIZE ≤ i →
                  getBlockPointer fs.disk ino i ≠ b) →
                ∀ i, i < 1029 → (offset + (w + btw)) / BLOCK_SIZE ≤ i →
                  getBlockPointer ({ fsA with disk := d } : FS).disk inoA i ≠ b := by
              intro b hbbn havoid i hi hge
              have hgeL : (offset + (w + btw)) / 4096 ≤ i := hge
              have hge' : (offset + w) / 4096 + 1 ≤ i := by omega
              have hine : i ≠ (offset + w) / BLOCK_SIZE := by
                intro hc
                have hc' : i = (offset + w) / 4096 := hc
                omega
              show getBlockPointer d inoA i ≠ b
              rw [hptrBeq i, S.ptrfr i hi hine]
              exact havoid i hi (show (offset + w) / 4096 ≤ i by omega)
            have havoidBn : ∀ i, i < 1029 → (offset + (w + btw)) / BLOCK_SIZE ≤ i →
                getBlockPointer ({ fsA with disk := d } : FS).disk inoA i ≠ bn := by
              intro i hi hge
              have hgeL : (offset + (w + btw)) / 4096 ≤ i := hge
              have hge' : (offset + w) / 4096 + 1 ≤ i := by omega
              have hine : i ≠ (offset + w) / BLOCK_SIZE := by
                intro hc
                have hc' : i = (offset + w) / 4096 := hc
                omega
              show getBlockPointer d inoA i ≠ bn
              by_cases hz : getBlockPointer d inoA i = 0
              · rw [hz]
                exact Ne.symm S.bn0
              · intro hc
                have hz' : getBlockPointer ({ fsA with disk := d } : FS).disk inoA i ≠ 0 := hz
                have hc' : getBlockPointer ({ fsA with disk := d } : FS).disk inoA i =
                    getBlockPointer ({ fsA with disk := d } : FS).disk inoA
                      ((offset + w) / BLOCK_SIZE) := by
                  show getBlockPointer d inoA i =
                    getBlockPointer d inoA ((offset + w) / BLOCK_SIZE)
                  rw [ebn]
                  exact hc
                exact hinvB.inj i hi ((offset + w) / BLOCK_SIZE) S.bilt hine hz' hc'
            have hframeAB : stateFrame fsA { fsA with disk := d } :=
              ⟨rfl, rfl, rfl, hdblocks, rfl⟩
            refine ⟨ihinv, stateFrame_trans (stateFrame_writeStep heq)
              (stateFrame_trans hframeAB ihframe),
              ihv.trans S.valid, ihty.trans S.ty, ihsz.trans S.size, ihcr.trans S.created,
              ihmo.trans S.modified, ?_, ?_, ?_⟩
            · intro i hi hpn
              by_cases hieq : i = (offset + w) / BLOCK_SIZE
              · rw [hieq] at hpn ⊢
                have e1 : getBlockPointer ({ fsA with disk := d } : FS).disk inoA
                    ((offset + w) / BLOCK_SIZE) =
                    getBlockPointer fs.disk ino ((offset + w) / BLOCK_SIZE) :=
                  (hptrBeq _).trans (S.ptrbi.trans (S.resv hpn))
                exact (ihptr _ S.bilt (by rw [e1]; exact hpn)).trans e1
              · have e1 : getBlockPointer ({ fsA with disk := d } : FS).disk inoA i =
                    getBlockPointer fs.disk ino i :=
                  (hptrBeq i).trans (S.ptrfr i hi hieq)
                exact (ihptr i hi (by rw [e1]; exact hpn)).trans e1
            · intro b hb hbind havoid
              have hbbn : b ≠ bn := hbne_of b hb havoid
              have h1 : fs'.disk.data b = ({ fsA with disk := d } : FS).disk.data b :=
                ihF b (S.mono b hb) (S.indfr b hb hbind) (havoidB b hbbn havoid)
              exact h1.trans ((hdata b hbbn).trans (S.datafr b hb hbind))
            · intro k hk
              rw [List.length_cons] at hk
              by_cases hkb : k < btw
              · have hpB : getBlockPointer ({ fsA with disk := d } : FS).disk inoA
                    ((offset + w) / BLOCK_SIZE) ≠ 0 := by
                  show getBlockPointer d inoA ((offset + w) / BLOCK_SIZE) ≠ 0
                  rw [ebn]
                  exact S.bn0
                have hptrF : getBlockPointer fs'.disk ino' ((offset + w) / BLOCK_SIZE) =
                    bn :=
                  (ihptr _ S.bilt hpB).trans ebn
                have hdataF : fs'.disk.data bn =
                    splice B0 ((offset + w) % BLOCK_SIZE) ((a :: l).take btw) :=
                  (ihF bn S.mark S.bnind havoidBn).trans hdbn
                have hblF : fs'.disk.blocks = fsA.disk.blocks :=
                  (ihframe.2.2.2.1).trans hdblocks
                exact hfileAt fs'.disk ino' hblF hdataF hptrF k hkb
              · have hk' : k - btw < ((a :: l).drop btw).length := by
                  rw [List.length_drop, List.length_cons]
                  omega
                have hc := ihcontent (k - btw) hk'
                rw [show offset + (w + btw) + (k - btw) = offset + w + k from by omega,
                  getD_drop, show btw + (k - btw) = k from by omega] at hc
                exact hc

theorem take_eq_of_getD {xs ys : List Nat} {n : Nat} (hx : n ≤ xs.length)
    (hy : n ≤ ys.length) (h : ∀ j, j < n → xs.getD j 0 = ys.getD j 0) :
    xs.take n = ys.take n := by
  apply List.ext_getElem?
  intro i
  rcases Nat.lt_or_ge i n with hi | hi
  · rw [List.getElem?_take, List.getElem?_take, if_pos hi, if_pos hi]
    have hxi : i < xs.length := lt_of_lt_of_le hi hx
    have hyi : i < ys.length := lt_of_lt_of_le hi hy
    rw [List.getElem?_eq_getElem hxi, List.getElem?_eq_getElem hyi]
    have hh := h i hi
    rw [List.getD_eq_getElem xs 0 hxi, List.getD_eq_getElem ys 0 hyi] at hh
    exact congrArg some hh
  · rw [List.getElem?_eq_none (by rw [List.length_take]; omega),
      List.getElem?_eq_none (by rw [List.length_take]; omega)]

/-- The read loop reproduces exactly the byte list visible through the
block-pointer walk, provided every wanted position resolves. -/
theorem readLoopF_eq :
    ∀ (fuel : Nat) (d : Disk) (ino : Inode) (remaining fo : Nat) (out : List Nat),
      out.length = remaining →
      remaining ≤ fuel →
      (∀ k, k < remaining → fileAt d ino (fo + k) = some (out.getD k 0)) →
      readLoopF d ino fuel remaining fo = out := by
  intro fuel
  induction fuel with
  | zero =>
    intro d ino remaining fo out hlen hle hcontent
    have h0 : remaining = 0 := Nat.le_zero.mp hle
    subst h0
    rw [List.eq_nil_of_length_eq_zero hlen]
    rfl
  | succ fuel ih =>
    intro d ino remaining fo out hlen hle hcontent
    cases remaining with
    | zero =>
      rw [List.eq_nil_of_length_eq_zero hlen]
      rfl
    | succ r =>
      have h0 := hcontent 0 (Nat.succ_pos r)
      rw [Nat.add_zero] at h0
      unfold fileAt at h0
      by_cases hp : getBlockPointer d ino (fo / BLOCK_SIZE) = 0
      · rw [if_pos hp] at h0
        exact absurd h0 (by simp)
      · rw [if_neg hp] at h0
        rcases hr : diskRead d (getBlockPointer d ino (fo / BLOCK_SIZE)) with _ | blk
        · rw [hr] at h0
          exact absurd h0 (by simp)
        · simp only [readLoopF]
          rw [if_neg hp, hr]
          set btc := min (BLOCK_SIZE - fo % BLOCK_SIZE) (r + 1) with hbtc
          show (blk.drop (fo % BLOCK_SIZE)).take btc ++
            readLoopF d ino fuel (r + 1 - btc) (fo + btc) = out
          have hbo : fo % 4096 < 4096 := Nat.mod_lt _ (by norm_num)
          have hbtcle : btc ≤ r + 1 := by
            rw [hbtc]
            exact Nat.min_le_right _ _
          have hbtcblk : btc ≤ 4096 - fo % 4096 := by
            rw [hbtc]
            exact Nat.min_le_left _ _
          have hbtc1 : 1 ≤ btc := by
            rw [hbtc]
            refine Nat.le_min.mpr ⟨show (1 : Nat) ≤ 4096 - fo % 4096 by omega, by omega⟩
          have hblk : blk.length = BLOCK_SIZE := diskRead_length hr
          have hbyte : ∀ j, j < btc →
              fileAt d ino (fo + j) = some (blk.getD (fo % BLOCK_SIZE + j) 0) := by
            intro j hj
            unfold fileAt
            rw [show (fo + j) / BLOCK_SIZE = fo / BLOCK_SIZE from
              show (fo + j) / 4096 = fo / 4096 by omega]
            rw [if_neg hp, hr]
            rw [show (fo + j) % BLOCK_SIZE = fo % BLOCK_SIZE + j from
              show (fo + j) % 4096 = fo % 4096 + j by omega]
          have hseg : (blk.drop (fo % BLOCK_SIZE)).take btc = out.take btc := by
            apply take_eq_of_getD
            · rw [List.length_drop, hblk]
              exact hbtcblk
            · rw [hlen]
              exact hbtcle
            · intro j hj
              rw [getD_drop]
              have h1 := hbyte j hj
              have h2 := hcontent j (lt_of_lt_of_le hj hbtcle)
              rw [h1] at h2
              exact Option.some.inj h2
          have hrec : readLoopF d ino fuel (r + 1 - btc) (fo + btc) = out.drop btc := by
            apply ih
            · rw [List.length_drop, hlen]
            · omega
            · intro k hk
              have hc := hcontent (btc + k) (by omega)
              rw [show fo + btc + k = fo + (btc + k) from by omega, getD_drop]
              exact hc
          rw [hseg, hrec]
          exact List.take_append_drop btc out

theorem getBlockPointer_scalars (d : Disk) (ino : Inode) (sz md : Nat) (i : Nat) :
    getBlockPointer d { ino with size := sz, modified := md } i =
      getBlockPointer d ino i := rfl

theorem fileAt_scalars (d : Disk) (ino : Inode) (sz md : Nat) (pos : Nat) :
    fileAt d { ino with size := sz, modified := md } pos = fileAt d ino pos := by
  unfold fileAt
  rw [getBlockPointer_scalars]

/-- C1: on a mounted file system holding a valid inode whose pointer
state is well formed, a `write` that reports having written all of
`data` is followed by a `read` of the same length at the same offset
returning exactly `data` — for any alignment of `offset` and
`data.length`, including ranges that cross block boundaries and the
direct-to-indirect boundary (block index 5). -/
theorem write_read_roundtrip (fs : FS) (inum : Nat) (ino : Inode) (data : List Nat)
    (offset t : Nat) (fs' : FS)
    (hm : fs.mounted = true)
    (hload : loadInode fs inum = some ino)
    (hvalid : ino.valid ≠ 0)
    (hinv : WInv fs ino)
    (htab : fs.superblock.inodes ≤ fs.superblock.inode_blocks * 93)
    (hibb : fs.superblock.inode_blocks + 1 ≤ fs.superblock.blocks)
    (hrange : offset + data.length < 4294967296)
    (ht : t < 4294967296)
    (hw : write fs inum data offset t = some (fs', (data.length : Int))) :
    read fs' inum data.length offset = some data := by
  unfold write at hw
  rw [hm, if_neg (by simp), hload] at hw
  dsimp only at hw
  rw [if_neg hvalid] at hw
  rcases hl : writeLoopF fs ino offset 0 data data.length with _ | ⟨fsL, inoL, w⟩
  · rw [hl] at hw
    simp at hw
  · rw [hl] at hw
    dsimp only at hw
    injection hw with hw
    injection hw with hwa hwb
    have hwl : w = data.length := Nat.cast_inj.mp hwb
    subst hwl
    obtain ⟨LInv, Lframe, Lval, Lty, Lsz, Lcr, Lmo, Lptr, LF, Lcontent⟩ :=
      writeLoopF_spec data.length fs ino offset 0 data fsL inoL data.length hinv hl
        (by omega)
    have hfl := loadInodeD_fields hload
    have hfs'd : fs'.disk = (saveInodeD fsL.superblock fsL.disk inum
        { inoL with size := max inoL.size (offset + data.length), modified := t }).1 := by
      rw [← hwa]
      rfl
    have hfs'sb : fs'.superblock = fsL.superblock := by
      rw [← hwa]
      rfl
    have hfs'm : fs'.mounted = fsL.mounted := by
      rw [← hwa]
      rfl
    have hin : inum < fs.superblock.inodes := loadInodeD_lt hload
    have hin' : inum < fsL.superblock.inodes := by
      rw [Lframe.1]
      exact hin
    have htab' : fsL.superblock.inodes ≤ fsL.superblock.inode_blocks * 93 := by
      rw [Lframe.1]
      exact htab
    have hibb' : fsL.superblock.inode_blocks + 1 ≤ fsL.superblock.blocks := by
      rw [Lframe.1]
      exact hibb
    have hb1 : inoL.valid < 4294967296 := by
      rw [Lval]
      exact hfl.2.1
    have hb2 : inoL.inode_type < 4294967296 := by
      rw [Lty]
      exact hfl.2.2.1
    have hb3 : max inoL.size (offset + data.length) < 4294967296 :=
      max_lt (by rw [Lsz]; exact hfl.2.2.2.1) hrange
    have hb4 : inoL.created < 4294967296 := by
      rw [Lcr]
      exact hfl.2.2.2.2.1
    have hb7 : inoL.indirect < 4294967296 := by
      by_cases hz : inoL.indirect = 0
      · rw [hz]
        norm_num
      · exact lt_trans (LInv.ind hz).2.1 LInv.sb32
    have hload' : loadInode fs' inum =
        some { inoL with size := max inoL.size (offset + data.length), modified := t } := by
      show loadInodeD fs'.superblock fs'.disk inum = some _
      rw [hfs'sb, hfs'd]
      exact loadInodeD_after_save_self fsL.superblock fsL.disk inum _
        hin' htab' hibb' LInv.sbdisk LInv.dlen hb1 hb2 hb3 hb4 ht LInv.d32 hb7
    obtain ⟨-, hSblocks, hSother, -⟩ := saveInodeD_spec fsL.superblock fsL.disk inum
      { inoL with size := max inoL.size (offset + data.length), modified := t }
      hin' htab' hibb' LInv.sbdisk
    have hc_le : 1 + inum / INODES_PER_BLOCK ≤ fsL.superblock.inode_blocks :=
      inodeTableBlock_le hin' htab'
    have hc93 : 1 + inum / 93 ≤ fsL.superblock.inode_blocks := hc_le
    have hb' : fs'.disk.blocks = fsL.disk.blocks := by
      rw [hfs'd]
      exact hSblocks
    have hdata' : ∀ b, b ≠ 1 + inum / INODES_PER_BLOCK →
        fs'.disk.data b = fsL.disk.data b := by
      intro b hbb
      rw [hfs'd]
      exact hSother b hbb
    have hind' : ({ inoL with
        size := max inoL.size (offset + data.length),
        modified := t } : Inode).indirect ≠ 1 + inum / INODES_PER_BLOCK := by
      show inoL.indirect ≠ 1 + inum / 93
      by_cases hz : inoL.indirect = 0
      · rw [hz]
        omega
      · have h1 := (LInv.ind hz).1
        omega
    have hp' : ∀ i, getBlockPointer fsL.disk ({ inoL with
        size := max inoL.size (offset + data.length), modified := t } : Inode) i ≠ 0 →
        getBlockPointer fsL.disk ({ inoL with
          size := max inoL.size (offset + data.length), modified := t } : Inode) i ≠
          1 + inum / INODES_PER_BLOCK := by
      intro i hpn
      rw [getBlockPointer_scalars] at hpn ⊢
      rcases Nat.lt_or_ge i 1029 with hi | hi
      · have h1 := (LInv.reg i hi hpn).1
        exact show getBlockPointer fsL.disk inoL i ≠ 1 + inum / 93 by omega
      · exact absurd (getBlockPointer_zero_of_ge fsL.disk inoL i hi) hpn
    have hcontent' : ∀ k, k < data.length →
        fileAt fs'.disk ({ inoL with
          size := max inoL.size (offset + data.length),
          modified := t } : Inode) (offset + k) = some (data.getD k 0) := by
      intro k hk
      have h1 := Lcontent k hk
      rw [Nat.add_zero] at h1
      rw [fileAt_congr hb' hdata' _ hind' hp' (offset + k), fileAt_scalars]
      exact h1
    have hm' : fs'.mounted = true := by
      rw [hfs'm, Lframe.2.1, hm]
    unfold read
    rw [hm', if_neg (by simp), hload']
    dsimp only
    rw [if_neg (show ¬ inoL.valid = 0 from by rw [Lval]; exact hvalid)]
    have h2 : offset + data.length ≤ max inoL.size (offset + data.length) :=
      le_max_right _ _
    by_cases hoff : offset ≥ max inoL.size (offset + data.length)
    · rw [if_pos hoff]
      have hlen0 : data.length = 0 := by omega
      rw [List.eq_nil_of_length_eq_zero hlen0]
    · rw [if_neg hoff]
      rw [show min data.length (max inoL.size (offset + data.length) - offset) =
        data.length from Nat.min_eq_left (by omega)]
      exact congrArg some (readLoopF_eq data.length fs'.disk _ data.length offset data
        rfl (le_refl _) hcontent')

set_option maxRecDepth 1000000 in
theorem createFile_empty_name_witness :
    createFile wFS [] 99 = some (wFS2, (2 : Int)) ∧ 2 < wFS.superblock.inodes ∧
      (∃ kino, loadInode wFS 2 = some kino ∧ kino.valid = 0) ∧
      ∀ g x, x ∈ ls g → x.1 ≠ [] := by
  have hsvs := saveInodeD_spec wFS.superblock wFS.disk 2
    ⟨1, Inode.TYPE_FILE, 0, 99, 99, [0, 0, 0, 0, 0], 0⟩ (by decide) (by decide) (by decide)
    (by decide)
  have hsv2 : (saveInode wFS 2 ⟨1, Inode.TYPE_FILE, 0, 99, 99, [0, 0, 0, 0, 0], 0⟩).2 =
      true := by
    unfold saveInode
    dsimp only
    exact hsvs.1
  have hsave : saveInode wFS 2 ⟨1, Inode.TYPE_FILE, 0, 99, 99, [0, 0, 0, 0, 0], 0⟩ =
      (wFS1, true) := by
    refine Prod.ext ?_ hsv2
    unfold wFS1
    dsimp only
  have hsb1 : wFS1.superblock = wFS.superblock := by
    unfold wFS1 saveInode
    dsimp only
  have hdisk1 : wFS1.disk = (saveInodeD wFS.superblock wFS.disk 2
      ⟨1, Inode.TYPE_FILE, 0, 99, 99, [0, 0, 0, 0, 0], 0⟩).1 := by
    unfold wFS1 saveInode
    dsimp only
  have hbl : wFS1.disk.blocks = wFS.disk.blocks := by
    rw [hdisk1]
    exact hsvs.2.1
  have hload0 : loadInode wFS1 0 = some wRootIno := by
    unfold loadInode
    rw [hsb1, hdisk1]
    exact (loadInodeD_after_save_other wFS.superblock wFS.disk 2
      ⟨1, Inode.TYPE_FILE, 0, 99, 99, [0, 0, 0, 0, 0], 0⟩ 0 (by decide) (by decide)
      (by decide) (by decide) (by decide)).trans (by decide)
  obtain ⟨d, hwr⟩ := write_resolve_small wFS1 0 wRootIno
    (DirEntry.pack ⟨[].take MAX_FILENAME, 2⟩) wRootIno.size 99 2 (by decide) hload0
    (by decide) (by decide) (by decide) (by decide) (by rw [hbl]; decide) (by decide)
    (by decide)
  have haddEx : ∃ x, addDirEntry wFS1 wFS1.current_dir_inode [] 2 99 = some (x, true) := by
    unfold addDirEntry
    dsimp only
    rw [show wFS1.current_dir_inode = 0 from by decide, hload0]
    dsimp only
    rw [if_neg (by decide), hwr]
    dsimp only
    rw [beq_self_eq_true]
    exact ⟨_, rfl⟩
  obtain ⟨x, hx⟩ := haddEx
  exact createFile_empty_name wFS 99 2 wRootIno wFS1 wFS2 rfl (by decide) (by decide)
    (by
      intro data hd
      have hval : read wFS 0 528 0 = some wDirData := by decide
      rw [show wFS.current_dir_inode = 0 from rfl, show wRootIno.size = 528 from rfl,
        hval] at hd
      injection hd with hd
      subst hd
      decide)
    (by decide) hsave (opt_eta_fs_bool hx (wFS1, false))

theorem write_read_roundtrip_witness :
    read (((write wFS 1 [72, 105] 0 99).getD (wFS, 0)).1) 1 2 0 = some [72, 105] := by
  have hptrW : ∀ i, getBlockPointer wFS.disk wFileIno i = if i = 0 then 3 else 0 := by
    intro i
    rcases Nat.lt_or_ge i 5 with h5 | h5
    · interval_cases i <;> decide
    · rw [if_neg (show ¬ i = 0 by omega)]
      unfold getBlockPointer
      rw [if_neg (show ¬ i < POINTERS_PER_INODE from show ¬ i < 5 by omega),
        if_pos (show wFileIno.indirect = 0 from rfl)]
  have hinv : WInv wFS wFileIno := by
    refine ⟨by decide, by decide, by decide, by decide, by decide, ?_, ?_, ?_, ?_⟩
    · intro i hi hpn
      rw [hptrW i] at hpn ⊢
      by_cases h0 : i = 0
      · rw [if_pos h0]
        decide
      · rw [if_neg h0] at hpn
        exact absurd rfl hpn
    · intro h
      exact absurd rfl h
    · intro i hi j hj hne hpn
      rw [hptrW i] at hpn ⊢
      rw [hptrW j]
      by_cases h0 : i = 0
      · rw [if_pos h0, if_neg (show ¬ j = 0 by omega)]
        decide
      · rw [if_neg h0] at hpn
        exact absurd rfl hpn
    · intro i hi hpn
      rw [hptrW i] at hpn ⊢
      by_cases h0 : i = 0
      · rw [if_pos h0]
        decide
      · rw [if_neg h0] at hpn
        exact absurd rfl hpn
  obtain ⟨d, hw⟩ := write_resolve_small wFS 1 wFileIno [72, 105] 0 99 3 rfl (by decide)
    (by decide) (by decide) (by decide) (by decide) (by decide) (by decide) (by decide)
  exact write_read_roundtrip wFS 1 wFileIno [72, 105] 0 99
    (((write wFS 1 [72, 105] 0 99).getD (wFS, 0)).1) rfl (by decide) (by decide) hinv
    (by decide) (by decide) (by decide) (by decide) (opt_eta_fs_int hw (wFS, 0))

end FsSim
